import Mathlib

/-!
# The network configuration lists of nerdctl

A shallow embedding of `pkg/netutil/netutil.go`, `network_create.go`, `network_inspect.go`,
`network_ls.go` and `pkg/inspecttypes/native/network.go`, with models of the library
functions they call (`net`, `encoding/json`, `html/template`, `path/filepath`, `sort`, `os`
and `libcni`), followed by the theorems about them.

Go strings are modelled by Lean strings, that is, as text; the bytes of an IP address by
natural numbers. The library functions are modelled as of the Go release and the libcni
release of the time of the source (Go 1.15, libcni 0.8); where a later release differs, a
comment says so.
-/

set_option linter.dupNamespace false

/-- The errors of the program and of the libraries it calls. -/
inductive Error where
  /-- The error errdefs.ErrInvalidArgument. -/
  | ErrInvalidArgument
  /-- The error errdefs.ErrAlreadyExists. -/
  | ErrAlreadyExists
  /-- The error "failed to parse CIDR %q". -/
  | failedToParseCIDR (cidr : String)
  /-- The error "unexpected CIDR %q, maybe you meant %q?". -/
  | unexpectedCIDR (cidr : String) (meant : String)
  /-- An error of html/template. -/
  | template (msg : String)
  /-- An error of libcni, with the beginning of its message. -/
  | libcni (msg : String)
  /-- An error of a call of the operating system on a path. -/
  | os (op : String) (path : String)
  /-- An error of json.MarshalIndent. -/
  | marshal
  /-- The error "requires exactly 1 argument". -/
  | requiresExactly1Argument
  /-- The error "malformed name %s". -/
  | malformedName (name : String)
  /-- The error "network with name %s already exists". -/
  | networkAlreadyExists (name : String)
  /-- The error "requires at least 1 argument". -/
  | requiresAtLeast1Argument
  /-- The error "no such network: %s". -/
  | noSuchNetwork (name : String)
  /-- The run-time error of an index out of range. -/
  | indexOutOfRange
  /-- A panic with the given cause. -/
  | panic (cause : Error)
deriving DecidableEq, Repr

deriving instance DecidableEq for Except

/-- The order of Go strings, which compares them byte by byte; on text that is the order
of the code points. -/
def stringLess : List Char → List Char → Bool
  | _, [] => false
  | [], _ :: _ => true
  | a :: as, b :: bs =>
    decide (a.toNat < b.toNat) || (decide (a.toNat = b.toNat) && stringLess as bs)

namespace net

/-- An IP address: a slice of 4 or 16 bytes, the empty list standing for the nil address. -/
abbrev IP := List Nat

/-- A network mask, a slice of 4 or 16 bytes. -/
abbrev IPMask := List Nat

/-- An IP network: base address and mask. -/
structure IPNet where
  IP : IP
  Mask : IPMask
deriving DecidableEq, Repr

def IPv4len : Nat := 4

def IPv6len : Nat := 16

/-- Bigger than we need, not too big to worry about overflow. -/
def big : Nat := 0xFFFFFF

def v4InV6Prefix : List Nat := [0, 0, 0, 0, 0, 0, 0, 0, 0, 0, 0xff, 0xff]

/-- The 16-byte form of the IPv4 address a.b.c.d. -/
def IPv4 (a b c d : Nat) : IP := v4InV6Prefix ++ [a, b, c, d]

/-- The loop of dtoi: n is the value and i the number of characters read so far. -/
def dtoiLoop : List Char → Nat → Nat → Nat × Nat × Bool
  | [], n, i => if i = 0 then (0, 0, false) else (n, i, true)
  | c :: cs, n, i =>
    if '0' ≤ c ∧ c ≤ '9' then
      let n1 := n * 10 + (c.toNat - '0'.toNat)
      if n1 ≥ big then (big, i, false) else dtoiLoop cs n1 (i + 1)
    else if i = 0 then (0, 0, false) else (n, i, true)

/-- Decimal to integer: number, characters consumed, success. -/
def dtoi (s : List Char) : Nat × Nat × Bool := dtoiLoop s 0 0

/-- The loop of xtoi. -/
def xtoiLoop : List Char → Nat → Nat → Nat × Nat × Bool
  | [], n, i => if i = 0 then (0, i, false) else (n, i, true)
  | c :: cs, n, i =>
    if '0' ≤ c ∧ c ≤ '9' then
      let n1 := n * 16 + (c.toNat - '0'.toNat)
      if n1 ≥ big then (0, i, false) else xtoiLoop cs n1 (i + 1)
    else if 'a' ≤ c ∧ c ≤ 'f' then
      let n1 := n * 16 + (c.toNat - 'a'.toNat) + 10
      if n1 ≥ big then (0, i, false) else xtoiLoop cs n1 (i + 1)
    else if 'A' ≤ c ∧ c ≤ 'F' then
      let n1 := n * 16 + (c.toNat - 'A'.toNat) + 10
      if n1 ≥ big then (0, i, false) else xtoiLoop cs n1 (i + 1)
    else if i = 0 then (0, i, false) else (n, i, true)

/-- Hexadecimal to integer: number, characters consumed, success. -/
def xtoi (s : List Char) : Nat × Nat × Bool := xtoiLoop s 0 0

/-- The loop of parseIPv4 over the octets that remain (k of them), i being the octet index
and p the octets read. -/
def parseIPv4Loop : Nat → Nat → List Char → List Nat → Option (List Nat)
  | 0, _, s, p => if s.length ≠ 0 then none else some p
  | k + 1, i, s, p =>
    if s.length = 0 then none
    else
      let s1 : Option (List Char) :=
        if i > 0 then (if s.head? ≠ some '.' then none else some (s.drop 1)) else some s
      match s1 with
      | none => none
      | some s =>
        match dtoi s with
        | (n, c, ok) =>
          if !ok || n > 0xFF then none
          else parseIPv4Loop k (i + 1) (s.drop c) (p ++ [n])

/-- Parse s as a dotted-quad IPv4 address; none stands for the nil result. (Later Go
releases also refuse an octet with a leading zero.) -/
def parseIPv4 (s : List Char) : Option IP :=
  match parseIPv4Loop IPv4len 0 s [] with
  | some [a, b, c, d] => some (IPv4 a b c d)
  | _ => none

/-- The state of the loop of parseIPv6. -/
structure V6State where
  ip : List Nat
  ellipsis : Int
  i : Nat
  s : List Char
deriving Repr

/-- The loop of parseIPv6, "parsing hex numbers followed by colon"; the result is the state at
the break of the loop, or none where the function returns nil. -/
def parseIPv6Loop : Nat → V6State → Option V6State
  | 0, st => some st
  | fuel + 1, st =>
    if ¬ st.i < IPv6len then some st
    else
      match xtoi st.s with
      | (n, c, ok) =>
        if !ok || n > 0xFFFF then none
        else if c < st.s.length ∧ st.s.get? c = some '.' then
          if st.ellipsis < 0 ∧ st.i ≠ IPv6len - IPv4len then none
          else if st.i + IPv4len > IPv6len then none
          else
            match parseIPv4 st.s with
            | none => none
            | some ip4 =>
              let ip := (((st.ip.set st.i (ip4.getD 12 0)).set (st.i + 1) (ip4.getD 13 0)).set
                (st.i + 2) (ip4.getD 14 0)).set (st.i + 3) (ip4.getD 15 0)
              some { st with ip := ip, s := [], i := st.i + IPv4len }
        else
          let ip := (st.ip.set st.i (n / 256 % 256)).set (st.i + 1) (n % 256)
          let i := st.i + 2
          let s := st.s.drop c
          if s.length = 0 then some { st with ip := ip, i := i, s := s }
          else if s.head? ≠ some ':' ∨ s.length = 1 then none
          else
            let s := s.drop 1
            if s.head? = some ':' then
              if st.ellipsis ≥ 0 then none
              else
                let s := s.drop 1
                if s.length = 0 then some { ip := ip, ellipsis := i, i := i, s := s }
                else parseIPv6Loop fuel { ip := ip, ellipsis := i, i := i, s := s }
            else parseIPv6Loop fuel { st with ip := ip, i := i, s := s }

/-- The expansion of the ellipsis: the bytes from the ellipsis on move to the end and zeros
fill the gap. -/
def expandEllipsis (ip : List Nat) (ellipsis i : Nat) : List Nat :=
  ip.take ellipsis ++ List.replicate (IPv6len - i) 0 ++ (ip.drop ellipsis).take (i - ellipsis)

/-- Parse s as a literal IPv6 address; none stands for the nil result. -/
def parseIPv6 (s : List Char) : Option IP :=
  let ip0 : List Nat := List.replicate IPv6len 0
  let lead : Bool := s.length ≥ 2 ∧ s.get? 0 = some ':' ∧ s.get? 1 = some ':'
  let s1 := if lead then s.drop 2 else s
  let ellipsis0 : Int := if lead then 0 else -1
  if lead ∧ s1.length = 0 then some ip0
  else
    match parseIPv6Loop IPv6len { ip := ip0, ellipsis := ellipsis0, i := 0, s := s1 } with
    | none => none
    | some st =>
      if st.s.length ≠ 0 then none
      else if st.i < IPv6len then
        if st.ellipsis < 0 then none
        else some (expandEllipsis st.ip st.ellipsis.toNat st.i)
      else if st.ellipsis ≥ 0 then none
      else some st.ip

/-- The loop of CIDRMask: l bytes remain and n one bits remain. -/
def CIDRMaskLoop : Nat → Nat → List Nat
  | 0, _ => []
  | l + 1, n =>
    if n ≥ 8 then 0xff :: CIDRMaskLoop l (n - 8)
    else (255 - 255 / 2 ^ n) :: CIDRMaskLoop l 0

/-- An IPMask of ones 1 bits followed by 0s up to a total length of bits. -/
def CIDRMask (ones bits : Nat) : IPMask :=
  if bits ≠ 8 * IPv4len ∧ bits ≠ 8 * IPv6len then []
  else if ones > bits then []
  else CIDRMaskLoop (bits / 8) ones

def allFF (b : List Nat) : Bool := b.all (fun c => c = 0xff)

/-- The result of masking the IP address ip with mask. -/
def IP.Mask (ip : IP) (mask : IPMask) : IP :=
  let mask := if mask.length = IPv6len ∧ ip.length = IPv4len ∧ allFF (mask.take 12)
    then mask.drop 12 else mask
  let ip := if mask.length = IPv4len ∧ ip.length = IPv6len ∧ ip.take 12 = v4InV6Prefix
    then ip.drop 12 else ip
  if ip.length ≠ mask.length then []
  else List.zipWith (fun a b => a &&& b) ip mask

def isZeros (p : List Nat) : Bool := p.all (fun c => c = 0)

/-- The 4-byte form of an IPv4 address, nil (the empty list) when ip is not one. -/
def IP.To4 (ip : IP) : IP :=
  if ip.length = IPv4len then ip
  else if ip.length = IPv6len ∧ isZeros (ip.take 10) ∧ ip.getD 10 0 = 0xff ∧ ip.getD 11 0 = 0xff
    then (ip.drop 12).take 4
  else []

/-- Whether ip and x are the same IP address, an IPv4 address and its IPv6 form being the
same. -/
def IP.Equal (ip x : IP) : Bool :=
  if ip.length = x.length then ip = x
  else if ip.length = IPv4len ∧ x.length = IPv6len then
    x.take 12 = v4InV6Prefix ∧ ip = x.drop 12
  else if ip.length = IPv6len ∧ x.length = IPv4len then
    ip.take 12 = v4InV6Prefix ∧ ip.drop 12 = x
  else false

/-- Decimal form of a byte. -/
def ubtoa (v : Nat) : List Char :=
  if v < 10 then [Nat.digitChar v]
  else if v < 100 then [Nat.digitChar (v / 10), Nat.digitChar (v % 10)]
  else [Nat.digitChar (v / 100), Nat.digitChar (v / 10 % 10), Nat.digitChar (v % 10)]

/-- The loop of uitoa: the digits of val before those of acc. -/
def uitoaLoop : Nat → Nat → List Char → List Char
  | 0, val, acc => Nat.digitChar (val % 10) :: acc
  | fuel + 1, val, acc =>
    if val ≥ 10 then uitoaLoop fuel (val / 10) (Nat.digitChar (val % 10) :: acc)
    else Nat.digitChar val :: acc

/-- Decimal form of an unsigned integer. -/
def uitoa (val : Nat) : List Char :=
  if val = 0 then ['0'] else uitoaLoop val val []

/-- Hexadecimal form of i without leading zeros. -/
def appendHex (dst : List Char) (i : Nat) : List Char :=
  if i = 0 then dst ++ ['0']
  else dst ++ ([7, 6, 5, 4, 3, 2, 1, 0].filter (fun j => i / 16 ^ j > 0)).map
    (fun j => Nat.digitChar (i / 16 ^ j % 16))

def hexString (b : List Nat) : List Char :=
  b.flatMap (fun tn => [Nat.digitChar (tn / 16 % 16), Nat.digitChar (tn % 16)])

/-- The end of the run of zero groups of p that starts at byte j. -/
def zeroRunEnd (p : List Nat) : Nat → Nat → Nat
  | 0, j => j
  | fuel + 1, j =>
    if j < IPv6len ∧ p.getD j 0 = 0 ∧ p.getD (j + 1) 0 = 0 then zeroRunEnd p fuel (j + 2) else j

/-- The search for the longest run of zeros in the 16 bytes p: the loop over i with the best
run (e0, e1) so far. -/
def longestZeroRun (p : List Nat) : Nat → Nat → Int × Int → Int × Int
  | 0, _, e => e
  | fuel + 1, i, (e0, e1) =>
    if ¬ i < IPv6len then (e0, e1)
    else
      let j := zeroRunEnd p 8 i
      if j > i ∧ (j : Int) - i > e1 - e0 then longestZeroRun p fuel (j + 2) (i, j)
      else longestZeroRun p fuel (i + 2) (e0, e1)

/-- The printing loop of the IPv6 form, with "::" in place of the run (e0, e1). -/
def printV6 (p : List Nat) (e0 e1 : Int) : Nat → Nat → List Char → List Char
  | 0, _, b => b
  | fuel + 1, i, b =>
    if ¬ i < IPv6len then b
    else if (i : Int) = e0 then
      let b := b ++ [':', ':']
      let i := e1.toNat
      if i ≥ IPv6len then b
      else printV6 p e0 e1 fuel (i + 2) (appendHex b (p.getD i 0 * 256 + p.getD (i + 1) 0))
    else
      let b := if i > 0 then b ++ [':'] else b
      printV6 p e0 e1 fuel (i + 2) (appendHex b (p.getD i 0 * 256 + p.getD (i + 1) 0))

/-- The string form of the IP address ip. -/
def IP.String (ip : IP) : String :=
  if ip.length = 0 then "<nil>"
  else
    match IP.To4 ip with
    | [a, b, c, d] => String.mk (ubtoa a ++ ['.'] ++ ubtoa b ++ ['.'] ++ ubtoa c ++ ['.'] ++ ubtoa d)
    | _ =>
      if ip.length ≠ IPv6len then String.mk ('?' :: hexString ip)
      else
        let e := longestZeroRun ip 8 0 (-1, -1)
        let e : Int × Int := if e.2 - e.1 ≤ 2 then (-1, -1) else e
        String.mk (printV6 ip e.1 e.2 8 0 [])

/-- The tail of simpleMaskLength after the first byte that is not 0xff: count its leading one
bits, the rest of it must be zero. -/
def leadingOnes : Nat → Nat → Nat → Nat × Nat
  | 0, v, n => (v, n)
  | fuel + 1, v, n => if v &&& 0x80 ≠ 0 then leadingOnes fuel (v * 2 % 256) (n + 1) else (v, n)

/-- The number of leading ones of the mask when the rest is all zeros, -1 otherwise. -/
def simpleMaskLength : List Nat → Int
  | [] => 0
  | v :: rest =>
    if v = 0xff then
      (match simpleMaskLength rest with
       | Int.negSucc _ => -1
       | Int.ofNat n => Int.ofNat (n + 8))
    else
      match leadingOnes 8 v 0 with
      | (v1, n) => if v1 ≠ 0 then -1 else if rest.any (fun m => m ≠ 0) then -1 else n

def IPMask.String (m : IPMask) : String :=
  if m.length = 0 then "<nil>" else String.mk (hexString m)

/-- The address and mask of the network in the same (4-byte or 16-byte) form; none stands for
the pair of nils. -/
def networkNumberAndMask (n : IPNet) : Option (IP × IPMask) :=
  let ip4 := IP.To4 n.IP
  if ip4 = [] ∧ n.IP.length ≠ IPv6len then none
  else
    let ip := if ip4 = [] then n.IP else ip4
    if n.Mask.length = IPv4len then
      if ip.length ≠ IPv4len then none else some (ip, n.Mask)
    else if n.Mask.length = IPv6len then
      if ip.length = IPv4len then some (ip, n.Mask.drop 12) else some (ip, n.Mask)
    else none

/-- The CIDR notation of the network, like "192.0.2.0/24". -/
def IPNet.String (n : IPNet) : String :=
  match networkNumberAndMask n with
  | none => "<nil>"
  | some (nn, m) =>
    match simpleMaskLength m with
    | Int.negSucc _ => IP.String nn ++ "/" ++ IPMask.String m
    | Int.ofNat l => IP.String nn ++ "/" ++ String.mk (uitoa l)

/-- Parse s as a CIDR notation IP address and prefix length; none stands for the parse error. -/
def ParseCIDR (s : String) : Option (IP × IPNet) :=
  match s.data.indexOf? '/' with
  | none => none
  | some i =>
    let addr := s.data.take i
    let mask := s.data.drop (i + 1)
    let ip4 := parseIPv4 addr
    let iplen := if ip4.isSome then IPv4len else IPv6len
    let ip := if ip4.isSome then ip4 else parseIPv6 addr
    match dtoi mask with
    | (n, j, ok) =>
      match ip with
      | none => none
      | some ip =>
        if !ok || j ≠ mask.length || n > 8 * iplen then none
        else
          let m := CIDRMask n (8 * iplen)
          some (ip, { IP := IP.Mask ip m, Mask := m })

end net

namespace json

/-- A JSON document as the decoder reads it: the members of an object in the order of the
text, repeated keys included; a number as its literal text. -/
inductive Value where
  | null
  | bool (b : Bool)
  | number (lit : String)
  | string (s : String)
  | array (elems : List Value)
  | object (members : List (String × Value))
deriving Repr

/-- An open object or array on the parse stack of the scanner, with what has been read of
it: parseObjectKey (before the colon), parseObjectValue (after it), parseArrayValue. -/
inductive Frame where
  | parseObjectKey (members : List (String × Value)) (key : Option String)
  | parseObjectValue (members : List (String × Value)) (key : Option String)
  | parseArrayValue (elems : List Value)
deriving Repr

/-- The step states of the scanner; a string or number state carries the text read so far,
the states inside true, false and null the characters still expected. -/
inductive Step where
  | beginValue
  | beginValueOrEmpty
  | beginStringOrEmpty
  | beginString
  | endValue
  | endTop
  | inString (raw : List Char)
  | inStringEsc (raw : List Char)
  | inStringEscU (raw : List Char) (seen : Nat)
  | neg (lit : List Char)
  | s1 (lit : List Char)
  | s0 (lit : List Char)
  | dot (lit : List Char)
  | dot0 (lit : List Char)
  | e (lit : List Char)
  | eSign (lit : List Char)
  | e0 (lit : List Char)
  | literal (rest : List Char) (v : Value)
  | error
deriving Repr

/-- The scanner together with the value under construction. -/
structure Scanner where
  step : Step
  parseState : List Frame
  top : Option Value
deriving Repr

def maxNestingDepth : Nat := 10000

def Scanner.error : Scanner := { step := Step.error, parseState := [], top := none }

def Scanner.init : Scanner := { step := Step.beginValue, parseState := [], top := none }

def isSpace (c : Char) : Bool := c = ' ' || c = '\t' || c = '\r' || c = '\n'

def isDigit (c : Char) : Bool := decide ('0' ≤ c) && decide (c ≤ '9')

def isHex (c : Char) : Bool :=
  isDigit c || (decide ('a' ≤ c) && decide (c ≤ 'f')) || (decide ('A' ≤ c) && decide (c ≤ 'F'))

/-- The value of a hexadecimal digit. -/
def hexVal (c : Char) : Nat :=
  if isDigit c then c.toNat - '0'.toNat
  else if decide ('a' ≤ c) && decide (c ≤ 'f') then c.toNat - 'a'.toNat + 10
  else c.toNat - 'A'.toNat + 10

/-- The character an escape letter stands for. -/
def unescape (c : Char) : Char :=
  if c = 'b' then Char.ofNat 8
  else if c = 'f' then Char.ofNat 12
  else if c = 'n' then '\n'
  else if c = 'r' then '\r'
  else if c = 't' then '\t'
  else c

def isSurrogate (r : Nat) : Bool := decide (0xd800 ≤ r) && decide (r < 0xe000)

/-- The code point of a surrogate pair, the replacement character U+FFFD for an invalid one. -/
def decodeRune (r1 r2 : Nat) : Nat :=
  if 0xd800 ≤ r1 ∧ r1 < 0xdc00 ∧ 0xdc00 ≤ r2 ∧ r2 < 0xe000 then
    (r1 - 0xd800) * 1024 + (r2 - 0xdc00) + 0x10000
  else 0xfffd

def hex4 (a b c d : Char) : Nat := ((hexVal a * 16 + hexVal b) * 16 + hexVal c) * 16 + hexVal d

/-- The loop of unquote; every round reads at least one character, so that the length of the
text is fuel enough. -/
def unquoteLoop : Nat → List Char → List Char
  | 0, _ => []
  | _ + 1, [] => []
  | fuel + 1, c :: cs =>
    if c = '\\' then
      match cs with
      | 'u' :: a :: b :: c1 :: d :: rest =>
        let rr := hex4 a b c1 d
        if isSurrogate rr then
          match rest with
          | '\\' :: 'u' :: a2 :: b2 :: c2 :: d2 :: rest2 =>
            if decodeRune rr (hex4 a2 b2 c2 d2) ≠ 0xfffd then
              Char.ofNat (decodeRune rr (hex4 a2 b2 c2 d2)) :: unquoteLoop fuel rest2
            else Char.ofNat 0xfffd :: unquoteLoop fuel rest
          | _ => Char.ofNat 0xfffd :: unquoteLoop fuel rest
        else Char.ofNat rr :: unquoteLoop fuel rest
      | e :: rest => unescape e :: unquoteLoop fuel rest
      | [] => []
    else c :: unquoteLoop fuel cs

/-- The text a string literal stands for, from the text between its quotes (which the scanner
has accepted). -/
def unquote (raw : List Char) : List Char := unquoteLoop raw.length raw

/-- A finished value goes to the innermost open object or array, or is the document. -/
def finishValue (stack : List Frame) (v : Value) : Scanner :=
  match stack with
  | [] => { step := Step.endValue, parseState := [], top := some v }
  | Frame.parseArrayValue elems :: rest =>
    { step := Step.endValue, parseState := Frame.parseArrayValue (elems ++ [v]) :: rest, top := none }
  | Frame.parseObjectKey members none :: rest =>
    (match v with
     | Value.string k =>
       { step := Step.endValue, parseState := Frame.parseObjectKey members (some k) :: rest,
         top := none }
     | _ => Scanner.error)
  | Frame.parseObjectValue members (some k) :: rest =>
    { step := Step.endValue, parseState := Frame.parseObjectValue (members ++ [(k, v)]) none :: rest,
      top := none }
  | _ => Scanner.error

/-- The end of an object or array: its value is finished, and with the stack empty the
document is complete. -/
def popParseState (stack : List Frame) (v : Value) : Scanner :=
  match stack with
  | [] => { step := Step.endTop, parseState := [], top := some v }
  | _ => finishValue stack v

def pushParseState (s : Scanner) (f : Frame) (next : Step) : Scanner :=
  if (f :: s.parseState).length ≤ maxNestingDepth then
    { step := next, parseState := f :: s.parseState, top := none }
  else Scanner.error

def stateEndTop (s : Scanner) (c : Char) : Scanner :=
  if isSpace c then { s with step := Step.endTop } else Scanner.error

def stateEndValue (s : Scanner) (c : Char) : Scanner :=
  match s.parseState with
  | [] => stateEndTop s c
  | f :: rest =>
    if isSpace c then { s with step := Step.endValue }
    else
      match f with
      | Frame.parseObjectKey members key =>
        if c = ':' then
          { s with step := Step.beginValue, parseState := Frame.parseObjectValue members key :: rest }
        else Scanner.error
      | Frame.parseObjectValue members _ =>
        if c = ',' then
          { s with step := Step.beginString, parseState := Frame.parseObjectKey members none :: rest }
        else if c = '}' then popParseState rest (Value.object members)
        else Scanner.error
      | Frame.parseArrayValue elems =>
        if c = ',' then { s with step := Step.beginValue }
        else if c = ']' then popParseState rest (Value.array elems)
        else Scanner.error

def stateBeginValue (s : Scanner) (c : Char) : Scanner :=
  if isSpace c then s
  else if c = '{' then pushParseState s (Frame.parseObjectKey [] none) Step.beginStringOrEmpty
  else if c = '[' then pushParseState s (Frame.parseArrayValue []) Step.beginValueOrEmpty
  else if c = '"' then { s with step := Step.inString [] }
  else if c = '-' then { s with step := Step.neg [c] }
  else if c = '0' then { s with step := Step.s0 [c] }
  else if c = 't' then { s with step := Step.literal ['r', 'u', 'e'] (Value.bool true) }
  else if c = 'f' then { s with step := Step.literal ['a', 'l', 's', 'e'] (Value.bool false) }
  else if c = 'n' then { s with step := Step.literal ['u', 'l', 'l'] Value.null }
  else if decide ('1' ≤ c) && decide (c ≤ '9') then { s with step := Step.s1 [c] }
  else Scanner.error

def stateBeginValueOrEmpty (s : Scanner) (c : Char) : Scanner :=
  if isSpace c then s
  else if c = ']' then stateEndValue s c
  else stateBeginValue s c

def stateBeginString (s : Scanner) (c : Char) : Scanner :=
  if isSpace c then s
  else if c = '"' then { s with step := Step.inString [] }
  else Scanner.error

def stateBeginStringOrEmpty (s : Scanner) (c : Char) : Scanner :=
  if isSpace c then s
  else if c = '}' then
    match s.parseState with
    | Frame.parseObjectKey members key :: rest =>
      stateEndValue { s with parseState := Frame.parseObjectValue members key :: rest } c
    | _ => Scanner.error
  else stateBeginString s c

def stateInString (s : Scanner) (raw : List Char) (c : Char) : Scanner :=
  if c = '"' then finishValue s.parseState (Value.string (String.mk (unquote raw)))
  else if c = '\\' then { s with step := Step.inStringEsc (raw ++ [c]) }
  else if c.toNat < 0x20 then Scanner.error
  else { s with step := Step.inString (raw ++ [c]) }

def stateInStringEsc (s : Scanner) (raw : List Char) (c : Char) : Scanner :=
  if c = 'b' ∨ c = 'f' ∨ c = 'n' ∨ c = 'r' ∨ c = 't' ∨ c = '\\' ∨ c = '/' ∨ c = '"' then
    { s with step := Step.inString (raw ++ [c]) }
  else if c = 'u' then { s with step := Step.inStringEscU (raw ++ [c]) 0 }
  else Scanner.error

def stateInStringEscU (s : Scanner) (raw : List Char) (seen : Nat) (c : Char) : Scanner :=
  if isHex c then
    if seen < 3 then { s with step := Step.inStringEscU (raw ++ [c]) (seen + 1) }
    else { s with step := Step.inString (raw ++ [c]) }
  else Scanner.error

/-- The character after a number: the number is finished and the character is read in the
state after a value. -/
def endNumber (s : Scanner) (lit : List Char) (c : Char) : Scanner :=
  match finishValue s.parseState (Value.number (String.mk lit)) with
  | { step := Step.error, .. } => Scanner.error
  | s1 => stateEndValue s1 c

def stateNeg (s : Scanner) (lit : List Char) (c : Char) : Scanner :=
  if c = '0' then { s with step := Step.s0 (lit ++ [c]) }
  else if decide ('1' ≤ c) && decide (c ≤ '9') then { s with step := Step.s1 (lit ++ [c]) }
  else Scanner.error

def stateE0 (s : Scanner) (lit : List Char) (c : Char) : Scanner :=
  if isDigit c then { s with step := Step.e0 (lit ++ [c]) } else endNumber s lit c

def stateESign (s : Scanner) (lit : List Char) (c : Char) : Scanner :=
  if isDigit c then { s with step := Step.e0 (lit ++ [c]) } else Scanner.error

def stateE (s : Scanner) (lit : List Char) (c : Char) : Scanner :=
  if c = '+' ∨ c = '-' then { s with step := Step.eSign (lit ++ [c]) } else stateESign s lit c

def stateDot0 (s : Scanner) (lit : List Char) (c : Char) : Scanner :=
  if isDigit c then { s with step := Step.dot0 (lit ++ [c]) }
  else if c = 'e' ∨ c = 'E' then { s with step := Step.e (lit ++ [c]) }
  else endNumber s lit c

def stateDot (s : Scanner) (lit : List Char) (c : Char) : Scanner :=
  if isDigit c then { s with step := Step.dot0 (lit ++ [c]) } else Scanner.error

def state0 (s : Scanner) (lit : List Char) (c : Char) : Scanner :=
  if c = '.' then { s with step := Step.dot (lit ++ [c]) }
  else if c = 'e' ∨ c = 'E' then { s with step := Step.e (lit ++ [c]) }
  else endNumber s lit c

def state1 (s : Scanner) (lit : List Char) (c : Char) : Scanner :=
  if isDigit c then { s with step := Step.s1 (lit ++ [c]) } else state0 s lit c

def stateLiteral (s : Scanner) (rest : List Char) (v : Value) (c : Char) : Scanner :=
  match rest with
  | [] => Scanner.error
  | x :: xs =>
    if c = x then
      (match xs with
       | [] => finishValue s.parseState v
       | _ => { s with step := Step.literal xs v })
    else Scanner.error

/-- One step of the scanner on the character c. -/
def Scanner.next (s : Scanner) (c : Char) : Scanner :=
  match s.step with
  | Step.beginValue => stateBeginValue s c
  | Step.beginValueOrEmpty => stateBeginValueOrEmpty s c
  | Step.beginStringOrEmpty => stateBeginStringOrEmpty s c
  | Step.beginString => stateBeginString s c
  | Step.endValue => stateEndValue s c
  | Step.endTop => stateEndTop s c
  | Step.inString raw => stateInString s raw c
  | Step.inStringEsc raw => stateInStringEsc s raw c
  | Step.inStringEscU raw seen => stateInStringEscU s raw seen c
  | Step.neg lit => stateNeg s lit c
  | Step.s1 lit => state1 s lit c
  | Step.s0 lit => state0 s lit c
  | Step.dot lit => stateDot s lit c
  | Step.dot0 lit => stateDot0 s lit c
  | Step.e lit => stateE s lit c
  | Step.eSign lit => stateESign s lit c
  | Step.e0 lit => stateE0 s lit c
  | Step.literal rest v => stateLiteral s rest v c
  | Step.error => Scanner.error

/-- The scanner after the characters of data. -/
def Scanner.run (s : Scanner) (data : List Char) : Scanner := data.foldl Scanner.next s

/-- The end of the input: the document is complete, at once or after one more space. -/
def Scanner.eof (s : Scanner) : Option Value :=
  match s.step with
  | Step.endTop => s.top
  | _ =>
    match (s.next ' ').step, (s.next ' ').top with
    | Step.endTop, v => v
    | _, _ => none

/-- The document that data holds, none when data is not valid JSON (checkValid fails). -/
def parse (data : String) : Option Value := (Scanner.init.run data.data).eof

end json
namespace json

/-- The value of a run of decimal digits. -/
def digitsVal (ds : List Char) : Nat := ds.foldl (fun n c => n * 10 + (c.toNat - '0'.toNat)) 0

/-- Whether the number literal converts to a float64 (strconv.ParseFloat reports no range
error): its magnitude rounds to a finite value, that is, lies below 2^1024 - 2^970. -/
def float64InRange (lit : List Char) : Bool :=
  let body := if lit.head? = some '-' then lit.drop 1 else lit
  let mant := body.takeWhile (fun c => c ≠ 'e' ∧ c ≠ 'E')
  let expo := (body.dropWhile (fun c => c ≠ 'e' ∧ c ≠ 'E')).drop 1
  let ip := mant.takeWhile (fun c => c ≠ '.')
  let fp := (mant.dropWhile (fun c => c ≠ '.')).drop 1
  let m := digitsVal (ip ++ fp)
  let ed := digitsVal (if expo.head? = some '-' ∨ expo.head? = some '+' then expo.drop 1 else expo)
  let bound := 2 ^ 1024 - 2 ^ 970
  if m = 0 then true
  else if expo.head? = some '-' then decide (m < bound * 10 ^ (ed + fp.length))
  else if ed ≥ fp.length then decide (m * 10 ^ (ed - fp.length) < bound)
  else decide (m < bound * 10 ^ (fp.length - ed))

/-- Assignment m[k] = v in a map kept as a list of members sorted by key. -/
def mapSet (k : String) (v : Value) : List (String × Value) → List (String × Value)
  | [] => [(k, v)]
  | (k1, v1) :: rest =>
    if k = k1 then (k, v) :: rest
    else if stringLess k.data k1.data then (k, v) :: (k1, v1) :: rest
    else (k1, v1) :: mapSet k v rest

/-- The lookup m[k]. -/
def mapGet (k : String) : List (String × Value) → Option Value
  | [] => none
  | (k1, v1) :: rest => if k = k1 then some v1 else mapGet k rest

mutual
/-- The decoding of a document into an empty interface: objects become maps (a repeated key
keeps its last value; members are listed by sorted key, the order Marshal writes them in),
numbers become float64, with none for the saved error when a number is out of range. -/
def toInterface : Value → Option Value
  | Value.number lit => if float64InRange lit.data then some (Value.number lit) else none
  | Value.array elems => (elemsToInterface elems).map Value.array
  | Value.object members => (membersToInterface members []).map Value.object
  | v => some v
/-- The elements of an array, each decoded into an empty interface. -/
def elemsToInterface : List Value → Option (List Value)
  | [] => some []
  | v :: vs =>
    match toInterface v, elemsToInterface vs with
    | some a, some b => some (a :: b)
    | _, _ => none
/-- The members of an object assigned one after the other to the map m. -/
def membersToInterface : List (String × Value) → List (String × Value) →
    Option (List (String × Value))
  | [], m => some m
  | (k, v) :: ms, m =>
    match toInterface v with
    | some a => membersToInterface ms (mapSet k a m)
    | none => none
end

/-- Unmarshal into a map[string]interface: the map, none for JSON null (the nil map), and an
error for invalid JSON, a document that is no object, or a number out of range. -/
def unmarshalMap (data : String) : Option (Option (List (String × Value))) :=
  match parse data with
  | none => none
  | some Value.null => some none
  | some (Value.object members) =>
    (match membersToInterface members [] with
     | some m => some (some m)
     | none => none)
  | some _ => none

def hexDigit (n : Nat) : Char := Nat.digitChar (n % 16)

/-- The escaping of one character of a string by Marshal, with HTML escaping on. -/
def escapeChar (c : Char) : List Char :=
  if c = '\\' ∨ c = '"' then ['\\', c]
  else if c = '\n' then ['\\', 'n']
  else if c = '\r' then ['\\', 'r']
  else if c = '\t' then ['\\', 't']
  else if c.toNat < 0x20 ∨ c = '<' ∨ c = '>' ∨ c = '&' then
    ['\\', 'u', '0', '0', hexDigit (c.toNat / 16), hexDigit c.toNat]
  else if c.toNat = 0x2028 ∨ c.toNat = 0x2029 then
    ['\\', 'u', '2', '0', '2', hexDigit c.toNat]
  else [c]

/-- A string as Marshal writes it. -/
def quote (s : List Char) : List Char := '"' :: s.flatMap escapeChar ++ ['"']

mutual
/-- Marshal of a value decoded into an empty interface, in compact form with the members of
a map in the order of their keys. The text of a float64 is fmtFloat of the literal it was
read from: floating-point formatting is left to the parameter. -/
def marshal (fmtFloat : String → String) : Value → List Char
  | Value.null => ['n', 'u', 'l', 'l']
  | Value.bool true => ['t', 'r', 'u', 'e']
  | Value.bool false => ['f', 'a', 'l', 's', 'e']
  | Value.number lit => (fmtFloat lit).data
  | Value.string s => quote s.data
  | Value.array elems => '[' :: marshalElems fmtFloat elems ++ [']']
  | Value.object members => '{' :: marshalMembers fmtFloat members ++ ['}']
/-- The elements of an array, separated by commas. -/
def marshalElems (fmtFloat : String → String) : List Value → List Char
  | [] => []
  | v :: vs =>
    match vs with
    | [] => marshal fmtFloat v
    | _ :: _ => marshal fmtFloat v ++ ',' :: marshalElems fmtFloat vs
/-- The members of a map, separated by commas. -/
def marshalMembers (fmtFloat : String → String) : List (String × Value) → List Char
  | [] => []
  | (k, v) :: ms =>
    match ms with
    | [] => quote k.data ++ ':' :: marshal fmtFloat v
    | _ :: _ => quote k.data ++ ':' :: marshal fmtFloat v ++ ',' :: marshalMembers fmtFloat ms
end

def Marshal (fmtFloat : String → String) (v : Value) : String := String.mk (marshal fmtFloat v)

/-- Whether a character of a key matches the character n of a field name made of ASCII
letters: the same letter in either case, or the long s (U+017F) for s and the Kelvin sign
(U+212A) for k. -/
def foldChar (n k : Char) : Bool :=
  n = k || (n.isAlpha && k.isAlpha && n.toUpper = k.toUpper)
    || ((n = 's' || n = 'S') && k.toNat = 0x17f) || ((n = 'k' || n = 'K') && k.toNat = 0x212a)

/-- The case-insensitive match of an object key with a field name. -/
def equalFold : List Char → List Char → Bool
  | [], [] => true
  | n :: ns, k :: ks => foldChar n k && equalFold ns ks
  | _, _ => false

/-- Whether an object key selects the struct field with the JSON name field: the exact name,
or a case-insensitive match. -/
def fieldMatch (field key : String) : Bool := key = field || equalFold field.data key.data

/-- The decoding of a value into a string field: a string is stored, null leaves the field
as it is, anything else is a type error (none). -/
def storeString (cur : String) : Value → Option String
  | Value.string s => some s
  | Value.null => some cur
  | _ => none

/-- The decoding of a value into a bool field. -/
def storeBool (cur : Bool) : Value → Option Bool
  | Value.bool b => some b
  | Value.null => some cur
  | _ => none

/-- The struct nerdctlConfigList of IsExternalConfigList. -/
structure nerdctlConfigList where
  Nerdctl : Bool
deriving DecidableEq, Repr

/-- The members of an object decoded one after the other into a nerdctlConfigList; the flag
tells whether a type error has been saved. -/
def decodeNerdctlMembers : List (String × Value) → nerdctlConfigList × Bool →
    nerdctlConfigList × Bool
  | [], acc => acc
  | (k, v) :: ms, (ncl, bad) =>
    if fieldMatch "nerdctl" k then
      match storeBool ncl.Nerdctl v with
      | some b => decodeNerdctlMembers ms ({ Nerdctl := b }, bad)
      | none => decodeNerdctlMembers ms (ncl, true)
    else decodeNerdctlMembers ms (ncl, bad)

/-- Unmarshal into a zero nerdctlConfigList: none when Unmarshal returns an error (invalid
JSON, or a saved type error). -/
def unmarshalNerdctlConfigList (data : String) : Option nerdctlConfigList :=
  match parse data with
  | none => none
  | some Value.null => some { Nerdctl := false }
  | some (Value.object members) =>
    (match decodeNerdctlMembers members ({ Nerdctl := false }, false) with
     | (ncl, false) => some ncl
     | (_, true) => none)
  | some _ => none

end json
namespace template

/-- A parsed template: text, and actions that print a field of the data. -/
inductive Node where
  | text (s : List Char)
  | field (name : List Char)
deriving DecidableEq, Repr

/-- The loop of Parse. Of the template language only the action that prints a field,
written with two opening braces, a dot, the name of the field and two closing braces, is
modelled; any other action is a parse error. The text read since the last action is in cur. -/
def parseLoop : Nat → List Char → List Char → Option (List Node)
  | 0, _, _ => none
  | _ + 1, [], cur => some [Node.text cur]
  | fuel + 1, c :: cs, cur =>
    if c = '{' ∧ cs.head? = some '{' then
      let body := (cs.drop 1).takeWhile (fun x => x ≠ '}')
      let after := (cs.drop 1).dropWhile (fun x => x ≠ '}')
      if body.head? = some '.' ∧ (body.drop 1).all Char.isAlphanum ∧ (body.drop 1).length ≠ 0
          ∧ after.take 2 = ['}', '}'] then
        match parseLoop fuel (after.drop 2) [] with
        | some nodes => some (Node.text cur :: Node.field (body.drop 1) :: nodes)
        | none => none
      else none
    else parseLoop fuel cs (cur ++ [c])

/-- Parse of a template text. -/
def Parse (text : String) : Option (List Node) := parseLoop (text.length + 1) text.data []

/-- The replacement of one character by the HTML escaper of html/template. -/
def htmlEscapeChar (c : Char) : List Char :=
  if c.toNat = 0 then [Char.ofNat 0xfffd]
  else if c = '"' then ['&', '#', '3', '4', ';']
  else if c = '&' then ['&', 'a', 'm', 'p', ';']
  else if c = '\'' then ['&', '#', '3', '9', ';']
  else if c = '+' then ['&', '#', '4', '3', ';']
  else if c = '<' then ['&', 'l', 't', ';']
  else if c = '>' then ['&', 'g', 't', ';']
  else [c]

/-- The HTML escaper that html/template puts on an action in text context. The template of
this package holds no markup, so that every action of it is in text context. -/
def htmlEscape (s : List Char) : List Char := s.flatMap htmlEscapeChar

end template

namespace libcni

/-- The fields of types.NetConf that the package reads; the other fields (capabilities, ipam,
dns, prevResult) are decoded, so that a value of the wrong type in one of them is an error,
and not kept. -/
structure NetConf where
  CNIVersion : String
  Name : String
  Type_ : String
deriving DecidableEq, Repr

def stringOrNull : json.Value → Bool
  | json.Value.string _ => true
  | json.Value.null => true
  | _ => false

def boolOrNull : json.Value → Bool
  | json.Value.bool _ => true
  | json.Value.null => true
  | _ => false

/-- Whether a value decodes into a slice of strings without a type error. -/
def stringSliceOk : json.Value → Bool
  | json.Value.null => true
  | json.Value.array elems => elems.all stringOrNull
  | _ => false

/-- Whether a value decodes into the capabilities map (string to bool). -/
def capabilitiesOk : json.Value → Bool
  | json.Value.null => true
  | json.Value.object members => members.all (fun kv => boolOrNull kv.2)
  | _ => false

/-- Whether a value decodes into the struct types.IPAM (one field, type). -/
def ipamOk : json.Value → Bool
  | json.Value.null => true
  | json.Value.object members =>
    members.all (fun kv => !json.fieldMatch "type" kv.1 || stringOrNull kv.2)
  | _ => false

/-- Whether a value decodes into the struct types.DNS. -/
def dnsOk : json.Value → Bool
  | json.Value.null => true
  | json.Value.object members =>
    members.all (fun kv =>
      if json.fieldMatch "nameservers" kv.1 then stringSliceOk kv.2
      else if json.fieldMatch "domain" kv.1 then stringOrNull kv.2
      else if json.fieldMatch "search" kv.1 then stringSliceOk kv.2
      else if json.fieldMatch "options" kv.1 then stringSliceOk kv.2
      else true)
  | _ => false

/-- Whether a value decodes into the prevResult map (string to empty interface). -/
def prevResultOk : json.Value → Bool
  | json.Value.null => true
  | json.Value.object members => (json.membersToInterface members []).isSome
  | _ => false

/-- The members of an object decoded one after the other into a NetConf; the flag tells
whether a type error has been saved. -/
def decodeNetConfMembers : List (String × json.Value) → NetConf × Bool → NetConf × Bool
  | [], acc => acc
  | (k, v) :: ms, (conf, bad) =>
    if json.fieldMatch "cniVersion" k then
      match json.storeString conf.CNIVersion v with
      | some s => decodeNetConfMembers ms ({ conf with CNIVersion := s }, bad)
      | none => decodeNetConfMembers ms (conf, true)
    else if json.fieldMatch "name" k then
      match json.storeString conf.Name v with
      | some s => decodeNetConfMembers ms ({ conf with Name := s }, bad)
      | none => decodeNetConfMembers ms (conf, true)
    else if json.fieldMatch "type" k then
      match json.storeString conf.Type_ v with
      | some s => decodeNetConfMembers ms ({ conf with Type_ := s }, bad)
      | none => decodeNetConfMembers ms (conf, true)
    else if json.fieldMatch "capabilities" k then
      decodeNetConfMembers ms (conf, bad || !capabilitiesOk v)
    else if json.fieldMatch "ipam" k then decodeNetConfMembers ms (conf, bad || !ipamOk v)
    else if json.fieldMatch "dns" k then decodeNetConfMembers ms (conf, bad || !dnsOk v)
    else if json.fieldMatch "prevResult" k then
      decodeNetConfMembers ms (conf, bad || !prevResultOk v)
    else decodeNetConfMembers ms (conf, bad)

/-- The decoding of a document into a zero NetConf, none for a type error. -/
def decodeNetConf : json.Value → Option NetConf
  | json.Value.null => some { CNIVersion := "", Name := "", Type_ := "" }
  | json.Value.object members =>
    (match decodeNetConfMembers members ({ CNIVersion := "", Name := "", Type_ := "" }, false) with
     | (conf, false) => some conf
     | (_, true) => none)
  | _ => none

/-- The checks of ConfFromBytes on a document that has been read. -/
def confFromValue (v : json.Value) : Except Error NetConf :=
  match decodeNetConf v with
  | none => Except.error (Error.libcni "error parsing configuration")
  | some conf =>
    if conf.Type_ = "" then Except.error (Error.libcni "error parsing configuration: missing 'type'")
    else Except.ok conf

/-- A network configuration: the decoded fields and the bytes they were read from. -/
structure NetworkConfig where
  Network : NetConf
  Bytes : String
deriving DecidableEq, Repr

def ConfFromBytes (bytes : String) : Except Error NetworkConfig :=
  match json.parse bytes with
  | none => Except.error (Error.libcni "error parsing configuration")
  | some v =>
    match confFromValue v with
    | Except.error e => Except.error e
    | Except.ok conf => Except.ok { Network := conf, Bytes := bytes }

/-- A list of network configurations. Of each plugin the decoded fields are kept, not its
bytes. -/
structure NetworkConfigList where
  Name : String
  CNIVersion : String
  DisableCheck : Bool
  Plugins : List NetConf
  Bytes : String
deriving DecidableEq, Repr

/-- The loop of ConfListFromBytes over the plugins. The source marshals every plugin and
reads the bytes again with ConfFromBytes; marshalling a decoded value and reading it again
gives the value back, so that the model decodes the value itself. -/
def confsFromValues : List json.Value → Except Error (List NetConf)
  | [] => Except.ok []
  | v :: vs =>
    match confFromValue v with
    | Except.error e => Except.error e
    | Except.ok conf =>
      match confsFromValues vs with
      | Except.error e => Except.error e
      | Except.ok confs => Except.ok (conf :: confs)

def ConfListFromBytes (bytes : String) : Except Error NetworkConfigList :=
  match json.unmarshalMap bytes with
  | none => Except.error (Error.libcni "error parsing configuration list")
  | some raw =>
    let rawList := raw.getD []
    match json.mapGet "name" rawList with
    | none => Except.error (Error.libcni "error parsing configuration list: no name")
    | some (json.Value.string name) =>
      (match
        (match json.mapGet "cniVersion" rawList with
         | none => some ""
         | some (json.Value.string v) => some v
         | some _ => none) with
       | none => Except.error (Error.libcni "error parsing configuration list: invalid cniVersion type")
       | some cniVersion =>
         match
          (match json.mapGet "disableCheck" rawList with
           | none => some false
           | some (json.Value.bool b) => some b
           | some _ => none) with
         | none =>
           Except.error (Error.libcni "error parsing configuration list: invalid disableCheck type")
         | some disableCheck =>
           match json.mapGet "plugins" rawList with
           | none => Except.error (Error.libcni "error parsing configuration list: no 'plugins' key")
           | some (json.Value.array plugins) =>
             if plugins.length = 0 then
               Except.error (Error.libcni "error parsing configuration list: no plugins in list")
             else
               (match confsFromValues plugins with
                | Except.error e => Except.error e
                | Except.ok confs =>
                  Except.ok { Name := name, CNIVersion := cniVersion, DisableCheck := disableCheck,
                              Plugins := confs, Bytes := bytes })
           | some _ =>
             Except.error (Error.libcni "error parsing configuration list: invalid 'plugins' type"))
    | some _ => Except.error (Error.libcni "error parsing configuration list: invalid name type")

/-- The list form of a single network configuration: the configuration is decoded again
into a map, put as the one plugin of a list with its name and version, and the list is
marshalled and read with ConfListFromBytes. -/
def ConfListFromConf (fmtFloat : String → String) (original : NetworkConfig) :
    Except Error NetworkConfigList :=
  match json.unmarshalMap original.Bytes with
  | none => Except.error (Error.libcni "error parsing configuration")
  | some raw =>
    let rawConfig : json.Value :=
      match raw with
      | none => json.Value.null
      | some m => json.Value.object m
    let rawConfigList : json.Value := json.Value.object
      [("cniVersion", json.Value.string original.Network.CNIVersion),
       ("name", json.Value.string original.Network.Name),
       ("plugins", json.Value.array [rawConfig])]
    ConfListFromBytes (json.Marshal fmtFloat rawConfigList)

end libcni
namespace strings

/-- Join concatenates the elements with the separator between them. -/
def Join : List String → String → String
  | [], _ => ""
  | [a], _ => a
  | a :: b :: rest, sep => a ++ sep ++ Join (b :: rest) sep

end strings

namespace filepath

/-- The loop of Ext over the path from its end: acc is the part already passed. -/
def extLoop : List Char → List Char → List Char
  | [], _ => []
  | c :: rest, acc =>
    if c = '/' then []
    else if c = '.' then '.' :: acc
    else extLoop rest (c :: acc)

/-- The file name extension: the suffix of the last element of the path that begins at its
last dot, empty when there is no dot. -/
def Ext (path : String) : String := String.mk (extLoop path.data.reverse [])

/-- The loop of the .. element of Clean: from the index w, back to the last separator of the
buffer or to the index dotdot. -/
def backtrack (out : List Char) (dotdot : Nat) : Nat → Nat
  | 0 => 0
  | w + 1 => if dotdot < w + 1 ∧ out.getD (w + 1) '/' ≠ '/' then backtrack out dotdot w else w + 1

/-- The loop of Clean: path is what is left to read, out the buffer written so far, dotdot
the index in the buffer where .. must stop. Every turn reads at least one character, and
fuel bounds the number of turns. -/
def cleanLoop (rooted : Bool) : Nat → List Char → List Char → Nat → List Char
  | 0, _, out, _ => out
  | fuel + 1, path, out, dotdot =>
    match path with
    | [] => out
    | c :: rest =>
      if c = '/' then
        -- empty path element
        cleanLoop rooted fuel rest out dotdot
      else if c = '.' ∧ (rest = [] ∨ rest.head? = some '/') then
        -- . element
        cleanLoop rooted fuel rest out dotdot
      else if c = '.' ∧ rest.head? = some '.'
          ∧ (rest.tail = [] ∨ rest.tail.head? = some '/') then
        -- .. element: remove to last separator
        if dotdot < out.length then
          -- can backtrack
          cleanLoop rooted fuel rest.tail (out.take (backtrack out dotdot (out.length - 1))) dotdot
        else if rooted = false then
          -- cannot backtrack, but not rooted, so append .. element.
          let out1 := (if 0 < out.length then out ++ ['/'] else out) ++ ['.', '.']
          cleanLoop rooted fuel rest.tail out1 out1.length
        else cleanLoop rooted fuel rest.tail out dotdot
      else
        -- real path element: add slash if needed, copy element
        let out1 :=
          if (rooted = true ∧ out.length ≠ 1) ∨ (rooted = false ∧ out.length ≠ 0) then out ++ ['/']
          else out
        cleanLoop rooted fuel (path.dropWhile (fun x => x ≠ '/'))
          (out1 ++ path.takeWhile (fun x => x ≠ '/')) dotdot

/-- Clean returns the shortest path name equivalent to path by purely lexical processing
(on Unix: the separator is the slash, and there is no volume name). -/
def Clean (path : String) : String :=
  if path = "" then "."
  else
    let rooted := decide (path.data.head? = some '/')
    let out :=
      if rooted then cleanLoop true (path.length + 1) (path.data.drop 1) ['/'] 1
      else cleanLoop false (path.length + 1) path.data [] 0
    -- Turn empty string into "."
    if out.length = 0 then "." else String.mk out

/-- Join joins any number of path elements into a single path, adding a separator if
necessary. Join calls Clean on the result; empty elements at the front are ignored. -/
def Join : List String → String
  | [] => ""
  | e :: rest => if e ≠ "" then Clean (strings.Join (e :: rest) "/") else Join rest

end filepath

namespace sort

/-- Insertion of s in a list in increasing order. -/
def insert (s : String) : List String → List String
  | [] => [s]
  | t :: ts => if stringLess t.data s.data then t :: insert s ts else s :: t :: ts

/-- Sorting in increasing order. The list in increasing order of given strings is
unique, so that the sorting algorithm does not matter; the model inserts one string after
the other. -/
def Strings (l : List String) : List String := l.foldr insert []

end sort

namespace os

/-- An entry of a directory: a subdirectory, or a file with its content. -/
structure DirEntry where
  name : String
  isDir : Bool
  content : String
deriving DecidableEq, Repr

/-- What the operating system finds at the path of the configuration directory: nothing
(MkdirAll can create the directory, or fails), something that Stat cannot reach, a file that
is no directory, or a directory with its entries (into which files can be written, or not).
At the empty path there is nothing, and nothing can be created. Paths are resolved as they
are written: the path that Join makes of the directory and the name of an entry is the path
of that entry (no element of the path of the directory is a symbolic link that a later ..
element leaves again). -/
inductive DirState where
  | absent (creatable : Bool)
  | inaccessible
  | notDir
  | dir (entries : List DirEntry) (writable : Bool)
deriving DecidableEq, Repr

/-- Whether a string can be the name of an entry of a directory: it is a single path
element, neither empty nor . nor .. and without a separator. -/
def isFileName (name : String) : Bool :=
  decide (name.data ≠ []) && !name.data.contains '/' && decide (name.data ≠ ['.'])
    && decide (name.data ≠ ['.', '.'])

/-- The last element of a path: what follows its last separator. -/
def lastElement (path : List Char) : List Char :=
  (path.reverse.takeWhile (fun c => c ≠ '/')).reverse

/-- The results of Stat. -/
inductive StatResult where
  | ok
  | notExist
  | otherError
deriving DecidableEq, Repr

/-- Stat of the configuration directory. -/
def Stat (st : DirState) : StatResult :=
  match st with
  | DirState.absent _ => StatResult.notExist
  | DirState.inaccessible => StatResult.otherError
  | DirState.notDir => StatResult.ok
  | DirState.dir _ _ => StatResult.ok

/-- MkdirAll of the configuration directory: the state after it, none when it fails. -/
def MkdirAll (st : DirState) : Option DirState :=
  match st with
  | DirState.absent true => some (DirState.dir [] true)
  | DirState.absent false => none
  | DirState.inaccessible => none
  | DirState.notDir => none
  | DirState.dir entries writable => some (DirState.dir entries writable)

/-- Insertion of an entry in a list in increasing order of names. -/
def insertEntry (e : DirEntry) : List DirEntry → List DirEntry
  | [] => [e]
  | t :: ts => if stringLess t.name.data e.name.data then t :: insertEntry e ts else e :: t :: ts

/-- ReadDir of the configuration directory: its entries sorted by name. -/
def ReadDir (st : DirState) : Except StatResult (List DirEntry) :=
  match st with
  | DirState.absent _ => Except.error StatResult.notExist
  | DirState.inaccessible => Except.error StatResult.otherError
  | DirState.notDir => Except.error StatResult.otherError
  | DirState.dir entries _ => Except.ok (entries.foldr insertEntry [])

/-- The entry of the configuration directory dir that the path names. -/
def lookup (st : DirState) (dir path : String) : Option DirEntry :=
  match st with
  | DirState.dir entries _ => entries.find? (fun e => filepath.Join [dir, e.name] = path)
  | _ => none

/-- ReadFile of a path in the configuration directory. -/
def ReadFile (st : DirState) (dir path : String) : Except Error String :=
  match lookup st dir path with
  | some e => if e.isDir then Except.error (Error.os "read" path) else Except.ok e.content
  | none => Except.error (Error.os "open" path)

/-- Whether Stat of a path in the configuration directory succeeds. -/
def exists_ (st : DirState) (dir path : String) : Bool := (lookup st dir path).isSome

/-- WriteFile of a path in the configuration directory dir: the state after it, none when it
fails. The content of the file that the path names is replaced; when the path names no
entry, a file with the last element of the path as its name is added to the directory. -/
def WriteFile (st : DirState) (dir path data : String) : Option DirState :=
  match st with
  | DirState.dir entries true =>
    match entries.find? (fun e => filepath.Join [dir, e.name] = path) with
    | some e =>
      if e.isDir then none
      else some (DirState.dir
        (entries.map (fun x =>
          if filepath.Join [dir, x.name] = path then DirEntry.mk x.name x.isDir data else x)) true)
    | none =>
      let name := String.mk (lastElement path.data)
      if isFileName name ∧ filepath.Join [dir, name] = path then
        some (DirState.dir (entries ++ [DirEntry.mk name false data]) true)
      else none
  | _ => none

end os

namespace libcni

/-- The paths of the files of the directory with one of the extensions, in the order of
ReadDir; the empty list when the directory does not exist. -/
def ConfFiles (st : os.DirState) (dir : String) (extensions : List String) :
    Except Error (List String) :=
  match os.ReadDir st with
  | Except.error os.StatResult.notExist => Except.ok []
  | Except.error _ => Except.error (Error.os "readdir" dir)
  | Except.ok files =>
    Except.ok (files.flatMap (fun f =>
      if f.isDir then []
      else (extensions.filter (fun ext => filepath.Ext f.name = ext)).map
        (fun _ => filepath.Join [dir, f.name])))

def ConfListFromFile (st : os.DirState) (dir filename : String) : Except Error NetworkConfigList :=
  match os.ReadFile st dir filename with
  | Except.error e => Except.error e
  | Except.ok bytes => ConfListFromBytes bytes

def ConfFromFile (st : os.DirState) (dir filename : String) : Except Error NetworkConfig :=
  match os.ReadFile st dir filename with
  | Except.error e => Except.error e
  | Except.ok bytes => ConfFromBytes bytes

end libcni

namespace netutil

structure NetworkConfigList where
  NetworkConfigList : libcni.NetworkConfigList
  Nerdctl : Bool
  File : String
deriving DecidableEq, Repr

def DefaultNetworkName : String := "nerdctl"

def DefaultBridgeName : String := "cni-nerdctl0"

def DefaultCIDR : String := "10.4.0.0/16"

structure ConfigListTemplateOpts where
  Name : String
  BridgeName : String
  Subnet : String
  Gateway : String
deriving DecidableEq, Repr

def ConfigListTemplate : String :=
  "\x7b\n  \"cniVersion\": \"0.4.0\",\n  \"name\": \"\x7b\x7b.Name\x7d\x7d\",\n  \"nerdctl\": true,\n  \"plugins\": [\n    \x7b\n      \"type\": \"bridge\",\n      \"bridge\": \"\x7b\x7b.BridgeName\x7d\x7d\",\n      \"isGateway\": true,\n      \"ipMasq\": true,\n      \"hairpinMode\": true,\n      \"ipam\": \x7b\n        \"type\": \"host-local\",\n        \"routes\": [\x7b \"dst\": \"0.0.0.0/0\" \x7d],\n        \"ranges\": [\n          [\n            \x7b\n              \"subnet\": \"\x7b\x7b.Subnet\x7d\x7d\",\n              \"gateway\": \"\x7b\x7b.Gateway\x7d\x7d\"\n            \x7d\n          ]\n        ]\n      \x7d\n    \x7d,\n    \x7b\n      \"type\": \"portmap\",\n      \"capabilities\": \x7b\n        \"portMappings\": true\n      \x7d\n    \x7d,\n    \x7b\n      \"type\": \"firewall\"\n    \x7d,\n    \x7b\n      \"type\": \"tuning\"\n    \x7d\n  ]\n\x7d"

def RequiredCNIPlugins (l : NetworkConfigList) : List String :=
  l.NetworkConfigList.Plugins.map (fun f => f.Type_)

/-- The field of the options that an action of the template names. -/
def ConfigListTemplateOpts.field (opts : ConfigListTemplateOpts) (name : List Char) :
    Option String :=
  if name = "Name".data then some opts.Name
  else if name = "BridgeName".data then some opts.BridgeName
  else if name = "Subnet".data then some opts.Subnet
  else if name = "Gateway".data then some opts.Gateway
  else none

/-- Execute of a parsed template on the options: text is copied, a field is printed through
the HTML escaper; an action that names no field of the options is an error. -/
def Execute : List template.Node → ConfigListTemplateOpts → Option (List Char)
  | [], _ => some []
  | template.Node.text s :: rest, opts => (Execute rest opts).map (fun out => s ++ out)
  | template.Node.field name :: rest, opts =>
    match opts.field name, Execute rest opts with
    | some v, some out => some (template.htmlEscape v.data ++ out)
    | _, _ => none

/-- GenerateConfigList creates NetworkConfigList.
GenerateConfigList does not fill "File" field. -/
def GenerateConfigList (name bridgeName cidr : String) : Except Error NetworkConfigList :=
  if name = "" ∨ bridgeName = "" ∨ cidr = "" then Except.error Error.ErrInvalidArgument
  else
    match net.ParseCIDR cidr with
    | none => Except.error (Error.failedToParseCIDR cidr)
    | some (subnetIP, subnet) =>
      if ¬ net.IP.Equal subnet.IP subnetIP then
        Except.error (Error.unexpectedCIDR cidr (net.IPNet.String subnet))
      else
        let gateway : net.IP := subnet.IP
        if gateway.length ≤ 3 then Except.error (Error.panic Error.indexOutOfRange)
        else
          let gateway := gateway.set 3 ((gateway.getD 3 0 + 1) % 256)
          let opts : ConfigListTemplateOpts :=
            { Name := name, BridgeName := bridgeName, Subnet := net.IPNet.String subnet,
              Gateway := net.IP.String gateway }
          match template.Parse ConfigListTemplate with
          | none => Except.error (Error.template "parse")
          | some tmpl =>
            match Execute tmpl opts with
            | none => Except.error (Error.template "execute")
            | some buf =>
              match libcni.ConfListFromBytes (String.mk buf) with
              | Except.error e => Except.error e
              | Except.ok l => Except.ok { NetworkConfigList := l, Nerdctl := true, File := "" }

/-- The default configuration list; an error stands for the panic of the source. -/
def DefaultConfigList : Except Error NetworkConfigList :=
  match GenerateConfigList DefaultNetworkName DefaultBridgeName DefaultCIDR with
  | Except.error err => Except.error (Error.panic err)
  | Except.ok l => Except.ok l

/-- IsExternalConfigList returns true if the config list is managed outside nerdctl. -/
def IsExternalConfigList (b : String) : Bool :=
  match json.unmarshalNerdctlConfigList b with
  | none => true
  | some ncl => !ncl.Nerdctl

/-- The body of the loop of ConfigLists: the list form of the configuration in the file. -/
def loadFile (fmtFloat : String → String) (st : os.DirState) (dir fileName : String) :
    Except Error libcni.NetworkConfigList :=
  if fileName.data.reverse.take 9 = ".conflist".data.reverse then
    libcni.ConfListFromFile st dir fileName
  else
    match libcni.ConfFromFile st dir fileName with
    | Except.error e => Except.error e
    | Except.ok lc => libcni.ConfListFromConf fmtFloat lc

/-- The loop of ConfigLists over the sorted file names, l being the result so far. -/
def loadConfigLists (fmtFloat : String → String) (st : os.DirState) (dir : String) :
    List String → List NetworkConfigList → Except Error (List NetworkConfigList)
  | [], l => Except.ok l
  | fileName :: rest, l =>
    match loadFile fmtFloat st dir fileName with
    | Except.error e => Except.error e
    | Except.ok lcl =>
      loadConfigLists fmtFloat st dir rest
        (l ++ [{ NetworkConfigList := lcl, Nerdctl := !IsExternalConfigList lcl.Bytes,
                 File := fileName }])

/-- ConfigLists loads config from dir if dir exists.
The result also contains DefaultConfigList -/
def ConfigLists (fmtFloat : String → String) (st : os.DirState) (dir : String) :
    Except Error (List NetworkConfigList) :=
  match DefaultConfigList with
  | Except.error e => Except.error e
  | Except.ok d =>
    let l := [d]
    match os.Stat st with
    | os.StatResult.notExist => Except.ok l
    | os.StatResult.otherError => Except.error (Error.os "stat" dir)
    | os.StatResult.ok =>
      match libcni.ConfFiles st dir [".conf", ".conflist", ".json"] with
      | Except.error e => Except.error e
      | Except.ok fileNames => loadConfigLists fmtFloat st dir (sort.Strings fileNames) l

end netutil

namespace native

/-- Network corresponds to pkg/netutil.NetworkConfigList -/
structure Network where
  CNI : String
  Nerdctl : Bool
  File : String
deriving DecidableEq, Repr

end native

namespace json

/-- Whether the scanner is inside a string literal. -/
def Scanner.inString (s : Scanner) : Bool :=
  match s.step with
  | Step.inString _ => true
  | Step.inStringEsc _ => true
  | Step.inStringEscU _ _ => true
  | _ => false

/-- The loop of compact, with HTML escaping on: scan is the scanner, src what is left of the
source, dst the text written. The characters <, > and & and the line separators U+2028 and
U+2029 are written as \u escapes; a character on which the scanner returns scanSkipSpace
or scanEnd, that is a space outside a string literal, is left out; on scanError, and when
the source ends before the document does, compact fails. -/
def compactLoop : Scanner → List Char → List Char → Option (List Char)
  | scan, [], dst => if scan.eof.isSome then some dst else none
  | scan, c :: src, dst =>
    let esc : List Char :=
      if c = '<' ∨ c = '>' ∨ c = '&' then
        ['\\', 'u', '0', '0', hexDigit (c.toNat / 16), hexDigit c.toNat]
      else if c.toNat = 0x2028 ∨ c.toNat = 0x2029 then
        ['\\', 'u', '2', '0', '2', hexDigit c.toNat]
      else []
    match (scan.next c).step with
    | Step.error => none
    | _ =>
      if esc ≠ [] then compactLoop (scan.next c) src (dst ++ esc)
      else if isSpace c && !scan.inString then compactLoop (scan.next c) src dst
      else compactLoop (scan.next c) src (dst ++ [c])

/-- The text of a JSON document without its insignificant spaces, none when the text is not
valid JSON: what Marshal writes for a RawMessage. -/
def compact (src : List Char) : Option (List Char) := compactLoop Scanner.init src []

end json

namespace native

/-- Marshal of a network, with HTML escaping on: the fields in the order of the struct, CNI
and File left out when empty (omitempty), the raw message CNI in compact form; none when
CNI is not valid JSON. -/
def Network.marshal (r : Network) : Option (List Char) :=
  let nerdctl := "\"Nerdctl\":".data ++ (if r.Nerdctl then "true".data else "false".data)
  let file := if r.File = "" then [] else ",\"File\":".data ++ json.quote r.File.data
  if r.CNI = "" then some ('{' :: nerdctl ++ file ++ ['}'])
  else
    match json.compact r.CNI.data with
    | none => none
    | some cni => some ('{' :: "\"CNI\":".data ++ cni ++ ',' :: nerdctl ++ file ++ ['}'])

/-- The elements of a slice of networks, separated by commas. -/
def marshalElems : List Network → Option (List Char)
  | [] => some []
  | r :: rs =>
    match r.marshal, marshalElems rs with
    | some a, some b =>
      (match rs with
       | [] => some a
       | _ :: _ => some (a ++ ',' :: b))
    | _, _ => none

/-- Marshal of a slice of networks: null for the nil slice, that is when nothing was
appended. -/
def Marshal (result : List Network) : Option (List Char) :=
  match result with
  | [] => some "null".data
  | _ :: _ =>
    match marshalElems result with
    | none => none
    | some b => some ('[' :: b ++ [']'])

end native

namespace json

/-- MarshalIndent of a slice of networks: Marshal, and then Indent, which runs a scanner of
its own over the marshalled text and fails when the scanner does, in particular when the
text, the raw messages inside their wrapping, nests deeper than maxNestingDepth. The result
is the marshalled text that Indent lays out, none on an error; the layout is not
modelled. -/
def MarshalIndent (result : List native.Network) : Option (List Char) :=
  match native.Marshal result with
  | none => none
  | some b => if ((Scanner.init.run b).eof).isSome then some b else none

end json

/-- Whether a character is an ASCII letter or digit. -/
def isAlphaNumChar (c : Char) : Bool :=
  (decide (48 ≤ c.toNat) && decide (c.toNat ≤ 57))
    || (decide (65 ≤ c.toNat) && decide (c.toNat ≤ 90))
    || (decide (97 ≤ c.toNat) && decide (c.toNat ≤ 122))

/-- Modelled from the spec: IsAlphaNum is declared outside the files at hand. The spec says
of the create action that it validates that the name "is restricted to an alphanumeric
character set (no separators, no path-unsafe characters)": every character of the name is
an ASCII letter or digit. -/
def IsAlphaNum (s : String) : Bool := s.data.all isAlphaNumChar

/-- The create action: the error it returns, if any, and the state of the configuration
directory after it. args are the positional arguments, netconfpath and subnet the values of
the flags cni-netconfpath and subnet. -/
def networkCreateAction (fmtFloat : String → String) (args : List String)
    (netconfpath subnet : String) (st : os.DirState) : Except Error Unit × os.DirState :=
  if args.length ≠ 1 then (Except.error Error.requiresExactly1Argument, st)
  else
    let name := args.headD ""
    if ¬ IsAlphaNum name then (Except.error (Error.malformedName name), st)
    else
      let bridgeName := "cni-nerdctl-" ++ name
      match os.MkdirAll st with
      | none => (Except.error (Error.os "mkdir" netconfpath), st)
      | some st1 =>
        match netutil.ConfigLists fmtFloat st1 netconfpath with
        | Except.error e => (Except.error e, st1)
        | Except.ok ll =>
          if ll.any (fun l => l.NetworkConfigList.Name = name) then
            (Except.error (Error.networkAlreadyExists name), st1)
          else
            match netutil.GenerateConfigList name bridgeName subnet with
            | Except.error e => (Except.error e, st1)
            | Except.ok l =>
              let filename := filepath.Join [netconfpath, "nerdctl-" ++ name ++ ".conflist"]
              if os.exists_ st1 netconfpath filename then (Except.error Error.ErrAlreadyExists, st1)
              else
                match os.WriteFile st1 netconfpath filename l.NetworkConfigList.Bytes with
                | none => (Except.error (Error.os "write" filename), st1)
                | some st2 => (Except.ok (), st2)

/-- The first loop of the inspect action: for every configuration list the first requested
name that is its name, if any, adds the list to the result and the name to filled. -/
def inspectLoop (names : List String) :
    List netutil.NetworkConfigList → List String × List native.Network →
    List String × List native.Network
  | [], acc => acc
  | l :: ll, (filled, result) =>
    match names.find? (fun name => l.NetworkConfigList.Name = name) with
    | some name =>
      inspectLoop names ll
        (filled ++ [name],
         result ++ [{ CNI := l.NetworkConfigList.Bytes, Nerdctl := l.Nerdctl, File := l.File }])
    | none => inspectLoop names ll (filled, result)

/-- The inspect action: the error it returns, or the list of networks that it prints as
indented JSON. -/
def networkInspectAction (fmtFloat : String → String) (args : List String)
    (netconfpath : String) (st : os.DirState) : Except Error (List native.Network) :=
  if args.length = 0 then Except.error Error.requiresAtLeast1Argument
  else
    match netutil.ConfigLists fmtFloat st netconfpath with
    | Except.error e => Except.error e
    | Except.ok ll =>
      match inspectLoop args ll ([], []) with
      | (filled, result) =>
        match args.find? (fun name => ¬ name ∈ filled) with
        | some name => Except.error (Error.noSuchNetwork name)
        | none =>
          match json.MarshalIndent result with
          | none => Except.error Error.marshal
          | some _ => Except.ok result

/-- The kind that the list action prints for a configuration list. -/
def networkLsKind (l : netutil.NetworkConfigList) : String :=
  if l.File = "" then "nerdctl (builtin)"
  else if ¬ l.Nerdctl then "external"
  else "nerdctl"

namespace json

/-- Where the scanner is inside a string literal: in its text, after a backslash, in the
four digits of a \u escape, or at an error. -/
inductive StringState where
  | text
  | esc
  | escU (seen : Nat)
  | bad
deriving DecidableEq, Repr

/-- The step of the scanner inside a string literal, on a character of its body. A quote
is of the body only after a backslash. -/
def StringState.next : StringState → Char → StringState
  | StringState.text, c =>
    if c = '"' then StringState.bad
    else if c = '\\' then StringState.esc
    else if c.toNat < 0x20 then StringState.bad
    else StringState.text
  | StringState.esc, c =>
    if c = 'b' ∨ c = 'f' ∨ c = 'n' ∨ c = 'r' ∨ c = 't' ∨ c = '\\' ∨ c = '/' ∨ c = '"' then
      StringState.text
    else if c = 'u' then StringState.escU 0
    else StringState.bad
  | StringState.escU seen, c =>
    if isHex c then (if seen < 3 then StringState.escU (seen + 1) else StringState.text)
    else StringState.bad
  | StringState.bad, _ => StringState.bad

/-- Whether the text can stand between the quotes of a JSON string literal: it holds no
control character and no quote of its own, and every backslash begins an escape. -/
def isStringBody (body : List Char) : Bool :=
  decide (body.foldl StringState.next StringState.text = StringState.text)

/-- The scanner inside a string literal of which raw has been read. -/
def StringState.scanner (k : StringState) (raw : List Char) (stack : List Frame)
    (top : Option Value) : Scanner :=
  match k with
  | StringState.text => { step := Step.inString raw, parseState := stack, top := top }
  | StringState.esc => { step := Step.inStringEsc raw, parseState := stack, top := top }
  | StringState.escU seen => { step := Step.inStringEscU raw seen, parseState := stack, top := top }
  | StringState.bad => Scanner.error

end json

namespace netutil

/-- The text of ConfigListTemplate before the action Name. -/
def seg0 : List Char :=
  "\x7b\n  \"cniVersion\": \"0.4.0\",\n  \"name\": \"".data

/-- The text of ConfigListTemplate between the actions Name and BridgeName. -/
def seg1 : List Char :=
  "\",\n  \"nerdctl\": true,\n  \"plugins\": [\n    \x7b\n      \"type\": \"bridge\",\n      \"bridge\": \"".data

/-- The text of ConfigListTemplate between the actions BridgeName and Subnet. -/
def seg2 : List Char :=
  "\",\n      \"isGateway\": true,\n      \"ipMasq\": true,\n      \"hairpinMode\": true,\n      \"ipam\": \x7b\n        \"type\": \"host-local\",\n        \"routes\": [\x7b \"dst\": \"0.0.0.0/0\" \x7d],\n        \"ranges\": [\n          [\n            \x7b\n              \"subnet\": \"".data

/-- The text of ConfigListTemplate between the actions Subnet and Gateway. -/
def seg3 : List Char := "\",\n              \"gateway\": \"".data

/-- The text of ConfigListTemplate after the action Gateway. -/
def seg4 : List Char :=
  "\"\n            \x7d\n          ]\n        ]\n      \x7d\n    \x7d,\n    \x7b\n      \"type\": \"portmap\",\n      \"capabilities\": \x7b\n        \"portMappings\": true\n      \x7d\n    \x7d,\n    \x7b\n      \"type\": \"firewall\"\n    \x7d,\n    \x7b\n      \"type\": \"tuning\"\n    \x7d\n  ]\n\x7d".data

/-- The text that Execute writes for the template: the four fields, escaped, between the
five pieces of text. -/
def rendered (name bridge subnet gateway : List Char) : List Char :=
  seg0 ++ (name ++ (seg1 ++ (bridge ++ (seg2 ++ (subnet ++ (seg3 ++ (gateway ++ seg4)))))))

/-- The document that the rendered template holds, with its four strings. -/
def renderedDoc (name bridge subnet gateway : String) : json.Value :=
  json.Value.object
    [("cniVersion", json.Value.string "0.4.0"),
     ("name", json.Value.string name),
     ("nerdctl", json.Value.bool true),
     ("plugins", json.Value.array
       [json.Value.object
          [("type", json.Value.string "bridge"),
           ("bridge", json.Value.string bridge),
           ("isGateway", json.Value.bool true),
           ("ipMasq", json.Value.bool true),
           ("hairpinMode", json.Value.bool true),
           ("ipam", json.Value.object
              [("type", json.Value.string "host-local"),
               ("routes", json.Value.array
                  [json.Value.object [("dst", json.Value.string "0.0.0.0/0")]]),
               ("ranges", json.Value.array
                  [json.Value.array
                     [json.Value.object
                        [("subnet", json.Value.string subnet),
                         ("gateway", json.Value.string gateway)]]])])],
        json.Value.object
          [("type", json.Value.string "portmap"),
           ("capabilities", json.Value.object [("portMappings", json.Value.bool true)])],
        json.Value.object [("type", json.Value.string "firewall")],
        json.Value.object [("type", json.Value.string "tuning")]])]

end netutil

namespace netutil

/-- The parse stack of the scanner inside the string of the action Name. -/
def stack0 : List json.Frame :=
  [json.Frame.parseObjectValue [("cniVersion", json.Value.string "0.4.0")] (some "name")]

/-- The parse stack of the scanner inside the string of the action BridgeName. -/
def stack1 (name : String) : List json.Frame :=
  [json.Frame.parseObjectValue [("type", json.Value.string "bridge")] (some "bridge"),
   json.Frame.parseArrayValue [],
   json.Frame.parseObjectValue
     [("cniVersion", json.Value.string "0.4.0"), ("name", json.Value.string name),
      ("nerdctl", json.Value.bool true)] (some "plugins")]

/-- The frames below the innermost one inside the strings of the actions Subnet and
Gateway. -/
def stackRanges (name bridge : String) : List json.Frame :=
  [json.Frame.parseArrayValue [],
   json.Frame.parseArrayValue [],
   json.Frame.parseObjectValue
     [("type", json.Value.string "host-local"),
      ("routes", json.Value.array [json.Value.object [("dst", json.Value.string "0.0.0.0/0")]])]
     (some "ranges"),
   json.Frame.parseObjectValue
     [("type", json.Value.string "bridge"),
      ("bridge", json.Value.string bridge),
      ("isGateway", json.Value.bool true),
      ("ipMasq", json.Value.bool true),
      ("hairpinMode", json.Value.bool true)] (some "ipam"),
   json.Frame.parseArrayValue [],
   json.Frame.parseObjectValue
     [("cniVersion", json.Value.string "0.4.0"), ("name", json.Value.string name),
      ("nerdctl", json.Value.bool true)] (some "plugins")]

/-- The parse stack of the scanner inside the string of the action Subnet. -/
def stack2 (name bridge : String) : List json.Frame :=
  json.Frame.parseObjectValue [] (some "subnet") :: stackRanges name bridge

/-- The parse stack of the scanner inside the string of the action Gateway. -/
def stack3 (name bridge subnet : String) : List json.Frame :=
  json.Frame.parseObjectValue [("subnet", json.Value.string subnet)] (some "gateway")
    :: stackRanges name bridge

end netutil

namespace netutil

/-- The bytes that GenerateConfigList renders for the options. -/
def renderedText (opts : ConfigListTemplateOpts) : String :=
  String.mk (rendered (template.htmlEscape opts.Name.data)
    (template.htmlEscape opts.BridgeName.data) (template.htmlEscape opts.Subnet.data)
    (template.htmlEscape opts.Gateway.data))

/-- Whether the four fields of the options, escaped, are JSON string bodies. -/
def fieldsAreStringBodies (opts : ConfigListTemplateOpts) : Bool :=
  json.isStringBody (template.htmlEscape opts.Name.data)
    && json.isStringBody (template.htmlEscape opts.BridgeName.data)
    && json.isStringBody (template.htmlEscape opts.Subnet.data)
    && json.isStringBody (template.htmlEscape opts.Gateway.data)

/-- The configuration list that GenerateConfigList returns for the options. -/
def generated (opts : ConfigListTemplateOpts) : NetworkConfigList :=
  { NetworkConfigList :=
      { Name := String.mk (json.unquote (template.htmlEscape opts.Name.data)),
        CNIVersion := "0.4.0", DisableCheck := false,
        Plugins := [{ CNIVersion := "", Name := "", Type_ := "bridge" },
                    { CNIVersion := "", Name := "", Type_ := "portmap" },
                    { CNIVersion := "", Name := "", Type_ := "firewall" },
                    { CNIVersion := "", Name := "", Type_ := "tuning" }],
        Bytes := renderedText opts },
    Nerdctl := true, File := "" }

/-- The options that GenerateConfigList fills in for a name, a bridge name and a network. -/
def optsOf (name bridgeName : String) (subnet : net.IPNet) : ConfigListTemplateOpts :=
  { Name := name, BridgeName := bridgeName, Subnet := net.IPNet.String subnet,
    Gateway := net.IP.String (subnet.IP.set 3 ((subnet.IP.getD 3 0 + 1) % 256)) }

end netutil

namespace netutil

/-- The parsed ConfigListTemplate. -/
def ConfigListNodes : List template.Node :=
  [template.Node.text seg0, template.Node.field "Name".data, template.Node.text seg1,
   template.Node.field "BridgeName".data, template.Node.text seg2,
   template.Node.field "Subnet".data, template.Node.text seg3,
   template.Node.field "Gateway".data, template.Node.text seg4]

end netutil

namespace filepath

/-- The buffer of Clean after a real path element: a separator if needed, and the
element. -/
def addElement (rooted : Bool) (out elem : List Char) : List Char :=
  (if (rooted = true ∧ out.length ≠ 1) ∨ (rooted = false ∧ out.length ≠ 0) then out ++ ['/']
    else out) ++ elem

/-- What Join writes in front of the name of an entry of the directory dir: the clean path
of the directory with a separator after it, nothing for the empty path and for a path that
Clean turns into the current directory. -/
def joinPrefix (dir : String) : List Char :=
  if dir = "" then []
  else if dir.data.head? = some '/' then
    addElement true (cleanLoop true dir.length (dir.data.drop 1) ['/'] 1) []
  else addElement false (cleanLoop false dir.length dir.data [] 0) []

end filepath

namespace os

/-- The files and subdirectories of the configuration directory, none when there is no
directory. -/
def DirState.entries : DirState → List DirEntry
  | DirState.dir entries _ => entries
  | _ => []

end os

namespace netutil

/-- Whether an entry of the configuration directory is a file with one of the extensions
that ConfigLists reads. -/
def recognized (e : os.DirEntry) : Bool :=
  !e.isDir && decide (filepath.Ext e.name ∈ [".conf", ".conflist", ".json"])

/-- The descriptor that ConfigLists makes of a loaded configuration list. -/
def descriptorOf (fileName : String) (lcl : libcni.NetworkConfigList) : NetworkConfigList :=
  { NetworkConfigList := lcl, Nerdctl := !IsExternalConfigList lcl.Bytes, File := fileName }

end netutil

namespace json

/-- The values of the members of an object whose key is the marker "nerdctl", letter case
apart. -/
def markerValues (members : List (String × Value)) : List Value :=
  (members.filter (fun kv => fieldMatch "nerdctl" kv.1)).map (fun kv => kv.2)

/-- The booleans among the values. -/
def boolValues (vs : List Value) : List Bool :=
  vs.filterMap (fun v => match v with
    | Value.bool b => some b
    | _ => none)

/-- Whether a value is a boolean or null. -/
def isBoolOrNull : Value → Bool
  | Value.bool _ => true
  | Value.null => true
  | _ => false

/-- The marker read to the letter: the text is a JSON object that has a member with the key
"nerdctl", so written, and the value true. -/
def hasMarkerTrue (b : String) : Bool :=
  match parse b with
  | some (Value.object members) =>
    members.any (fun kv => decide (kv.1 = "nerdctl") && (match kv.2 with
      | Value.bool true => true
      | _ => false))
  | _ => false

end json

namespace native

/-- The network that the inspect action reports for a configuration list. -/
def ofConfigList (l : netutil.NetworkConfigList) : Network :=
  { CNI := l.NetworkConfigList.Bytes, Nerdctl := l.Nerdctl, File := l.File }

end native

namespace json

/-- Whether neither the HTML escaper of the template nor the scanner of JSON strings does
anything to the character: it is no control character, no quote, no backslash and none of
the characters that the escaper replaces. -/
def isPlain (c : Char) : Bool :=
  decide (0x20 ≤ c.toNat) && c != '"' && c != '\\' && c != '&' && c != '\'' && c != '+'
    && c != '<' && c != '>'

end json

namespace netutil

/-- A configuration directory with a list file, a single-network file, a subdirectory and a
file of another kind. -/
def exampleDir : os.DirState :=
  os.DirState.dir
    [os.DirEntry.mk "b.conflist" false
       "\x7b\"name\":\"bnet\",\"plugins\":[\x7b\"type\":\"bridge\"\x7d]\x7d",
     os.DirEntry.mk "a.conf" false "\x7b\"name\":\"anet\",\"type\":\"macvlan\"\x7d",
     os.DirEntry.mk "sub.json" true "",
     os.DirEntry.mk "notes.txt" false "x"] true

end netutil

namespace json

/-- An empty array inside n arrays. -/
def nestedArray : Nat → Value
  | 0 => Value.array []
  | n + 1 => Value.array [nestedArray n]

/-- Whether compact writes the character as it is wherever the scanner accepts it: it is no
space and none of the characters that compact escapes. -/
def isCompactPlain (c : Char) : Bool :=
  !isSpace c && c != '<' && c != '>' && c != '&' && decide (c.toNat ≠ 0x2028)
    && decide (c.toNat ≠ 0x2029)

end json

namespace netutil

/-- The opening brackets of 9999 nested arrays. -/
def deepOpen : List Char := List.replicate 9999 '['

/-- The closing brackets of 9999 nested arrays. -/
def deepClose : List Char := List.replicate 9999 ']'

/-- The beginning of a configuration list with the name "deep", up to the value of its
member "x". -/
def deepHead : List Char :=
  "\x7b\"name\":\"deep\",\"plugins\":[\x7b\"type\":\"bridge\"\x7d],\"x\":".data

/-- A configuration list whose member "x" holds 9999 nested arrays: the document nests 10000
levels deep, the most that the scanner accepts. -/
def deepText : String := String.mk (deepHead ++ (deepOpen ++ (deepClose ++ ['}'])))

/-- The document that deepText holds. -/
def deepDoc : json.Value :=
  json.Value.object
    [("name", json.Value.string "deep"),
     ("plugins", json.Value.array [json.Value.object [("type", json.Value.string "bridge")]]),
     ("x", json.nestedArray 9998)]

/-- The configuration list that libcni reads from deepText. -/
def deepList : libcni.NetworkConfigList :=
  libcni.NetworkConfigList.mk "deep" "" false [libcni.NetConf.mk "" "" "bridge"] deepText

/-- A configuration directory with the one file deep.conflist, which holds deepText. -/
def deepDir : os.DirState :=
  os.DirState.dir [os.DirEntry.mk "deep.conflist" false deepText] true

end netutil

/-! ## Theorems -/

open json netutil libcni

namespace json

theorem Scanner.run_append (s : Scanner) (a b : List Char) :
    s.run (a ++ b) = (s.run a).run b := by
  simp [Scanner.run, List.foldl_append]

theorem Scanner.run_cons (s : Scanner) (c : Char) (cs : List Char) :
    s.run (c :: cs) = (s.next c).run cs := rfl

theorem Scanner.next_error (c : Char) : Scanner.error.next c = Scanner.error := rfl

theorem Scanner.run_error (cs : List Char) : Scanner.error.run cs = Scanner.error := by
  induction cs with
  | nil => rfl
  | cons c cs ih => rw [Scanner.run_cons, Scanner.next_error, ih]

theorem StringState.scanner_next (k : StringState) (raw : List Char) (stack : List Frame)
    (top : Option Value) (c : Char) (hc : c ≠ '"') :
    (k.scanner raw stack top).next c = (k.next c).scanner (raw ++ [c]) stack top := by
  cases k with
  | text =>
    simp only [StringState.scanner, Scanner.next, stateInString, StringState.next, if_neg hc]
    by_cases h1 : c = '\\'
    · simp [h1, StringState.scanner]
    · by_cases h2 : c.toNat < 0x20
      · simp [h1, h2, StringState.scanner]
      · simp [h1, h2, StringState.scanner]
  | esc =>
    simp only [StringState.scanner, Scanner.next, stateInStringEsc, StringState.next]
    split_ifs <;> simp [StringState.scanner]
  | escU seen =>
    simp only [StringState.scanner, Scanner.next, stateInStringEscU, StringState.next]
    split_ifs <;> simp [StringState.scanner]
  | bad => simp [StringState.scanner, StringState.next, Scanner.next_error]

theorem StringState.scanner_run (body : List Char) (hq : '"' ∉ body) :
    ∀ (k : StringState) (raw : List Char) (stack : List Frame) (top : Option Value),
    (k.scanner raw stack top).run body
      = (body.foldl StringState.next k).scanner (raw ++ body) stack top := by
  induction body with
  | nil => intro k raw stack top; simp [Scanner.run]
  | cons c cs ih =>
    intro k raw stack top
    have hc : c ≠ '"' := fun h => hq (by simp [h])
    have hcs : '"' ∉ cs := fun h => hq (by simp [h])
    rw [Scanner.run_cons, StringState.scanner_next k raw stack top c hc, ih hcs]
    simp

/-- After a body that is no string body, the closing quote and a line end that follows it,
at once or after a comma, are an error. -/
theorem StringState.scanner_close_bad (k : StringState) (hk : k ≠ StringState.text)
    (raw : List Char) (stack : List Frame) (top : Option Value) (rest : List Char) :
    (k.scanner raw stack top).run ('"' :: '\n' :: rest) = Scanner.error
    ∧ (k.scanner raw stack top).run ('"' :: ',' :: '\n' :: rest) = Scanner.error := by
  cases k with
  | text => exact absurd rfl hk
  | esc =>
    constructor <;>
    simp [StringState.scanner, Scanner.run_cons, Scanner.next, stateInStringEsc, stateInString,
      Scanner.run_error]
  | escU seen =>
    have h : (StringState.scanner (StringState.escU seen) raw stack top).next '"'
        = Scanner.error := by
      simp [StringState.scanner, Scanner.next, stateInStringEscU, isHex, isDigit]
    constructor <;> rw [Scanner.run_cons, h, Scanner.run_error]
  | bad => simp [StringState.scanner, Scanner.run_error]

end json

namespace netutil

theorem run_seg0 : Scanner.run Scanner.init seg0 = StringState.text.scanner [] stack0 none := by
  rfl

theorem quote_step (raw : List Char) (ms : List (String × Value)) (k : String)
    (rest : List Frame) :
    (StringState.text.scanner raw (Frame.parseObjectValue ms (some k) :: rest) none).next '"'
      = { step := Step.endValue,
          parseState := Frame.parseObjectValue
            (ms ++ [(k, Value.string (String.mk (unquote raw)))]) none :: rest,
          top := none } := by
  simp [StringState.scanner, Scanner.next, stateInString, finishValue]

set_option maxRecDepth 100000 in
set_option maxHeartbeats 2000000 in
theorem run_seg1 (raw : List Char) :
    Scanner.run (StringState.text.scanner raw stack0 none) seg1
      = StringState.text.scanner [] (stack1 (String.mk (unquote raw))) none := by
  have h : seg1 = '"' :: seg1.tail := rfl
  rw [h, Scanner.run_cons, stack0, quote_step]
  generalize String.mk (unquote raw) = v
  simp [StringState.scanner, stack1, seg1, Scanner.run, Scanner.next, stateEndValue, stateBeginValue, stateBeginString, stateBeginStringOrEmpty, stateBeginValueOrEmpty, stateInString, stateLiteral, finishValue, pushParseState, popParseState, isSpace, maxNestingDepth, unquote, unquoteLoop]

set_option maxRecDepth 100000 in
set_option maxHeartbeats 4000000 in
theorem run_seg2 (name : String) (raw : List Char) :
    Scanner.run (StringState.text.scanner raw (stack1 name) none) seg2
      = StringState.text.scanner [] (stack2 name (String.mk (unquote raw))) none := by
  have h : seg2 = '"' :: seg2.tail := rfl
  rw [h, Scanner.run_cons, stack1, quote_step]
  generalize String.mk (unquote raw) = v
  simp [StringState.scanner, stack2, stackRanges, seg2, Scanner.run, Scanner.next, stateEndValue, stateBeginValue, stateBeginString, stateBeginStringOrEmpty, stateBeginValueOrEmpty, stateInString, stateLiteral, finishValue, pushParseState, popParseState, isSpace, maxNestingDepth, unquote, unquoteLoop]

set_option maxRecDepth 100000 in
set_option maxHeartbeats 4000000 in
theorem run_seg3 (name bridge : String) (raw : List Char) :
    Scanner.run (StringState.text.scanner raw (stack2 name bridge) none) seg3
      = StringState.text.scanner [] (stack3 name bridge (String.mk (unquote raw))) none := by
  have h : seg3 = '"' :: seg3.tail := rfl
  rw [h, Scanner.run_cons, stack2, quote_step]
  generalize String.mk (unquote raw) = v
  simp [StringState.scanner, stack3, stackRanges, seg3, Scanner.run, Scanner.next, stateEndValue, stateBeginValue, stateBeginString, stateBeginStringOrEmpty, stateBeginValueOrEmpty, stateInString, stateLiteral, finishValue, pushParseState, popParseState, isSpace, maxNestingDepth, unquote, unquoteLoop]

set_option maxRecDepth 100000 in
set_option maxHeartbeats 8000000 in
theorem run_seg4 (name bridge subnet : String) (raw : List Char) :
    (Scanner.run (StringState.text.scanner raw (stack3 name bridge subnet) none) seg4).eof
      = some (renderedDoc name bridge subnet (String.mk (unquote raw))) := by
  have h : seg4 = '"' :: seg4.tail := rfl
  rw [h, Scanner.run_cons, stack3, quote_step]
  generalize String.mk (unquote raw) = v
  simp [StringState.scanner, renderedDoc, stackRanges, seg4, Scanner.run, Scanner.next, Scanner.eof, stateEndValue, stateBeginValue, stateBeginString, stateBeginStringOrEmpty, stateBeginValueOrEmpty, stateInString, stateLiteral, finishValue, pushParseState, popParseState, isSpace, maxNestingDepth, unquote, unquoteLoop]

end netutil

namespace template

theorem htmlEscapeChar_quote (c : Char) : '"' ∉ htmlEscapeChar c := by
  unfold htmlEscapeChar
  split_ifs with h1 h2 h3 h4 h5 h6 h7
  · decide
  · decide
  · decide
  · decide
  · decide
  · decide
  · decide
  · simp; exact fun h => h2 h.symm

theorem htmlEscape_quote (s : List Char) : '"' ∉ htmlEscape s := by
  intro h
  simp only [htmlEscape, List.mem_flatMap] at h
  obtain ⟨c, _, hc⟩ := h
  exact htmlEscapeChar_quote c hc

end template

namespace netutil

theorem seg1_head : seg1 = '"' :: ',' :: '\n' :: seg1.drop 3 := rfl

theorem seg2_head : seg2 = '"' :: ',' :: '\n' :: seg2.drop 3 := rfl

theorem seg3_head : seg3 = '"' :: ',' :: '\n' :: seg3.drop 3 := rfl

theorem seg4_head : seg4 = '"' :: '\n' :: seg4.drop 2 := rfl

theorem eof_error : Scanner.error.eof = none := rfl

/-- The scan of a field and the text after it, from inside the string of the field: when
the field is a string body, the scanner goes on after the closing quote; when it is not, the
scan ends in the error state. -/
theorem run_field (body seg : List Char) (stack : List Frame)
    (hq : '"' ∉ body)
    (hseg : (∃ r, seg = '"' :: ',' :: '\n' :: r) ∨ (∃ r, seg = '"' :: '\n' :: r))
    (rest : List Char) :
    (StringState.text.scanner [] stack none).run (body ++ (seg ++ rest))
      = if isStringBody body then ((StringState.text.scanner body stack none).run seg).run rest
        else Scanner.error := by
  rw [Scanner.run_append, StringState.scanner_run body hq, List.nil_append]
  by_cases hb : body.foldl StringState.next StringState.text = StringState.text
  · have : isStringBody body = true := by simp [isStringBody, hb]
    rw [this, hb, if_pos rfl, Scanner.run_append]
  · have : isStringBody body = false := by simp [isStringBody, hb]
    rw [this]
    simp only [Bool.false_eq_true, if_false]
    rcases hseg with ⟨r, hr⟩ | ⟨r, hr⟩
    · rw [hr]
      have := (StringState.scanner_close_bad _ hb body stack none (r ++ rest)).2
      simpa using this
    · rw [hr]
      have := (StringState.scanner_close_bad _ hb body stack none (r ++ rest)).1
      simpa using this

/-- The document of the rendered template: with four fields that are string bodies it is
renderedDoc of what the fields stand for, otherwise the text is not valid JSON. -/
theorem parse_rendered (n b s g : List Char) (hn : '"' ∉ n) (hb : '"' ∉ b) (hs : '"' ∉ s)
    (hg : '"' ∉ g) :
    json.parse (String.mk (rendered n b s g))
      = if isStringBody n && isStringBody b && isStringBody s && isStringBody g then
          some (renderedDoc (String.mk (unquote n)) (String.mk (unquote b))
            (String.mk (unquote s)) (String.mk (unquote g)))
        else none := by
  unfold json.parse rendered
  simp only []
  rw [Scanner.run_append, run_seg0,
    run_field n seg1 stack0 hn (Or.inl ⟨_, seg1_head⟩)]
  cases h1 : isStringBody n
  · simp [eof_error]
  rw [if_pos rfl, run_seg1, run_field b seg2 _ hb (Or.inl ⟨_, seg2_head⟩)]
  cases h2 : isStringBody b
  · simp [eof_error]
  rw [if_pos rfl, run_seg2, run_field s seg3 _ hs (Or.inl ⟨_, seg3_head⟩)]
  cases h3 : isStringBody s
  · simp [eof_error]
  rw [if_pos rfl, run_seg3]
  have h4 := run_field g seg4 (stack3 (String.mk (unquote n)) (String.mk (unquote b))
    (String.mk (unquote s))) hg (Or.inr ⟨_, seg4_head⟩) []
  simp only [List.append_nil] at h4
  rw [h4]
  cases h4 : isStringBody g
  · simp [eof_error]
  have h5 : ∀ x : Scanner, x.run [] = x := fun _ => rfl
  rw [if_pos rfl, h5, run_seg4]
  simp

end netutil

namespace netutil

set_option maxRecDepth 100000 in
set_option maxHeartbeats 4000000 in
theorem confList_of_doc (data N B S G : String)
    (h : json.parse data = some (renderedDoc N B S G)) :
    libcni.ConfListFromBytes data = Except.ok
      { Name := N, CNIVersion := "0.4.0", DisableCheck := false,
        Plugins := [{ CNIVersion := "", Name := "", Type_ := "bridge" },
                    { CNIVersion := "", Name := "", Type_ := "portmap" },
                    { CNIVersion := "", Name := "", Type_ := "firewall" },
                    { CNIVersion := "", Name := "", Type_ := "tuning" }],
        Bytes := data } := by
  simp [libcni.ConfListFromBytes, json.unmarshalMap, h, renderedDoc, membersToInterface,
    toInterface, elemsToInterface, mapSet, mapGet, stringLess, confsFromValues, confFromValue,
    decodeNetConf, decodeNetConfMembers, fieldMatch, equalFold, foldChar, storeString, ipamOk,
    capabilitiesOk, boolOrNull, stringOrNull]

set_option maxRecDepth 100000 in
theorem isExternal_of_doc (data N B S G : String)
    (h : json.parse data = some (renderedDoc N B S G)) :
    IsExternalConfigList data = false := by
  simp [IsExternalConfigList, unmarshalNerdctlConfigList, h, renderedDoc, decodeNerdctlMembers,
    fieldMatch, equalFold, foldChar, storeBool]

set_option maxRecDepth 1000000 in
theorem parse_template : template.Parse ConfigListTemplate = some ConfigListNodes := by
  decide!

theorem execute_template (opts : ConfigListTemplateOpts) :
    Execute ConfigListNodes opts
    = some (rendered (template.htmlEscape opts.Name.data) (template.htmlEscape opts.BridgeName.data)
        (template.htmlEscape opts.Subnet.data) (template.htmlEscape opts.Gateway.data)) := by
  simp [ConfigListNodes, Execute, ConfigListTemplateOpts.field, rendered]

end netutil

namespace netutil

theorem parse_renderedText (opts : ConfigListTemplateOpts) :
    json.parse (renderedText opts)
      = if fieldsAreStringBodies opts then
          some (renderedDoc (String.mk (unquote (template.htmlEscape opts.Name.data)))
            (String.mk (unquote (template.htmlEscape opts.BridgeName.data)))
            (String.mk (unquote (template.htmlEscape opts.Subnet.data)))
            (String.mk (unquote (template.htmlEscape opts.Gateway.data))))
        else none := by
  unfold renderedText fieldsAreStringBodies
  exact parse_rendered _ _ _ _ (template.htmlEscape_quote _) (template.htmlEscape_quote _)
    (template.htmlEscape_quote _) (template.htmlEscape_quote _)

/-- ConfListFromBytes on the bytes rendered for the options. -/
theorem confList_renderedText (opts : ConfigListTemplateOpts) :
    libcni.ConfListFromBytes (renderedText opts)
      = if fieldsAreStringBodies opts then Except.ok (generated opts).NetworkConfigList
        else Except.error (Error.libcni "error parsing configuration list") := by
  cases h : fieldsAreStringBodies opts
  · have hp := parse_renderedText opts
    rw [h] at hp
    simp only [Bool.false_eq_true, if_false] at hp
    simp [libcni.ConfListFromBytes, json.unmarshalMap, hp]
  · have hp := parse_renderedText opts
    rw [h, if_pos rfl] at hp
    rw [if_pos rfl, confList_of_doc _ _ _ _ _ hp]
    rfl

set_option maxRecDepth 100000 in
/-- GenerateConfigList after its checks of the arguments. -/
theorem GenerateConfigList_checked (name bridgeName cidr : String) (ip : net.IP)
    (subnet : net.IPNet) (hn : name ≠ "") (hb : bridgeName ≠ "") (hc : cidr ≠ "")
    (hp : net.ParseCIDR cidr = some (ip, subnet)) (he : net.IP.Equal subnet.IP ip = true)
    (hl : 3 < subnet.IP.length) :
    GenerateConfigList name bridgeName cidr
      = if fieldsAreStringBodies (optsOf name bridgeName subnet) then
          Except.ok (generated (optsOf name bridgeName subnet))
        else Except.error (Error.libcni "error parsing configuration list") := by
  have hl2 : ¬ subnet.IP.length ≤ 3 := by omega
  unfold GenerateConfigList
  simp only [hn, hb, hc, or_self, if_false, hp, he, not_true_eq_false, hl2, parse_template,
    execute_template]
  have := confList_renderedText (optsOf name bridgeName subnet)
  unfold renderedText at this
  rw [show (optsOf name bridgeName subnet).Name = name from rfl,
    show (optsOf name bridgeName subnet).BridgeName = bridgeName from rfl] at this
  unfold optsOf at this ⊢
  simp only [] at this ⊢
  rw [this]
  split_ifs <;> rfl

end netutil

namespace json

theorem isPlain_iff (c : Char) : isPlain c = true ↔
    0x20 ≤ c.toNat ∧ c ≠ '"' ∧ c ≠ '\\' ∧ c ≠ '&' ∧ c ≠ '\'' ∧ c ≠ '+' ∧ c ≠ '<' ∧ c ≠ '>' := by
  simp [isPlain, and_assoc]

theorem StringState.next_plain (c : Char) (h : isPlain c = true) :
    StringState.next StringState.text c = StringState.text := by
  obtain ⟨h0, h1, h2, -⟩ := (isPlain_iff c).1 h
  have h3 : ¬ c.toNat < 0x20 := by omega
  simp [StringState.next, h1, h2, h3]

theorem isStringBody_plain (s : List Char) (h : ∀ c ∈ s, isPlain c = true) :
    isStringBody s = true := by
  have : s.foldl StringState.next StringState.text = StringState.text := by
    induction s with
    | nil => rfl
    | cons c cs ih =>
      rw [List.foldl_cons, StringState.next_plain c (h c (by simp))]
      exact ih (fun x hx => h x (by simp [hx]))
  simp [isStringBody, this]

theorem unquoteLoop_plain (s : List Char) (h : ∀ c ∈ s, c ≠ '\\') :
    ∀ fuel, s.length ≤ fuel → unquoteLoop fuel s = s := by
  induction s with
  | nil => intro fuel _; cases fuel <;> rfl
  | cons c cs ih =>
    intro fuel hf
    cases fuel with
    | zero => simp at hf
    | succ fuel =>
      have hc : c ≠ '\\' := h c (by simp)
      have := ih (fun x hx => h x (by simp [hx])) fuel (by simpa using hf)
      simp [unquoteLoop, hc, this]

theorem unquote_plain (s : List Char) (h : ∀ c ∈ s, isPlain c = true) : unquote s = s :=
  unquoteLoop_plain s (fun c hc => ((isPlain_iff c).1 (h c hc)).2.2.1) _ (le_refl _)

end json

namespace template

theorem htmlEscapeChar_plain (c : Char) (h : isPlain c = true) : htmlEscapeChar c = [c] := by
  obtain ⟨h0, h1, h2, h3, h4, h5, h6, h7⟩ := (isPlain_iff c).1 h
  have h8 : c.toNat ≠ 0 := by omega
  simp [htmlEscapeChar, h1, h3, h4, h5, h6, h7, h8]

theorem htmlEscape_plain (s : List Char) (h : ∀ c ∈ s, isPlain c = true) : htmlEscape s = s := by
  induction s with
  | nil => rfl
  | cons c cs ih =>
    have := ih (fun x hx => h x (by simp [hx]))
    simp only [htmlEscape, List.flatMap_cons] at this ⊢
    rw [this, htmlEscapeChar_plain c (h c (by simp))]
    rfl

end template

namespace net

theorem digitChar_plain (n : Nat) : isPlain (Nat.digitChar n) = true := by
  by_cases h : n < 16
  · interval_cases n <;> decide
  · have : Nat.digitChar n = '*' := by
      unfold Nat.digitChar
      repeat (rw [if_neg (by omega)])
    rw [this]
    decide

theorem ubtoa_plain (v : Nat) : ∀ c ∈ ubtoa v, isPlain c = true := by
  intro c hc
  unfold ubtoa at hc
  split_ifs at hc
  · simp at hc; subst hc; exact digitChar_plain _
  · simp at hc; rcases hc with h | h <;> subst h <;> exact digitChar_plain _
  · simp at hc; rcases hc with h | h | h <;> subst h <;> exact digitChar_plain _

theorem uitoaLoop_plain : ∀ (fuel val : Nat) (acc : List Char),
    (∀ c ∈ acc, isPlain c = true) → ∀ c ∈ uitoaLoop fuel val acc, isPlain c = true := by
  intro fuel
  induction fuel with
  | zero =>
    intro val acc hacc c hc
    simp only [uitoaLoop, List.mem_cons] at hc
    rcases hc with h | h
    · subst h; exact digitChar_plain _
    · exact hacc c h
  | succ fuel ih =>
    intro val acc hacc c hc
    unfold uitoaLoop at hc
    split_ifs at hc
    · refine ih _ _ ?_ c hc
      intro x hx
      simp only [List.mem_cons] at hx
      rcases hx with h | h
      · subst h; exact digitChar_plain _
      · exact hacc x h
    · simp only [List.mem_cons] at hc
      rcases hc with h | h
      · subst h; exact digitChar_plain _
      · exact hacc c h

theorem uitoa_plain (val : Nat) : ∀ c ∈ uitoa val, isPlain c = true := by
  intro c hc
  unfold uitoa at hc
  split_ifs at hc
  · simp at hc; subst hc; decide
  · exact uitoaLoop_plain _ _ [] (by simp) c hc

theorem hexString_plain (b : List Nat) : ∀ c ∈ hexString b, isPlain c = true := by
  intro c hc
  simp only [hexString, List.mem_flatMap, List.mem_cons, List.mem_singleton] at hc
  obtain ⟨_, _, h⟩ := hc
  simp at h
  rcases h with h | h <;> subst h <;> exact digitChar_plain _

theorem ipString_v4 (a b c d : Nat) :
    IP.String [a, b, c, d]
      = String.mk (ubtoa a ++ ['.'] ++ ubtoa b ++ ['.'] ++ ubtoa c ++ ['.'] ++ ubtoa d) := by
  simp [IP.String, IP.To4, IPv4len]

theorem ipString_v4_plain (a b c d : Nat) :
    ∀ x ∈ (IP.String [a, b, c, d]).data, isPlain x = true := by
  intro x hx
  rw [ipString_v4] at hx
  simp only [List.mem_append, List.mem_singleton] at hx
  rcases hx with ((((((h | h) | h) | h) | h) | h) | h)
  · exact ubtoa_plain _ x h
  · subst h; decide
  · exact ubtoa_plain _ x h
  · subst h; decide
  · exact ubtoa_plain _ x h
  · subst h; decide
  · exact ubtoa_plain _ x h

theorem ipNetString_v4_plain (n : IPNet) (a b c d : Nat) (hip : n.IP = [a, b, c, d])
    (hm : n.Mask.length = 4) : ∀ x ∈ (IPNet.String n).data, isPlain x = true := by
  have h1 : networkNumberAndMask n = some ([a, b, c, d], n.Mask) := by
    simp [networkNumberAndMask, hip, hm, IP.To4, IPv4len, IPv6len]
  intro x hx
  unfold IPNet.String at hx
  rw [h1] at hx
  simp only [] at hx
  split at hx
  · simp only [String.data_append, List.mem_append] at hx
    rcases hx with (h | h) | h
    · exact ipString_v4_plain a b c d x h
    · simp at h; subst h; decide
    · unfold IPMask.String at h
      split_ifs at h
      · omega
      · exact hexString_plain _ x h
  · simp only [String.data_append, List.mem_append] at hx
    rcases hx with (h | h) | h
    · exact ipString_v4_plain a b c d x h
    · simp at h; subst h; decide
    · exact uitoa_plain _ x h

end net

namespace netutil

theorem ParseCIDR_ne_empty (cidr : String) (ip : net.IP) (subnet : net.IPNet)
    (hp : net.ParseCIDR cidr = some (ip, subnet)) : cidr ≠ "" := by
  intro h
  have h0 : net.ParseCIDR "" = none := by decide
  rw [h, h0] at hp
  exact absurd hp (by simp)

/-- What GenerateConfigList returns when it returns a configuration list: the list
generated for the name, the bridge name and the parsed network, whose four fields are then
JSON string bodies. -/
theorem GenerateConfigList_ok (name bridgeName cidr : String) (l : netutil.NetworkConfigList)
    (h : GenerateConfigList name bridgeName cidr = Except.ok l) :
    ∃ ip subnet, net.ParseCIDR cidr = some (ip, subnet)
      ∧ fieldsAreStringBodies (optsOf name bridgeName subnet) = true
      ∧ l = generated (optsOf name bridgeName subnet) := by
  by_cases hn : name = ""
  · simp [GenerateConfigList, hn] at h
  by_cases hb : bridgeName = ""
  · simp [GenerateConfigList, hb] at h
  by_cases hc : cidr = ""
  · simp [GenerateConfigList, hc] at h
  cases hp : net.ParseCIDR cidr with
  | none => simp [GenerateConfigList, hn, hb, hc, hp] at h
  | some p =>
    obtain ⟨ip, subnet⟩ := p
    by_cases he : net.IP.Equal subnet.IP ip = true
    · by_cases hl : subnet.IP.length ≤ 3
      · simp [GenerateConfigList, hn, hb, hc, hp, he, hl] at h
      · rw [GenerateConfigList_checked name bridgeName cidr ip subnet hn hb hc hp he
          (by omega)] at h
        refine ⟨ip, subnet, rfl, ?_⟩
        cases hf : fieldsAreStringBodies (optsOf name bridgeName subnet)
        · rw [hf] at h
          simp at h
        · rw [hf, if_pos rfl] at h
          exact ⟨rfl, (Except.ok.inj h).symm⟩
    · simp [GenerateConfigList, hn, hb, hc, hp, he] at h

theorem isExternal_generated (opts : ConfigListTemplateOpts)
    (h : fieldsAreStringBodies opts = true) :
    IsExternalConfigList (generated opts).NetworkConfigList.Bytes = false := by
  have hp := parse_renderedText opts
  rw [h, if_pos rfl] at hp
  exact isExternal_of_doc _ _ _ _ _ hp

/-- GenerateConfigList on arguments that pass its checks and give fields that are string
bodies. -/
theorem GenerateConfigList_of_opts (name bridgeName cidr : String) (ip : net.IP)
    (subnet : net.IPNet) (opts : ConfigListTemplateOpts) (hn : name ≠ "") (hb : bridgeName ≠ "")
    (hp : net.ParseCIDR cidr = some (ip, subnet)) (he : net.IP.Equal subnet.IP ip = true)
    (hl : 3 < subnet.IP.length) (ho : optsOf name bridgeName subnet = opts)
    (hf : fieldsAreStringBodies opts = true) :
    GenerateConfigList name bridgeName cidr = Except.ok (generated opts) := by
  rw [GenerateConfigList_checked name bridgeName cidr ip subnet hn hb
    (ParseCIDR_ne_empty cidr ip subnet hp) hp he hl, ho, hf, if_pos rfl]

end netutil

/-- C2: for a non-empty name and bridge name and a CIDR text that parses to an address that
is not the base address of its network, GenerateConfigList returns the error that reports
the text and, as the suggestion, the string of the network. -/
theorem C2_noncanonical_cidr_rejected (name bridgeName cidr : String) (ip : net.IP)
    (subnet : net.IPNet) (hn : name ≠ "") (hb : bridgeName ≠ "")
    (hp : net.ParseCIDR cidr = some (ip, subnet))
    (he : net.IP.Equal subnet.IP ip = false) :
    GenerateConfigList name bridgeName cidr
      = Except.error (Error.unexpectedCIDR cidr (net.IPNet.String subnet)) := by
  have hc := ParseCIDR_ne_empty cidr ip subnet hp
  simp [GenerateConfigList, hn, hb, hc, hp, he]

/-- C2 at "10.4.0.5/16": the text is rejected with the suggestion "10.4.0.0/16". -/
theorem C2_noncanonical_cidr_rejected_witness :
    GenerateConfigList "nerdctl" "cni-nerdctl0" "10.4.0.5/16"
      = Except.error (Error.unexpectedCIDR "10.4.0.5/16" "10.4.0.0/16") :=
  C2_noncanonical_cidr_rejected "nerdctl" "cni-nerdctl0" "10.4.0.5/16" (net.IPv4 10 4 0 5)
    { IP := [10, 4, 0, 0], Mask := [255, 255, 0, 0] } (by decide) (by decide) (by decide)
    (by decide)

/-- C4: when GenerateConfigList returns a configuration list, IsExternalConfigList of its
bytes is false, in agreement with its field Nerdctl, which is true. -/
theorem C4_render_then_classify (name bridgeName cidr : String) (l : netutil.NetworkConfigList)
    (h : GenerateConfigList name bridgeName cidr = Except.ok l) :
    IsExternalConfigList l.NetworkConfigList.Bytes = false ∧ l.Nerdctl = true := by
  obtain ⟨ip, subnet, _, hf, hl⟩ := GenerateConfigList_ok name bridgeName cidr l h
  subst hl
  exact ⟨isExternal_generated _ hf, rfl⟩

set_option maxRecDepth 1000000 in
/-- C4 at the default network. -/
theorem C4_render_then_classify_witness :
    GenerateConfigList "nerdctl" "cni-nerdctl0" "10.4.0.0/16"
        = Except.ok (generated (ConfigListTemplateOpts.mk "nerdctl" "cni-nerdctl0" "10.4.0.0/16" "10.4.0.1"))
      ∧ IsExternalConfigList (generated (ConfigListTemplateOpts.mk "nerdctl" "cni-nerdctl0" "10.4.0.0/16" "10.4.0.1")).NetworkConfigList.Bytes = false
      ∧ (generated (ConfigListTemplateOpts.mk "nerdctl" "cni-nerdctl0" "10.4.0.0/16" "10.4.0.1")).Nerdctl = true :=
  have h : GenerateConfigList "nerdctl" "cni-nerdctl0" "10.4.0.0/16"
        = Except.ok (generated
            (ConfigListTemplateOpts.mk "nerdctl" "cni-nerdctl0" "10.4.0.0/16" "10.4.0.1")) :=
    GenerateConfigList_of_opts "nerdctl" "cni-nerdctl0" "10.4.0.0/16" (net.IPv4 10 4 0 0)
      (net.IPNet.mk [10, 4, 0, 0] [255, 255, 0, 0]) _ (by decide) (by decide) (by decide)
      (by decide) (by decide) (by decide) (by decide)
  ⟨h, C4_render_then_classify "nerdctl" "cni-nerdctl0" "10.4.0.0/16" _ h⟩

/-- C1, amended: for a non-empty name and bridge name whose escaped texts are JSON string
bodies, and a CIDR text that parses to an IPv4 network a.b.c.d with the address of the text
equal to a.b.c.d and d below 255, GenerateConfigList returns a configuration list whose
bytes are the template with the escaped names, the string of the network as the subnet and
a.b.c.(d+1) as the gateway, and these bytes are the JSON document with that subnet and that
gateway. -/
theorem C1_generate_ipv4 (name bridgeName cidr : String) (ip : net.IP) (subnet : net.IPNet)
    (a b c d : Nat) (hn : name ≠ "") (hb : bridgeName ≠ "")
    (hnb : json.isStringBody (template.htmlEscape name.data) = true)
    (hbb : json.isStringBody (template.htmlEscape bridgeName.data) = true)
    (hp : net.ParseCIDR cidr = some (ip, subnet)) (hip : subnet.IP = [a, b, c, d])
    (hm : subnet.Mask.length = 4) (he : net.IP.Equal subnet.IP ip = true) (hd : d < 255) :
    ∃ l, GenerateConfigList name bridgeName cidr = Except.ok l
      ∧ l.Nerdctl = true ∧ l.File = ""
      ∧ l.NetworkConfigList.Bytes = String.mk (rendered (template.htmlEscape name.data)
          (template.htmlEscape bridgeName.data) (net.IPNet.String subnet).data
          (net.IP.String [a, b, c, d + 1]).data)
      ∧ json.parse l.NetworkConfigList.Bytes = some (renderedDoc
          (String.mk (json.unquote (template.htmlEscape name.data)))
          (String.mk (json.unquote (template.htmlEscape bridgeName.data)))
          (net.IPNet.String subnet) (net.IP.String [a, b, c, d + 1])) := by
  have hc := ParseCIDR_ne_empty cidr ip subnet hp
  have hl : 3 < subnet.IP.length := by rw [hip]; simp
  have ho : optsOf name bridgeName subnet = ConfigListTemplateOpts.mk name bridgeName
      (net.IPNet.String subnet) (net.IP.String [a, b, c, d + 1]) := by
    have : (d + 1) % 256 = d + 1 := Nat.mod_eq_of_lt (by omega)
    simp [optsOf, hip, this]
  have hsp := net.ipNetString_v4_plain subnet a b c d hip hm
  have hgp := net.ipString_v4_plain a b c (d + 1)
  have hse : template.htmlEscape (net.IPNet.String subnet).data = (net.IPNet.String subnet).data :=
    template.htmlEscape_plain _ hsp
  have hge : template.htmlEscape (net.IP.String [a, b, c, d + 1]).data
      = (net.IP.String [a, b, c, d + 1]).data := template.htmlEscape_plain _ hgp
  have hf : fieldsAreStringBodies (optsOf name bridgeName subnet) = true := by
    rw [ho]
    unfold fieldsAreStringBodies
    simp only []
    rw [hse, hge, hnb, hbb, json.isStringBody_plain _ hsp, json.isStringBody_plain _ hgp]
    rfl
  refine ⟨generated (optsOf name bridgeName subnet), ?_, rfl, rfl, ?_, ?_⟩
  · rw [GenerateConfigList_checked name bridgeName cidr ip subnet hn hb hc hp he hl, hf,
      if_pos rfl]
  · show renderedText (optsOf name bridgeName subnet) = _
    rw [ho]
    unfold renderedText
    simp only []
    rw [hse, hge]
  · show json.parse (renderedText (optsOf name bridgeName subnet)) = _
    rw [parse_renderedText, hf, if_pos rfl, ho]
    simp only []
    rw [hse, hge, json.unquote_plain _ hsp, json.unquote_plain _ hgp]

set_option maxRecDepth 1000000 in
/-- C1 at the default network: "10.4.0.0/16" gives the subnet "10.4.0.0/16" and the gateway
"10.4.0.1". -/
theorem C1_generate_ipv4_witness :
    ∃ l, GenerateConfigList "nerdctl" "cni-nerdctl0" "10.4.0.0/16" = Except.ok l
      ∧ l.Nerdctl = true ∧ l.File = ""
      ∧ l.NetworkConfigList.Bytes = String.mk (rendered "nerdctl".data "cni-nerdctl0".data
          "10.4.0.0/16".data "10.4.0.1".data)
      ∧ json.parse l.NetworkConfigList.Bytes
          = some (renderedDoc "nerdctl" "cni-nerdctl0" "10.4.0.0/16" "10.4.0.1") :=
  C1_generate_ipv4 "nerdctl" "cni-nerdctl0" "10.4.0.0/16" (net.IPv4 10 4 0 0)
    { IP := [10, 4, 0, 0], Mask := [255, 255, 0, 0] } 10 4 0 0 (by decide) (by decide)
    (by decide) (by decide) (by decide) rfl rfl (by decide) (by decide)

set_option maxRecDepth 1000000 in
/-- C1 as stated fails: the name "a\" is not empty and "10.4.0.0/16" is the base address of
its network with fourth octet 0, yet GenerateConfigList renders no descriptor. The backslash
goes unescaped into the JSON text, which libcni then refuses. -/
theorem C1_counterexample :
    ("a\\" : String) ≠ "" ∧ ("br0" : String) ≠ ""
      ∧ net.ParseCIDR "10.4.0.0/16"
          = some (net.IPv4 10 4 0 0, { IP := [10, 4, 0, 0], Mask := [255, 255, 0, 0] })
      ∧ net.IP.Equal [10, 4, 0, 0] (net.IPv4 10 4 0 0) = true
      ∧ GenerateConfigList "a\\" "br0" "10.4.0.0/16"
          = Except.error (Error.libcni "error parsing configuration list") :=
  ⟨by decide, by decide, by decide, by decide, by decide!⟩

set_option maxRecDepth 1000000 in
/-- C7 fails on the code: for "10.4.0.255/32" the incremented octet wraps around, and the
rendered document has the gateway 10.4.0.0, outside the block of the one address
10.4.0.255; for "10.4.0.0/32" the gateway 10.4.0.1 is outside the block; and for the IPv6
network "fd00::/64" the fourth byte is not the last one, and the gateway fd00:1:: is outside
the block. -/
theorem C7_gateway_outside_subnet :
    (GenerateConfigList "net1" "br1" "10.4.0.255/32"
        = Except.ok (generated (ConfigListTemplateOpts.mk "net1" "br1" "10.4.0.255/32" "10.4.0.0"))
      ∧ json.parse (generated
            (ConfigListTemplateOpts.mk "net1" "br1" "10.4.0.255/32" "10.4.0.0")).NetworkConfigList.Bytes
          = some (renderedDoc "net1" "br1" "10.4.0.255/32" "10.4.0.0"))
      ∧ GenerateConfigList "net1" "br1" "10.4.0.0/32"
        = Except.ok (generated (ConfigListTemplateOpts.mk "net1" "br1" "10.4.0.0/32" "10.4.0.1"))
      ∧ GenerateConfigList "net1" "br1" "fd00::/64"
        = Except.ok (generated (ConfigListTemplateOpts.mk "net1" "br1" "fd00::/64" "fd00:1::")) :=
  ⟨⟨GenerateConfigList_of_opts "net1" "br1" "10.4.0.255/32" (net.IPv4 10 4 0 255)
      (net.IPNet.mk [10, 4, 0, 255] [255, 255, 255, 255]) _ (by decide) (by decide) (by decide)
      (by decide) (by decide) (by decide) (by decide),
    (parse_renderedText (ConfigListTemplateOpts.mk "net1" "br1" "10.4.0.255/32" "10.4.0.0")).trans
      (if_pos (by decide))⟩,
   GenerateConfigList_of_opts "net1" "br1" "10.4.0.0/32" (net.IPv4 10 4 0 0)
      (net.IPNet.mk [10, 4, 0, 0] [255, 255, 255, 255]) _ (by decide) (by decide) (by decide)
      (by decide) (by decide) (by decide) (by decide),
   GenerateConfigList_of_opts "net1" "br1" "fd00::/64"
      [0xfd, 0, 0, 0, 0, 0, 0, 0, 0, 0, 0, 0, 0, 0, 0, 0]
      (net.IPNet.mk [0xfd, 0, 0, 0, 0, 0, 0, 0, 0, 0, 0, 0, 0, 0, 0, 0]
        [255, 255, 255, 255, 255, 255, 255, 255, 0, 0, 0, 0, 0, 0, 0, 0]) _
      (by decide) (by decide) (by decide) (by decide) (by decide) (by decide) (by decide)⟩

namespace json

theorem getLast?_cons_getD {α : Type} (a : α) (l : List α) (d : α) :
    ((a :: l).getLast?).getD d = (l.getLast?).getD a := by
  cases l with
  | nil => rfl
  | cons b l =>
    rw [List.getLast?_cons_cons]
    cases h : (b :: l).getLast? with
    | none => simp at h
    | some x => rfl

/-- The decoding of the members of an object into a nerdctlConfigList: the field is the
last boolean among the values of the marker, and a type error is saved when one of these
values is neither a boolean nor null. -/
theorem decodeNerdctlMembers_eq (ms : List (String × Value)) :
    ∀ (ncl : nerdctlConfigList) (bad : Bool),
    decodeNerdctlMembers ms (ncl, bad)
      = ({ Nerdctl := ((boolValues (markerValues ms)).getLast?).getD ncl.Nerdctl },
         bad || (markerValues ms).any (fun v => !isBoolOrNull v)) := by
  induction ms with
  | nil => intro ncl bad; simp [decodeNerdctlMembers, markerValues, boolValues]
  | cons kv ms ih =>
    intro ncl bad
    obtain ⟨k, v⟩ := kv
    by_cases hk : fieldMatch "nerdctl" k = true
    · have hm : markerValues ((k, v) :: ms) = v :: markerValues ms := by
        simp [markerValues, List.filter_cons, hk]
      rw [hm]
      cases v with
      | bool b =>
        simp only [decodeNerdctlMembers, hk, if_true, storeBool, ih]
        simp [boolValues, isBoolOrNull, getLast?_cons_getD]
      | null =>
        simp only [decodeNerdctlMembers, hk, if_true, storeBool, ih]
        simp [boolValues, isBoolOrNull]
      | number lit =>
        simp only [decodeNerdctlMembers, hk, if_true, storeBool, ih]
        simp [boolValues, isBoolOrNull]
      | string s =>
        simp only [decodeNerdctlMembers, hk, if_true, storeBool, ih]
        simp [boolValues, isBoolOrNull]
      | array elems =>
        simp only [decodeNerdctlMembers, hk, if_true, storeBool, ih]
        simp [boolValues, isBoolOrNull]
      | object members =>
        simp only [decodeNerdctlMembers, hk, if_true, storeBool, ih]
        simp [boolValues, isBoolOrNull]
    · have hm : markerValues ((k, v) :: ms) = markerValues ms := by
        simp [markerValues, List.filter_cons, hk]
      rw [hm]
      simp only [decodeNerdctlMembers, hk, if_false, ih, Bool.false_eq_true]

end json

/-- C3, amended: IsExternalConfigList returns false exactly for a JSON object in which every
member whose key is "nerdctl", letter case apart, holds a boolean or null, and the last
boolean among these members is true. It returns true for everything else: invalid JSON, a
document that is no object, a marker with a value of another type, and a marker that is
absent, null or, in the end, false. The bytes with the marker true give false, the empty
object gives true, and bytes that do not parse give true. -/
theorem C3_isExternal_iff :
    (∀ b : String, IsExternalConfigList b = false ↔
      ∃ members, json.parse b = some (json.Value.object members)
        ∧ (∀ v ∈ json.markerValues members, json.isBoolOrNull v = true)
        ∧ (json.boolValues (json.markerValues members)).getLast? = some true)
    ∧ IsExternalConfigList "\x7b\"nerdctl\":true\x7d" = false
    ∧ IsExternalConfigList "\x7b\x7d" = true
    ∧ IsExternalConfigList "not json" = true := by
  refine ⟨?_, by decide, by decide, by decide⟩
  intro b
  unfold IsExternalConfigList json.unmarshalNerdctlConfigList
  cases hp : json.parse b with
  | none => simp
  | some v =>
    cases v with
    | object members =>
      simp only [json.decodeNerdctlMembers_eq, Bool.false_or]
      cases hany : (json.markerValues members).any (fun v => !json.isBoolOrNull v)
      · have hall : ∀ v ∈ json.markerValues members, json.isBoolOrNull v = true := by
          intro v hv
          by_contra hne
          have : (json.markerValues members).any (fun v => !json.isBoolOrNull v) = true := by
            rw [List.any_eq_true]
            exact ⟨v, hv, by simpa using hne⟩
          rw [hany] at this
          exact absurd this (by simp)
        cases hl : (json.boolValues (json.markerValues members)).getLast? with
        | none => simp [hl]
        | some x =>
          cases x
          · simp [hl]
          · simpa [hl] using hall
      · have hex : ¬ ∀ v ∈ json.markerValues members, json.isBoolOrNull v = true := by
          intro hall
          rw [List.any_eq_true] at hany
          obtain ⟨v, hv, hb⟩ := hany
          rw [hall v hv] at hb
          simp at hb
        simp [hex]
    | null => simp
    | bool x => simp
    | number lit => simp
    | string s => simp
    | array elems => simp

/-- C3 as stated fails: the bytes with the key NERDCTL in capitals have no member with the key
"nerdctl", yet IsExternalConfigList returns false, because Unmarshal matches the keys of
an object with the names of the fields without regard to letter case. -/
theorem C3_counterexample :
    json.parse "\x7b\"NERDCTL\":true\x7d"
        = some (json.Value.object [("NERDCTL", json.Value.bool true)])
      ∧ json.hasMarkerTrue "\x7b\"NERDCTL\":true\x7d" = false
      ∧ IsExternalConfigList "\x7b\"NERDCTL\":true\x7d" = false :=
  ⟨by rfl, by decide, by decide⟩

theorem stringLess_asymm : ∀ (a b : List Char), stringLess a b = true → stringLess b a = false
  | _, [] => by intro h; simp [stringLess] at h
  | [], _ :: _ => by intro _; simp [stringLess]
  | a :: as, b :: bs => by
    intro h
    simp only [stringLess, Bool.or_eq_true, decide_eq_true_eq, Bool.and_eq_true] at h
    simp only [stringLess, Bool.or_eq_false_iff, decide_eq_false_iff_not, Bool.and_eq_false_imp,
      decide_eq_true_eq]
    rcases h with h | ⟨h1, h2⟩
    · exact ⟨by omega, fun h' => by omega⟩
    · exact ⟨by omega, fun _ => stringLess_asymm as bs h2⟩

/-- The order "not greater" of Go strings is transitive. -/
theorem stringLess_trans : ∀ (a b c : List Char), stringLess b a = false →
    stringLess c b = false → stringLess c a = false
  | [], _, c => by
    intro _ h2
    cases c with
    | nil => rfl
    | cons x xs => simp [stringLess]
  | a :: as, [], c => by
    intro h1 _
    simp [stringLess] at h1
  | a :: as, b :: bs, [] => by
    intro _ h2
    simp [stringLess] at h2
  | a :: as, b :: bs, c :: cs => by
    intro h1 h2
    simp only [stringLess, Bool.or_eq_false_iff, decide_eq_false_iff_not, Bool.and_eq_false_imp,
      decide_eq_true_eq] at h1 h2 ⊢
    refine ⟨by omega, fun h => ?_⟩
    have hba : b.toNat = a.toNat := by omega
    have hcb : c.toNat = b.toNat := by omega
    exact stringLess_trans as bs cs (h1.2 hba) (h2.2 hcb)

theorem stringLess_append_left (p a b : List Char) :
    stringLess (p ++ a) (p ++ b) = stringLess a b := by
  induction p with
  | nil => rfl
  | cons c cs ih => simp [stringLess, ih]

namespace sort

theorem insert_perm (s : String) (l : List String) : (insert s l).Perm (s :: l) := by
  induction l with
  | nil => exact List.Perm.refl _
  | cons t ts ih =>
    unfold insert
    split_ifs
    · exact (List.Perm.cons t ih).trans (List.Perm.swap s t ts)
    · exact List.Perm.refl _

theorem Strings_perm (l : List String) : (Strings l).Perm l := by
  induction l with
  | nil => exact List.Perm.refl _
  | cons s l ih =>
    show (insert s (Strings l)).Perm (s :: l)
    exact (insert_perm s _).trans (List.Perm.cons s ih)

theorem insert_sorted (s : String) (l : List String)
    (h : l.Pairwise (fun a b => stringLess b.data a.data = false)) :
    (insert s l).Pairwise (fun a b => stringLess b.data a.data = false) := by
  induction l with
  | nil => simp [insert]
  | cons t ts ih =>
    rw [List.pairwise_cons] at h
    unfold insert
    split_ifs with hts
    · rw [List.pairwise_cons]
      refine ⟨?_, ih h.2⟩
      intro x hx
      rcases (List.mem_cons.1 ((insert_perm s ts).subset hx)) with hxs | hxt
      · subst hxs
        exact stringLess_asymm _ _ hts
      · exact h.1 x hxt
    · have hts' : stringLess t.data s.data = false := by simpa using hts
      rw [List.pairwise_cons]
      refine ⟨?_, List.pairwise_cons.2 h⟩
      intro x hx
      rcases List.mem_cons.1 hx with hxt | hxt
      · subst hxt
        exact hts'
      · exact stringLess_trans _ _ _ hts' (h.1 x hxt)

/-- The result of Strings is in increasing order. -/
theorem Strings_sorted (l : List String) :
    (Strings l).Pairwise (fun a b => stringLess b.data a.data = false) := by
  induction l with
  | nil => simp [Strings]
  | cons s l ih => exact insert_sorted s _ ih

end sort

namespace filepath

theorem cleanLoop_nil (r : Bool) (fuel : Nat) (out : List Char) (dd : Nat) :
    cleanLoop r fuel [] out dd = out := by
  cases fuel <;> rfl

theorem cleanLoop_cons (r : Bool) (fuel : Nat) (c : Char) (rest out : List Char) (dd : Nat) :
    cleanLoop r (fuel + 1) (c :: rest) out dd =
      if c = '/' then cleanLoop r fuel rest out dd
      else if c = '.' ∧ (rest = [] ∨ rest.head? = some '/') then cleanLoop r fuel rest out dd
      else if c = '.' ∧ rest.head? = some '.'
          ∧ (rest.tail = [] ∨ rest.tail.head? = some '/') then
        if dd < out.length then
          cleanLoop r fuel rest.tail (out.take (backtrack out dd (out.length - 1))) dd
        else if r = false then
          cleanLoop r fuel rest.tail ((if 0 < out.length then out ++ ['/'] else out) ++ ['.', '.'])
            ((if 0 < out.length then out ++ ['/'] else out) ++ ['.', '.']).length
        else cleanLoop r fuel rest.tail out dd
      else
        cleanLoop r fuel ((c :: rest).dropWhile (fun x => x ≠ '/'))
          ((if (r = true ∧ out.length ≠ 1) ∨ (r = false ∧ out.length ≠ 0) then out ++ ['/']
            else out) ++ (c :: rest).takeWhile (fun x => x ≠ '/')) dd := rfl

theorem length_dropWhile_le (p : Char → Bool) (l : List Char) :
    (l.dropWhile p).length ≤ l.length := by
  induction l with
  | nil => simp
  | cons x xs ih =>
    rw [List.dropWhile_cons]
    split_ifs
    · simp only [List.length_cons]; omega
    · exact Nat.le_refl _

/-- The loop of Clean needs no more fuel than the length of the path. -/
theorem cleanLoop_fuel (r : Bool) : ∀ (f1 f2 : Nat) (p out : List Char) (dd : Nat),
    p.length ≤ f1 → p.length ≤ f2 → cleanLoop r f1 p out dd = cleanLoop r f2 p out dd := by
  intro f1
  induction f1 with
  | zero =>
    intro f2 p out dd h1 _
    have hp : p = [] := List.length_eq_zero.1 (Nat.le_zero.1 h1)
    subst hp
    rw [cleanLoop_nil, cleanLoop_nil]
  | succ f1 ih =>
    intro f2 p out dd h1 h2
    cases p with
    | nil => rw [cleanLoop_nil, cleanLoop_nil]
    | cons c rest =>
      cases f2 with
      | zero => simp at h2
      | succ f2 =>
        simp only [List.length_cons, Nat.add_le_add_iff_right] at h1 h2
        have ht : rest.tail.length ≤ rest.length := by simp
        rw [cleanLoop_cons, cleanLoop_cons]
        by_cases hc : c = '/'
        · rw [if_pos hc, if_pos hc]
          exact ih _ _ _ _ h1 h2
        · have hd : ((c :: rest).dropWhile (fun x => x ≠ '/')).length ≤ rest.length := by
            rw [List.dropWhile_cons, if_pos (by simpa using hc)]
            exact length_dropWhile_le _ _
          rw [if_neg hc, if_neg hc]
          split_ifs <;> exact ih _ _ _ _ (by omega) (by omega)

theorem takeWhile_append_sep (l a : List Char) :
    (l ++ '/' :: a).takeWhile (fun x => x ≠ '/') = l.takeWhile (fun x => x ≠ '/') := by
  induction l with
  | nil => simp
  | cons x xs ih =>
    simp only [List.cons_append, List.takeWhile_cons]
    split_ifs
    · rw [ih]
    · rfl

theorem dropWhile_append_sep (l a : List Char) :
    (l ++ '/' :: a).dropWhile (fun x => x ≠ '/')
      = l.dropWhile (fun x => x ≠ '/') ++ '/' :: a := by
  induction l with
  | nil => simp
  | cons x xs ih =>
    simp only [List.cons_append, List.dropWhile_cons]
    split_ifs
    · rw [ih]
    · rfl

theorem takeWhile_noSep (a : List Char) (h : '/' ∉ a) :
    a.takeWhile (fun x => x ≠ '/') = a := by
  rw [List.takeWhile_eq_self_iff]
  intro x hx
  simp only [ne_eq, decide_not, Bool.not_eq_true', decide_eq_false_iff_not]
  intro hxs
  exact h (hxs ▸ hx)

theorem dropWhile_noSep (a : List Char) (h : '/' ∉ a) :
    a.dropWhile (fun x => x ≠ '/') = [] := by
  rw [List.dropWhile_eq_nil_iff]
  intro x hx
  simp only [ne_eq, decide_not, Bool.not_eq_true', decide_eq_false_iff_not]
  intro hxs
  exact h (hxs ▸ hx)

/-- The parts of isFileName. -/
theorem isFileName_iff (name : String) :
    os.isFileName name = true ↔
      name.data ≠ [] ∧ '/' ∉ name.data ∧ name.data ≠ ['.'] ∧ name.data ≠ ['.', '.'] := by
  unfold os.isFileName
  simp only [Bool.and_eq_true, decide_eq_true_eq, Bool.not_eq_true', List.contains_eq_any_beq,
    List.any_eq_false, beq_iff_eq, and_assoc]
  constructor
  · rintro ⟨h1, h2, h3, h4⟩
    exact ⟨h1, fun hm => h2 _ hm rfl, h3, h4⟩
  · rintro ⟨h1, h2, h3, h4⟩
    exact ⟨h1, fun x hx hxs => h2 (hxs ▸ hx), h3, h4⟩

/-- The loop of Clean on a single path element that is a file name: the element is added to
the buffer. -/
theorem cleanLoop_name (r : Bool) (fuel : Nat) (a out : List Char) (dd : Nat)
    (hne : a ≠ []) (hs : '/' ∉ a) (h1 : a ≠ ['.']) (h2 : a ≠ ['.', '.']) :
    cleanLoop r (fuel + 1) a out dd = addElement r out a := by
  cases a with
  | nil => exact absurd rfl hne
  | cons c rest =>
    have hc : c ≠ '/' := fun h => hs (by simp [h])
    have hrest : '/' ∉ rest := fun h => hs (by simp [h])
    have hhead : rest.head? ≠ some '/' := by
      intro h
      cases rest with
      | nil => simp at h
      | cons x xs =>
        simp only [List.head?_cons, Option.some.injEq] at h
        exact hrest (by simp [h])
    have hdot : ¬ (c = '.' ∧ (rest = [] ∨ rest.head? = some '/')) := by
      rintro ⟨h3, h4 | h4⟩
      · exact h1 (by rw [h3, h4])
      · exact hhead h4
    have hdd : ¬ (c = '.' ∧ rest.head? = some '.'
        ∧ (rest.tail = [] ∨ rest.tail.head? = some '/')) := by
      rintro ⟨h3, h4, h5⟩
      cases rest with
      | nil => simp at h4
      | cons x xs =>
        simp only [List.head?_cons, Option.some.injEq] at h4
        simp only [List.tail_cons] at h5
        rcases h5 with h5 | h5
        · exact h2 (by rw [h3, h4, h5])
        · cases xs with
          | nil => simp at h5
          | cons y ys =>
            simp only [List.head?_cons, Option.some.injEq] at h5
            exact hs (by simp [h5])
    rw [cleanLoop_cons, if_neg hc, if_neg hdot, if_neg hdd, takeWhile_noSep _ hs,
      dropWhile_noSep _ hs, cleanLoop_nil]
    rfl

theorem head?_append_sep (p a : List Char) (x : Char) :
    (p ++ '/' :: a).head? = some x ↔ (p = [] ∧ x = '/') ∨ p.head? = some x := by
  cases p with
  | nil => simp [eq_comm]
  | cons y ys => simp

/-- The loop of Clean on a path followed by a separator and a file name: the file name is
added to what the loop makes of the path. -/
theorem cleanLoop_append_name (r : Bool) (a : List Char)
    (hne : a ≠ []) (hs : '/' ∉ a) (h1 : a ≠ ['.']) (h2 : a ≠ ['.', '.']) :
    ∀ (fuel : Nat) (p out : List Char) (dd : Nat), p.length + 2 ≤ fuel →
    cleanLoop r fuel (p ++ '/' :: a) out dd = addElement r (cleanLoop r fuel p out dd) a := by
  intro fuel
  induction fuel with
  | zero => intro p out dd h; omega
  | succ fuel ih =>
    intro p out dd hf
    cases p with
    | nil =>
      rw [cleanLoop_nil, List.nil_append, cleanLoop_cons, if_pos rfl]
      obtain ⟨k, hk⟩ : ∃ k, fuel = k + 1 := ⟨fuel - 1, by simp at hf; omega⟩
      rw [hk, cleanLoop_name r k a out dd hne hs h1 h2]
    | cons c p1 =>
      simp only [List.length_cons] at hf
      rw [List.cons_append, cleanLoop_cons, cleanLoop_cons]
      by_cases hc : c = '/'
      · rw [if_pos hc, if_pos hc]
        exact ih _ _ _ (by omega)
      · rw [if_neg hc, if_neg hc]
        have hne1 : p1 ++ '/' :: a ≠ [] := by simp
        have hdot : (c = '.' ∧ (p1 ++ '/' :: a = [] ∨ (p1 ++ '/' :: a).head? = some '/'))
            ↔ (c = '.' ∧ (p1 = [] ∨ p1.head? = some '/')) := by
          rw [head?_append_sep]
          simp [hne1]
        by_cases hd1 : c = '.' ∧ (p1 = [] ∨ p1.head? = some '/')
        · rw [if_pos (hdot.2 hd1), if_pos hd1]
          exact ih _ _ _ (by omega)
        · rw [if_neg (fun h => hd1 (hdot.1 h)), if_neg hd1]
          have htail : (p1 ++ '/' :: a).head? = some '.' →
              (p1 ++ '/' :: a).tail = p1.tail ++ '/' :: a := by
            intro h
            cases p1 with
            | nil => simp at h
            | cons y ys => rfl
          have hdd : (c = '.' ∧ (p1 ++ '/' :: a).head? = some '.'
                ∧ ((p1 ++ '/' :: a).tail = [] ∨ (p1 ++ '/' :: a).tail.head? = some '/'))
              ↔ (c = '.' ∧ p1.head? = some '.' ∧ (p1.tail = [] ∨ p1.tail.head? = some '/')) := by
            constructor
            · rintro ⟨h3, h4, h5⟩
              have h4' : p1.head? = some '.' := by
                rcases (head?_append_sep p1 a '.').1 h4 with ⟨_, h6⟩ | h6
                · exact absurd h6 (by decide)
                · exact h6
              rw [htail h4, head?_append_sep] at h5
              refine ⟨h3, h4', ?_⟩
              rcases h5 with h5 | h5
              · simp at h5
              · rcases h5 with ⟨h5, _⟩ | h5
                · exact Or.inl h5
                · exact Or.inr h5
            · rintro ⟨h3, h4, h5⟩
              have h4' : (p1 ++ '/' :: a).head? = some '.' :=
                (head?_append_sep p1 a '.').2 (Or.inr h4)
              refine ⟨h3, h4', Or.inr ?_⟩
              rw [htail h4', head?_append_sep]
              rcases h5 with h5 | h5
              · exact Or.inl ⟨h5, rfl⟩
              · exact Or.inr h5
          by_cases hd2 : c = '.' ∧ p1.head? = some '.'
              ∧ (p1.tail = [] ∨ p1.tail.head? = some '/')
          · have h4' : (p1 ++ '/' :: a).head? = some '.' := (hdd.2 hd2).2.1
            have hlen : p1.tail.length + 2 ≤ fuel := by
              have : p1.tail.length ≤ p1.length := by simp
              omega
            rw [if_pos (hdd.2 hd2), if_pos hd2, htail h4']
            split_ifs <;> exact ih _ _ _ hlen
          · rw [if_neg (fun h => hd2 (hdd.1 h)), if_neg hd2]
            have hd : ((c :: p1).dropWhile (fun x => x ≠ '/')).length ≤ p1.length := by
              rw [List.dropWhile_cons, if_pos (by simpa using hc)]
              exact length_dropWhile_le _ _
            have e1 : (c :: (p1 ++ '/' :: a)).takeWhile (fun x => x ≠ '/')
                = (c :: p1).takeWhile (fun x => x ≠ '/') := by
              rw [← List.cons_append, takeWhile_append_sep]
            have e2 : (c :: (p1 ++ '/' :: a)).dropWhile (fun x => x ≠ '/')
                = (c :: p1).dropWhile (fun x => x ≠ '/') ++ '/' :: a := by
              rw [← List.cons_append, dropWhile_append_sep]
            rw [e1, e2]
            exact ih _ _ _ (by omega)

theorem backtrack_ge (out : List Char) (dd : Nat) : ∀ w, dd ≤ w → dd ≤ backtrack out dd w := by
  intro w
  induction w with
  | zero => intro h; simpa [backtrack] using h
  | succ w ih =>
    intro h
    unfold backtrack
    split_ifs with hc
    · exact ih (by omega)
    · exact h

theorem head?_take (out : List Char) (w : Nat) (h : 1 ≤ w) : (out.take w).head? = out.head? := by
  cases out with
  | nil => simp
  | cons x xs =>
    cases w with
    | zero => omega
    | succ w => rfl

theorem head?_append_left (out x : List Char) (c : Char) (h : out.head? = some c) :
    (out ++ x).head? = some c := by
  cases out with
  | nil => simp at h
  | cons y ys => simpa using h

/-- The buffer of Clean for a rooted path begins with the separator. -/
theorem cleanLoop_head : ∀ (fuel : Nat) (p out : List Char), out.head? = some '/' →
    (cleanLoop true fuel p out 1).head? = some '/' := by
  intro fuel
  induction fuel with
  | zero => intro p out h; exact h
  | succ fuel ih =>
    intro p out h
    cases p with
    | nil => exact h
    | cons c rest =>
      rw [cleanLoop_cons]
      simp only [Bool.true_eq_false, false_and, or_false, true_and, if_false]
      split_ifs
      · exact ih _ _ h
      · exact ih _ _ h
      · refine ih _ _ ?_
        rw [head?_take _ _ (backtrack_ge out 1 _ (by omega)), h]
      · exact ih _ _ h
      · refine ih _ _ ?_
        rw [List.append_assoc]
        exact head?_append_left _ _ _ h
      · exact ih _ _ (head?_append_left _ _ _ h)

theorem string_ne_empty (s : String) : s ≠ "" ↔ s.data ≠ [] := by
  constructor
  · intro h hd
    exact h (String.ext hd)
  · intro h hs
    exact h (by rw [hs])

/-- Clean of a path that is not empty, on the characters of the path. -/
theorem Clean_mk (l : List Char) (hl : l ≠ []) :
    (Clean (String.mk l)).data =
      if l.head? = some '/' then
        (if (cleanLoop true (l.length + 1) (l.drop 1) ['/'] 1).length = 0 then ['.']
          else cleanLoop true (l.length + 1) (l.drop 1) ['/'] 1)
      else
        (if (cleanLoop false (l.length + 1) l [] 0).length = 0 then ['.']
          else cleanLoop false (l.length + 1) l [] 0) := by
  have hne : String.mk l ≠ "" := (string_ne_empty _).2 hl
  unfold Clean
  rw [if_neg hne]
  simp only [String.length]
  by_cases hr : l.head? = some '/'
  · simp only [hr, decide_True, if_true]
    split_ifs <;> rfl
  · simp only [hr, decide_False, Bool.false_eq_true, if_false]
    split_ifs <;> rfl

/-- Join of a directory and a file name is the prefix of the directory followed by the
name. -/
theorem Join_fileName (dir name : String) (h : os.isFileName name = true) :
    (Join [dir, name]).data = joinPrefix dir ++ name.data := by
  obtain ⟨hne, hs, h1, h2⟩ := (isFileName_iff name).1 h
  have hname : name ≠ "" := (string_ne_empty name).2 hne
  have hnl : 1 ≤ name.data.length := by
    cases hdat : name.data with
    | nil => exact absurd hdat hne
    | cons x xs => simp
  by_cases hd : dir = ""
  · subst hd
    have hr : name.data.head? ≠ some '/' := by
      intro hh
      cases hdat : name.data with
      | nil => exact hne hdat
      | cons x xs =>
        rw [hdat] at hh hs
        simp only [List.head?_cons, Option.some.injEq] at hh
        exact hs (by simp [hh])
    have hj : Join ["", name] = Clean (String.mk name.data) := by
      simp [Join, strings.Join, hname]
    rw [hj, Clean_mk _ hne, if_neg hr, cleanLoop_name false _ _ _ _ hne hs h1 h2]
    have : addElement false [] name.data = name.data := by simp [addElement]
    rw [this, if_neg (by omega)]
    simp [joinPrefix]
  · have hdd : dir.data ≠ [] := (string_ne_empty dir).1 hd
    have hj : Join [dir, name] = Clean (String.mk (dir.data ++ '/' :: name.data)) := by
      have : dir ++ "/" ++ name = String.mk (dir.data ++ '/' :: name.data) := by
        apply String.ext
        simp [String.data_append]
      simp [Join, strings.Join, hd, this]
    rw [hj, Clean_mk _ (by simp)]
    cases hdat : dir.data with
    | nil => exact absurd hdat hdd
    | cons d ds =>
      have hdl : dir.length = ds.length + 1 := by simp [String.length, hdat]
      by_cases hroot : d = '/'
      · subst hroot
        have hjp : joinPrefix dir
            = addElement true (cleanLoop true dir.length ds ['/'] 1) [] := by
          simp [joinPrefix, hd, hdat]
        simp only [List.cons_append, List.head?_cons, if_true, List.drop_succ_cons,
          List.drop_zero]
        rw [cleanLoop_append_name true _ hne hs h1 h2 _ _ _ _
            (by simp only [List.length_cons, List.length_append]; omega),
          cleanLoop_fuel true _ dir.length ds _ _
            (by simp only [List.length_cons, List.length_append]; omega) (by omega), hjp]
        have hlen0 : (addElement true (cleanLoop true dir.length ds ['/'] 1) name.data).length ≠ 0 := by
          simp only [addElement, List.length_append]
          omega
        rw [if_neg hlen0]
        simp [addElement]
      · have hjp : joinPrefix dir
            = addElement false (cleanLoop false dir.length dir.data [] 0) [] := by
          simp [joinPrefix, hd, hdat, hroot]
        have hh : ¬ ((d :: ds ++ '/' :: name.data).head? = some '/') := by
          simpa using hroot
        rw [if_neg hh, cleanLoop_append_name false _ hne hs h1 h2 _ _ _ _
            (by simp only [List.length_cons, List.length_append]; omega),
          cleanLoop_fuel false _ dir.length (d :: ds) _ _
            (by simp only [List.length_cons, List.length_append]; omega)
            (by simp only [List.length_cons]; omega), hjp, hdat]
        have hlen0 : (addElement false (cleanLoop false dir.length (d :: ds) [] 0)
            name.data).length ≠ 0 := by
          simp only [addElement, List.length_append]
          omega
        rw [if_neg hlen0]
        simp [addElement]

theorem addElement_nil_sep (r : Bool) (out : List Char)
    (hr : r = true → out.head? = some '/') :
    addElement r out [] = [] ∨ (addElement r out []).getLast? = some '/' := by
  unfold addElement
  by_cases hc : (r = true ∧ out.length ≠ 1) ∨ (r = false ∧ out.length ≠ 0)
  · rw [if_pos hc]
    right
    simp
  · rw [if_neg hc]
    cases r with
    | false =>
      left
      have hl : out.length = 0 := by
        by_contra hne
        exact hc (Or.inr ⟨rfl, hne⟩)
      simp [List.length_eq_zero.1 hl]
    | true =>
      right
      have hl : out.length = 1 := by
        by_contra hne
        exact hc (Or.inl ⟨rfl, hne⟩)
      have hh := hr rfl
      cases out with
      | nil => simp at hl
      | cons x xs =>
        simp only [List.length_cons, Nat.add_left_eq_self, List.length_eq_zero] at hl
        simp only [List.head?_cons, Option.some.injEq] at hh
        simp [hl, hh]

/-- The prefix that Join writes is empty or ends with the separator. -/
theorem joinPrefix_sep (dir : String) :
    joinPrefix dir = [] ∨ (joinPrefix dir).getLast? = some '/' := by
  unfold joinPrefix
  split_ifs with h1 h2
  · exact Or.inl rfl
  · exact addElement_nil_sep true _ (fun _ => cleanLoop_head _ _ _ rfl)
  · exact addElement_nil_sep false _ (fun h => absurd h (by decide))

/-- Join of a directory and a file name ends with the file name, and the file name is its
last element. -/
theorem lastElement_Join (dir name : String) (h : os.isFileName name = true) :
    os.lastElement (Join [dir, name]).data = name.data := by
  obtain ⟨_, hs, _, _⟩ := (isFileName_iff name).1 h
  rw [Join_fileName dir name h]
  unfold os.lastElement
  rw [List.reverse_append]
  have hrev : '/' ∉ name.data.reverse := by simpa using hs
  have h1 : (name.data.reverse ++ (joinPrefix dir).reverse).takeWhile (fun c => c ≠ '/')
      = name.data.reverse := by
    rcases joinPrefix_sep dir with hp | hp
    · rw [hp]
      simpa using takeWhile_noSep _ hrev
    · obtain ⟨ys, hys⟩ : ∃ ys, (joinPrefix dir).reverse = '/' :: ys := by
        cases hr : (joinPrefix dir).reverse with
        | nil =>
          rw [List.reverse_eq_nil_iff] at hr
          rw [hr] at hp
          simp at hp
        | cons y ys =>
          rw [List.getLast?_eq_head?_reverse, hr] at hp
          simp only [List.head?_cons, Option.some.injEq] at hp
          exact ⟨ys, by rw [hp]⟩
      rw [hys, takeWhile_append_sep, takeWhile_noSep _ hrev]
  rw [h1, List.reverse_reverse]

theorem stringLess_Join (dir a b : String) (ha : os.isFileName a = true)
    (hb : os.isFileName b = true) :
    stringLess (Join [dir, a]).data (Join [dir, b]).data = stringLess a.data b.data := by
  rw [Join_fileName dir a ha, Join_fileName dir b hb, stringLess_append_left]

theorem Join_injective (dir a b : String) (ha : os.isFileName a = true)
    (hb : os.isFileName b = true) (h : Join [dir, a] = Join [dir, b]) : a = b := by
  have h1 : (Join [dir, a]).data = (Join [dir, b]).data := by rw [h]
  rw [Join_fileName dir a ha, Join_fileName dir b hb] at h1
  exact String.ext (List.append_cancel_left h1)

end filepath

namespace sort

/-- Sorting the paths of entries of one directory is sorting their names. -/
theorem Strings_map_Join (dir : String) (names : List String)
    (hn : ∀ n ∈ names, os.isFileName n = true) :
    Strings (names.map (fun n => filepath.Join [dir, n]))
      = (Strings names).map (fun n => filepath.Join [dir, n]) := by
  have hins : ∀ (s : String) (l : List String), os.isFileName s = true →
      (∀ n ∈ l, os.isFileName n = true) →
      insert (filepath.Join [dir, s]) (l.map (fun n => filepath.Join [dir, n]))
        = (insert s l).map (fun n => filepath.Join [dir, n]) := by
    intro s l hs hl
    induction l with
    | nil => rfl
    | cons t ts ih =>
      have ht := hl t (by simp)
      simp only [List.map_cons, insert, filepath.stringLess_Join dir t s ht hs]
      split_ifs
      · rw [List.map_cons, ih (fun n hn => hl n (by simp [hn]))]
      · rfl
  induction names with
  | nil => rfl
  | cons s l ih =>
    show insert (filepath.Join [dir, s]) (Strings (l.map (fun n => filepath.Join [dir, n]))) = _
    rw [ih (fun n h => hn n (by simp [h])), hins s _ (hn s (by simp))]
    · rfl
    · intro n h
      exact hn n (List.mem_cons_of_mem _ ((Strings_perm l).subset h))

end sort

namespace os

theorem insertEntry_perm (e : DirEntry) (l : List DirEntry) : (insertEntry e l).Perm (e :: l) := by
  induction l with
  | nil => exact List.Perm.refl _
  | cons t ts ih =>
    unfold insertEntry
    split_ifs
    · exact (List.Perm.cons t ih).trans (List.Perm.swap e t ts)
    · exact List.Perm.refl _

theorem sortEntries_perm (l : List DirEntry) : (l.foldr insertEntry []).Perm l := by
  induction l with
  | nil => exact List.Perm.refl _
  | cons e l ih =>
    show (insertEntry e (l.foldr insertEntry [])).Perm (e :: l)
    exact (insertEntry_perm e _).trans (List.Perm.cons e ih)

end os

namespace libcni

/-- The paths that ConfFiles returns for one entry of the directory and the three
extensions of ConfigLists: the path of the entry when it is a file with one of them. -/
theorem confFiles_entry (dir : String) (f : os.DirEntry) :
    (if f.isDir then []
      else ([".conf", ".conflist", ".json"].filter (fun ext => filepath.Ext f.name = ext)).map
        (fun _ => filepath.Join [dir, f.name]))
      = if recognized f then [filepath.Join [dir, f.name]] else [] := by
  unfold recognized
  cases hd : f.isDir
  · simp only [Bool.false_eq_true, if_false, Bool.not_false, Bool.true_and, decide_eq_true_eq]
    by_cases h1 : filepath.Ext f.name = ".conf"
    · simp [h1, List.filter_cons]
    · by_cases h2 : filepath.Ext f.name = ".conflist"
      · simp [h2, List.filter_cons]
      · by_cases h3 : filepath.Ext f.name = ".json"
        · simp [h3, List.filter_cons]
        · simp [h1, h2, h3, List.filter_cons]
  · simp

theorem ConfFiles_dir (entries : List os.DirEntry) (w : Bool) (dir : String) :
    ConfFiles (os.DirState.dir entries w) dir [".conf", ".conflist", ".json"]
      = Except.ok ((((entries.foldr os.insertEntry []).filter recognized).map
          (fun e => e.name)).map (fun n => filepath.Join [dir, n])) := by
  simp only [ConfFiles, os.ReadDir]
  congr 1
  generalize entries.foldr os.insertEntry [] = files
  induction files with
  | nil => rfl
  | cons f fs ih =>
    rw [List.flatMap_cons, ih, confFiles_entry]
    by_cases hr : recognized f = true
    · simp [hr, List.filter_cons]
    · simp [hr, List.filter_cons]

end libcni

namespace netutil

/-- The loop of ConfigLists, when it returns a result: the result so far, followed by one
descriptor for each file name, in their order. -/
theorem loadConfigLists_ok (fmtFloat : String → String) (st : os.DirState) (dir : String) :
    ∀ (files : List String) (acc l : List NetworkConfigList),
    loadConfigLists fmtFloat st dir files acc = Except.ok l →
    ∃ rest, l = acc ++ rest ∧ rest.map (fun x => x.File) = files
      ∧ ∀ x ∈ rest, loadFile fmtFloat st dir x.File = Except.ok x.NetworkConfigList
          ∧ x.Nerdctl = !IsExternalConfigList x.NetworkConfigList.Bytes := by
  intro files
  induction files with
  | nil =>
    intro acc l h
    simp only [loadConfigLists] at h
    exact ⟨[], by simp [Except.ok.inj h], rfl, by simp⟩
  | cons f fs ih =>
    intro acc l h
    unfold loadConfigLists at h
    cases hf : loadFile fmtFloat st dir f with
    | error e => rw [hf] at h; simp at h
    | ok lcl =>
      rw [hf] at h
      obtain ⟨rest, h1, h2, h3⟩ := ih _ _ h
      refine ⟨_ :: rest, by simpa using h1, by simp [h2], ?_⟩
      intro x hx
      rcases List.mem_cons.1 hx with hx | hx
      · subst hx
        exact ⟨hf, rfl⟩
      · exact h3 x hx

/-- The loop of ConfigLists returns a result when every file loads. -/
theorem loadConfigLists_of_loads (fmtFloat : String → String) (st : os.DirState) (dir : String) :
    ∀ (files : List String) (acc : List NetworkConfigList),
    (∀ f ∈ files, ∃ lcl, loadFile fmtFloat st dir f = Except.ok lcl) →
    ∃ l, loadConfigLists fmtFloat st dir files acc = Except.ok l := by
  intro files
  induction files with
  | nil => intro acc _; exact ⟨acc, rfl⟩
  | cons f fs ih =>
    intro acc h
    obtain ⟨lcl, hl⟩ := h f (by simp)
    unfold loadConfigLists
    rw [hl]
    exact ih _ (fun g hg => h g (by simp [hg]))

theorem default_opts_ok : DefaultConfigList = Except.ok
    (generated (ConfigListTemplateOpts.mk "nerdctl" "cni-nerdctl0" "10.4.0.0/16" "10.4.0.1")) := by
  have h : GenerateConfigList "nerdctl" "cni-nerdctl0" "10.4.0.0/16" = Except.ok
      (generated (ConfigListTemplateOpts.mk "nerdctl" "cni-nerdctl0" "10.4.0.0/16" "10.4.0.1")) :=
    GenerateConfigList_of_opts "nerdctl" "cni-nerdctl0" "10.4.0.0/16" (net.IPv4 10 4 0 0)
      (net.IPNet.mk [10, 4, 0, 0] [255, 255, 0, 0]) _ (by decide) (by decide) (by decide)
      (by decide) (by decide) (by decide) (by decide)
  unfold DefaultConfigList DefaultNetworkName DefaultBridgeName DefaultCIDR
  rw [h]

/-- ConfigLists, case by case on what is at the path of the directory. -/
theorem ConfigLists_eq (fmtFloat : String → String) (st : os.DirState) (dir : String) :
    ConfigLists fmtFloat st dir =
      match st with
      | os.DirState.absent _ => Except.ok
          [generated (ConfigListTemplateOpts.mk "nerdctl" "cni-nerdctl0" "10.4.0.0/16" "10.4.0.1")]
      | os.DirState.inaccessible => Except.error (Error.os "stat" dir)
      | os.DirState.notDir => Except.error (Error.os "readdir" dir)
      | os.DirState.dir entries _ =>
        loadConfigLists fmtFloat st dir
          (sort.Strings ((((entries.foldr os.insertEntry []).filter recognized).map
            (fun e => e.name)).map (fun n => filepath.Join [dir, n])))
          [generated (ConfigListTemplateOpts.mk "nerdctl" "cni-nerdctl0" "10.4.0.0/16" "10.4.0.1")] := by
  unfold ConfigLists
  rw [default_opts_ok]
  cases st with
  | absent c => rfl
  | inaccessible => rfl
  | notDir => rfl
  | dir entries w =>
    simp only [os.Stat, ConfFiles_dir]

end netutil

namespace netutil

/-- The result of ConfigLists: the default, and then one descriptor for each path of the
sorted list of paths, loaded from that path. -/
theorem ConfigLists_loads (fmtFloat : String → String) (st : os.DirState) (dir : String)
    (l : List NetworkConfigList) (h : ConfigLists fmtFloat st dir = Except.ok l) :
    ∃ (rest : List netutil.NetworkConfigList),
      l = generated (ConfigListTemplateOpts.mk "nerdctl" "cni-nerdctl0" "10.4.0.0/16" "10.4.0.1")
            :: rest
      ∧ rest.map (fun x => x.File)
          = sort.Strings ((((st.entries.foldr os.insertEntry []).filter recognized).map
              (fun e => e.name)).map (fun n => filepath.Join [dir, n]))
      ∧ ∀ x ∈ rest, loadFile fmtFloat st dir x.File = Except.ok x.NetworkConfigList
          ∧ x.Nerdctl = !IsExternalConfigList x.NetworkConfigList.Bytes := by
  rw [ConfigLists_eq] at h
  cases st with
  | absent c =>
    simp only [] at h
    exact ⟨[], (Except.ok.inj h).symm, rfl, by simp⟩
  | inaccessible => simp at h
  | notDir => simp at h
  | dir entries w =>
    simp only [] at h
    obtain ⟨rest, h1, h2, h3⟩ := loadConfigLists_ok _ _ _ _ _ _ h
    exact ⟨rest, by simpa using h1, h2, h3⟩

/-- The shape of the result of ConfigLists on a directory whose entries have file names:
the default, and then one descriptor for each recognized file of the directory, by
increasing file name. -/
theorem ConfigLists_shape (fmtFloat : String → String) (st : os.DirState) (dir : String)
    (l : List NetworkConfigList) (hv : ∀ e ∈ st.entries, os.isFileName e.name = true)
    (h : ConfigLists fmtFloat st dir = Except.ok l) :
    ∃ (rest : List netutil.NetworkConfigList) (names : List String),
      l = generated (ConfigListTemplateOpts.mk "nerdctl" "cni-nerdctl0" "10.4.0.0/16" "10.4.0.1")
            :: rest
      ∧ rest.map (fun x => x.File) = names.map (fun n => filepath.Join [dir, n])
      ∧ names.Pairwise (fun a b => stringLess b.data a.data = false)
      ∧ names.Perm ((st.entries.filter recognized).map (fun e => e.name))
      ∧ ∀ x ∈ rest, loadFile fmtFloat st dir x.File = Except.ok x.NetworkConfigList
          ∧ x.Nerdctl = !IsExternalConfigList x.NetworkConfigList.Bytes := by
  obtain ⟨rest, h1, h2, h3⟩ := ConfigLists_loads fmtFloat st dir l h
  have hperm : (((st.entries.foldr os.insertEntry []).filter recognized).map
      (fun e => e.name)).Perm ((st.entries.filter recognized).map (fun e => e.name)) :=
    ((os.sortEntries_perm st.entries).filter _).map _
  have hnames : ∀ n ∈ ((st.entries.foldr os.insertEntry []).filter recognized).map
      (fun e => e.name), os.isFileName n = true := by
    intro n hn
    obtain ⟨e, he, hen⟩ := List.mem_map.1 (hperm.subset hn)
    rw [← hen]
    exact hv e (List.mem_filter.1 he).1
  rw [sort.Strings_map_Join dir _ hnames] at h2
  exact ⟨rest, _, h1, h2, sort.Strings_sorted _, (sort.Strings_perm _).trans hperm, h3⟩

end netutil

/-- C5: when the directory does not exist, ConfigLists returns the one-element list with the
default descriptor. Whenever ConfigLists returns a list, it is the default descriptor (name
"nerdctl", managed, no file) followed by one descriptor for each file of the directory with
the extension .conf, .conflist or .json, each with the path that Join makes of the directory
and the file name, from which it was loaded, as its file, and with the negation of
IsExternalConfigList of its bytes as its managed flag; the descriptors come by increasing
path, which is, the entries of a directory having file names (single path elements other
than . and ..), by increasing file name. -/
theorem C5_configLists_default_then_sorted_files (fmtFloat : String → String) (dir : String) :
    ∃ d, netutil.DefaultConfigList = Except.ok d
      ∧ d.NetworkConfigList.Name = "nerdctl" ∧ d.Nerdctl = true ∧ d.File = ""
      ∧ (∀ creatable, netutil.ConfigLists fmtFloat (os.DirState.absent creatable) dir
          = Except.ok [d])
      ∧ ∀ (st : os.DirState) (l : List netutil.NetworkConfigList),
          netutil.ConfigLists fmtFloat st dir = Except.ok l →
          ∃ (rest : List netutil.NetworkConfigList), l = d :: rest
            ∧ (rest.map (fun x => x.File)).Perm ((st.entries.filter netutil.recognized).map
                (fun e => filepath.Join [dir, e.name]))
            ∧ (rest.map (fun x => x.File)).Pairwise
                (fun a b => stringLess b.data a.data = false)
            ∧ (∀ x ∈ rest,
                netutil.loadFile fmtFloat st dir x.File = Except.ok x.NetworkConfigList
                ∧ x.Nerdctl = !netutil.IsExternalConfigList x.NetworkConfigList.Bytes)
            ∧ ((∀ e ∈ st.entries, os.isFileName e.name = true) →
                ∃ (names : List String),
                  rest.map (fun x => x.File) = names.map (fun n => filepath.Join [dir, n])
                  ∧ names.Pairwise (fun a b => stringLess b.data a.data = false)
                  ∧ names.Perm ((st.entries.filter netutil.recognized).map
                      (fun e => e.name))) := by
  refine ⟨_, default_opts_ok, by decide, rfl, rfl, ?_, ?_⟩
  · intro creatable
    rw [ConfigLists_eq]
  · intro st l h
    obtain ⟨rest, h1, h2, h3⟩ := ConfigLists_loads fmtFloat st dir l h
    refine ⟨rest, h1, ?_, ?_, h3, ?_⟩
    · rw [h2]
      refine (sort.Strings_perm _).trans ?_
      rw [List.map_map]
      exact ((os.sortEntries_perm st.entries).filter _).map _
    · rw [h2]
      exact sort.Strings_sorted _
    · intro hv
      obtain ⟨rest2, names, h4, h5, h6, h7, -⟩ := ConfigLists_shape fmtFloat st dir l hv h
      have hr : rest2 = rest := by
        have := h1.symm.trans h4
        exact (List.cons.inj this).2.symm
      subst hr
      exact ⟨names, h5, h6, h7⟩

set_option maxRecDepth 1000000 in
/-- C5 on a directory with the files b.conflist and a.conf, a subdirectory sub.json and a
file notes.txt, under a path written with a doubled and a trailing separator: the result is
the default, then the descriptor of a.conf, then that of b.conflist, each with its clean
path. -/
theorem C5_configLists_default_then_sorted_files_witness :
    (netutil.ConfigLists id netutil.exampleDir "/etc/cni//net.d/").map
        (fun l => l.map (fun x => (x.NetworkConfigList.Name, x.Nerdctl, x.File)))
      = Except.ok [("nerdctl", true, ""), ("anet", false, "/etc/cni/net.d/a.conf"),
          ("bnet", false, "/etc/cni/net.d/b.conflist")]
    ∧ ∃ l, netutil.ConfigLists id netutil.exampleDir "/etc/cni//net.d/" = Except.ok l
      ∧ ∃ (rest : List netutil.NetworkConfigList) (names : List String), l = generated
            (ConfigListTemplateOpts.mk "nerdctl" "cni-nerdctl0" "10.4.0.0/16" "10.4.0.1") :: rest
        ∧ rest.map (fun x => x.File) = names.map (fun n => filepath.Join ["/etc/cni//net.d/", n])
        ∧ names.Pairwise (fun a b => stringLess b.data a.data = false)
        ∧ names.Perm ((netutil.exampleDir.entries.filter netutil.recognized).map
            (fun e => e.name)) := by
  have hev : (netutil.ConfigLists id netutil.exampleDir "/etc/cni//net.d/").map
        (fun l => l.map (fun x => (x.NetworkConfigList.Name, x.Nerdctl, x.File)))
      = Except.ok [("nerdctl", true, ""), ("anet", false, "/etc/cni/net.d/a.conf"),
          ("bnet", false, "/etc/cni/net.d/b.conflist")] := by
    rw [ConfigLists_eq]
    decide!
  refine ⟨hev, ?_⟩
  cases hl : netutil.ConfigLists id netutil.exampleDir "/etc/cni//net.d/" with
  | error e => rw [hl] at hev; exact absurd hev (by simp [Except.map])
  | ok l =>
    obtain ⟨d, hd, -, -, -, -, hall⟩ :=
      C5_configLists_default_then_sorted_files id "/etc/cni//net.d/"
    rw [default_opts_ok] at hd
    have hd' := Except.ok.inj hd
    obtain ⟨rest, h1, -, -, -, hn⟩ := hall netutil.exampleDir l hl
    obtain ⟨names, h2, h3, h4⟩ := hn (by decide)
    exact ⟨l, rfl, rest, names, by rw [h1, hd'], h2, h3, h4⟩

namespace os

theorem MkdirAll_entries (st st1 : DirState) (h : MkdirAll st = some st1) :
    st1.entries = st.entries := by
  cases st with
  | absent c =>
    cases c
    · simp [MkdirAll] at h
    · simp only [MkdirAll, Option.some.injEq] at h
      subst h
      rfl
  | inaccessible => simp [MkdirAll] at h
  | notDir => simp [MkdirAll] at h
  | dir entries w =>
    simp only [MkdirAll, Option.some.injEq] at h
    subst h
    rfl

end os

namespace netutil

/-- After MkdirAll the directory holds the entries it held, so that ConfigLists returns what
it returned, when it returned a list. -/
theorem ConfigLists_MkdirAll (fmtFloat : String → String) (st st1 : os.DirState) (dir : String)
    (ll : List NetworkConfigList) (h : os.MkdirAll st = some st1)
    (hl : ConfigLists fmtFloat st dir = Except.ok ll) :
    ConfigLists fmtFloat st1 dir = Except.ok ll := by
  cases st with
  | absent c =>
    cases c
    · simp [os.MkdirAll] at h
    · simp only [os.MkdirAll, Option.some.injEq] at h
      subst h
      rw [ConfigLists_eq] at hl ⊢
      rw [← hl]
      rfl
  | inaccessible => simp [os.MkdirAll] at h
  | notDir => simp [os.MkdirAll] at h
  | dir entries w =>
    simp only [os.MkdirAll, Option.some.injEq] at h
    subst h
    exact hl

end netutil

/-- C8, amended: for an alphanumeric name that is the name of a descriptor of the resolved
collection, the create action fails and leaves the entries of the directory as they are;
when the directory exists or MkdirAll can create it, the error is that a network with the
name already exists, and when MkdirAll fails, the error is that of MkdirAll. -/
theorem C8_create_existing_name (fmtFloat : String → String) (name subnet dir : String)
    (st : os.DirState) (ll : List netutil.NetworkConfigList) (ha : IsAlphaNum name = true)
    (hl : netutil.ConfigLists fmtFloat st dir = Except.ok ll)
    (hex : ∃ l ∈ ll, l.NetworkConfigList.Name = name) :
    ((os.MkdirAll st).isSome = true →
        (networkCreateAction fmtFloat [name] dir subnet st).1
          = Except.error (Error.networkAlreadyExists name))
      ∧ (os.MkdirAll st = none →
        (networkCreateAction fmtFloat [name] dir subnet st).1
          = Except.error (Error.os "mkdir" dir))
      ∧ (networkCreateAction fmtFloat [name] dir subnet st).1 ≠ Except.ok ()
      ∧ (networkCreateAction fmtFloat [name] dir subnet st).2.entries = st.entries := by
  have hany : ll.any (fun l => decide (l.NetworkConfigList.Name = name)) = true := by
    rw [List.any_eq_true]
    obtain ⟨l, hl1, hl2⟩ := hex
    exact ⟨l, hl1, by simpa using hl2⟩
  unfold networkCreateAction
  simp only [List.length_singleton, ne_eq, not_true_eq_false, if_false, List.headD_cons, ha]
  cases hm : os.MkdirAll st with
  | none => simp
  | some st1 =>
    simp only [ConfigLists_MkdirAll fmtFloat st st1 dir ll hm hl, hany, if_true]
    exact ⟨by simp, by simp, by simp, os.MkdirAll_entries st st1 hm⟩

set_option maxRecDepth 1000000 in
/-- C8 on the example directory, for the name "bnet" that the file b.conflist declares: the
create action fails with the error that the network already exists, and the directory
keeps its four entries. -/
theorem C8_create_existing_name_witness :
    (networkCreateAction id ["bnet"] "/etc/cni/net.d" "10.5.0.0/16" netutil.exampleDir).1
        = Except.error (Error.networkAlreadyExists "bnet")
      ∧ (networkCreateAction id ["bnet"] "/etc/cni/net.d" "10.5.0.0/16"
          netutil.exampleDir).2.entries = netutil.exampleDir.entries := by
  have hev : (netutil.ConfigLists id netutil.exampleDir "/etc/cni/net.d").map
        (fun l => l.map (fun x => x.NetworkConfigList.Name))
      = Except.ok ["nerdctl", "anet", "bnet"] := by
    rw [ConfigLists_eq]
    decide!
  cases hl : netutil.ConfigLists id netutil.exampleDir "/etc/cni/net.d" with
  | error e => rw [hl] at hev; exact absurd hev (by simp [Except.map])
  | ok ll =>
    rw [hl] at hev
    have hnames : ll.map (fun x => x.NetworkConfigList.Name) = ["nerdctl", "anet", "bnet"] := by
      simpa [Except.map] using hev
    have hmem : ∃ l ∈ ll, l.NetworkConfigList.Name = "bnet" := by
      have : "bnet" ∈ ll.map (fun x => x.NetworkConfigList.Name) := by rw [hnames]; simp
      exact List.mem_map.1 this
    have h := C8_create_existing_name id "bnet" "10.5.0.0/16" "/etc/cni/net.d"
      netutil.exampleDir ll (by decide) hl hmem
    exact ⟨h.1 rfl, h.2.2.2⟩

set_option maxRecDepth 1000000 in
/-- C8 as stated fails: when the directory does not exist and cannot be created, the
resolved collection holds the default descriptor "nerdctl", and the create action for the
name "nerdctl" fails with the error of MkdirAll, not with an already-exists error. -/
theorem C8_counterexample :
    IsAlphaNum "nerdctl" = true
      ∧ (netutil.ConfigLists id (os.DirState.absent false) "/etc/cni/net.d").map
          (fun l => l.map (fun x => x.NetworkConfigList.Name)) = Except.ok ["nerdctl"]
      ∧ networkCreateAction id ["nerdctl"] "/etc/cni/net.d" "10.5.0.0/16"
          (os.DirState.absent false)
        = (Except.error (Error.os "mkdir" "/etc/cni/net.d"), os.DirState.absent false) := by
  refine ⟨by decide, ?_, by decide⟩
  rw [ConfigLists_eq]
  decide

/-- The first loop of the inspect action: filled gets the names of the configuration lists
whose name is requested, result their networks, in the order of the lists. -/
theorem inspectLoop_eq (names : List String) :
    ∀ (ll : List netutil.NetworkConfigList) (filled : List String)
      (result : List native.Network),
    inspectLoop names ll (filled, result)
      = (filled ++ (ll.filter (fun l => decide (l.NetworkConfigList.Name ∈ names))).map
            (fun l => l.NetworkConfigList.Name),
         result ++ (ll.filter (fun l => decide (l.NetworkConfigList.Name ∈ names))).map
            native.ofConfigList) := by
  intro ll
  induction ll with
  | nil => intro filled result; simp [inspectLoop]
  | cons l ll ih =>
    intro filled result
    unfold inspectLoop
    cases hf : names.find? (fun name => decide (l.NetworkConfigList.Name = name)) with
    | none =>
      have hn : l.NetworkConfigList.Name ∉ names := by
        intro hmem
        have := List.find?_eq_none.1 hf _ hmem
        simp at this
      simp only [ih, List.filter_cons, hn, decide_False, Bool.false_eq_true, if_false]
    | some n =>
      have h1 := List.find?_some hf
      have h2 := List.mem_of_find?_eq_some hf
      have hn : n = l.NetworkConfigList.Name := (by simpa using h1 : l.NetworkConfigList.Name = n).symm
      subst hn
      simp only [ih, List.filter_cons, h2, decide_True, if_true, List.map_cons,
        List.append_assoc, List.singleton_append, native.ofConfigList]

/-- The bytes of every descriptor that ConfigLists returns are valid JSON. -/
theorem ConfigLists_bytes_valid (fmtFloat : String → String) (st : os.DirState) (dir : String)
    (ll : List netutil.NetworkConfigList)
    (h : netutil.ConfigLists fmtFloat st dir = Except.ok ll) :
    ∀ l ∈ ll, (json.parse l.NetworkConfigList.Bytes).isSome = true := by
  obtain ⟨rest, h1, -, h5⟩ := ConfigLists_loads fmtFloat st dir ll h
  have hcl : ∀ (bytes : String) (lcl : libcni.NetworkConfigList),
      libcni.ConfListFromBytes bytes = Except.ok lcl → (json.parse lcl.Bytes).isSome = true := by
    intro bytes lcl hb
    unfold libcni.ConfListFromBytes json.unmarshalMap at hb
    cases hp : json.parse bytes with
    | none => rw [hp] at hb; simp at hb
    | some v =>
      have : lcl.Bytes = bytes := by
        rw [hp] at hb
        simp only [] at hb
        split at hb <;> try (simp at hb)
        split at hb <;> try (simp at hb)
        split at hb <;> try (simp at hb)
        split at hb <;> try (simp at hb)
        split at hb <;> try (simp at hb)
        split at hb <;> try (simp at hb)
        split at hb <;> try (simp at hb)
        rw [← hb]
      rw [this, hp]
      rfl
  intro l hl
  rw [h1] at hl
  rcases List.mem_cons.1 hl with hl | hl
  · subst hl
    decide!
  · have := (h5 l hl).1
    unfold loadFile at this
    split_ifs at this
    · unfold libcni.ConfListFromFile at this
      split at this
      · simp at this
      · exact hcl _ _ this
    · split at this
      · simp at this
      · unfold libcni.ConfListFromConf at this
        split at this
        · simp at this
        · exact hcl _ _ this

theorem isAlphaNumChar_plain (c : Char) (h : isAlphaNumChar c = true) : isPlain c = true := by
  simp only [isAlphaNumChar, Bool.or_eq_true, Bool.and_eq_true, decide_eq_true_eq] at h
  rw [isPlain_iff]
  refine ⟨by omega, ?_, ?_, ?_, ?_, ?_, ?_, ?_⟩ <;>
  · intro hc
    subst hc
    revert h
    decide

theorem IsAlphaNum_plain (s : String) (h : IsAlphaNum s = true) :
    ∀ c ∈ s.data, isPlain c = true := by
  intro c hc
  unfold IsAlphaNum at h
  rw [List.all_eq_true] at h
  exact isAlphaNumChar_plain c (h c hc)

/-- An alphanumeric name goes through the HTML escaper unchanged and is a JSON string
body. -/
theorem IsAlphaNum_stringBody (s : String) (h : IsAlphaNum s = true) :
    template.htmlEscape s.data = s.data ∧ json.isStringBody (template.htmlEscape s.data) = true := by
  have hp := IsAlphaNum_plain s h
  rw [template.htmlEscape_plain _ hp]
  exact ⟨rfl, json.isStringBody_plain _ hp⟩

namespace filepath

theorem extLoop_conflist (rest acc : List Char) :
    extLoop ("tsilfnoc.".data ++ rest) acc = ".conflist".data ++ acc := by
  simp [extLoop]

/-- The extension of the name of the file that the create action writes. -/
theorem Ext_conflist (name : String) : Ext ("nerdctl-" ++ name ++ ".conflist") = ".conflist" := by
  unfold Ext
  have : ("nerdctl-" ++ name ++ ".conflist").data.reverse
      = "tsilfnoc.".data ++ (name.data.reverse ++ "nerdctl-".data.reverse) := by
    simp [String.data_append]
  rw [this, extLoop_conflist]
  rfl

/-- The name of the file that the create action writes is a file name. -/
theorem isFileName_conflist (name : String) (ha : IsAlphaNum name = true) :
    os.isFileName ("nerdctl-" ++ name ++ ".conflist") = true := by
  rw [isFileName_iff]
  have hd : ("nerdctl-" ++ name ++ ".conflist").data
      = 'n' :: ("erdctl-".data ++ (name.data ++ ".conflist".data)) := by
    simp [String.data_append]
  have hsep : '/' ∉ name.data := by
    intro hm
    unfold IsAlphaNum at ha
    rw [List.all_eq_true] at ha
    exact absurd (ha _ hm) (by decide)
  rw [hd]
  refine ⟨by simp, ?_, by simp, by simp⟩
  intro hm
  simp only [List.mem_cons, List.mem_append] at hm
  rcases hm with hm | hm | hm | hm
  · exact absurd hm (by decide)
  · revert hm; decide
  · exact hsep hm
  · revert hm; decide

theorem Join_suffix_conflist (dir name : String) (ha : IsAlphaNum name = true) :
    (Join [dir, "nerdctl-" ++ name ++ ".conflist"]).data.reverse.take 9
      = ".conflist".data.reverse := by
  rw [Join_fileName dir _ (isFileName_conflist name ha)]
  simp [String.data_append]

end filepath

namespace os

theorem exists_false_iff (entries : List DirEntry) (w : Bool) (dir path : String) :
    exists_ (DirState.dir entries w) dir path = false
      ↔ entries.find? (fun e => decide (filepath.Join [dir, e.name] = path)) = none := by
  unfold exists_ lookup
  simp only []
  generalize entries.find? (fun e => decide (filepath.Join [dir, e.name] = path)) = o
  cases o <;> simp

/-- WriteFile of a new file in a directory into which files can be written. -/
theorem WriteFile_new (entries : List DirEntry) (w : Bool) (dir name data : String)
    (st2 : DirState) (hname : isFileName name = true)
    (hnew : entries.find? (fun e => decide (filepath.Join [dir, e.name]
      = filepath.Join [dir, name])) = none)
    (h : WriteFile (DirState.dir entries w) dir (filepath.Join [dir, name]) data = some st2) :
    st2 = DirState.dir (entries ++ [DirEntry.mk name false data]) true := by
  cases w with
  | false => simp [WriteFile] at h
  | true =>
    have hlast : String.mk (lastElement (filepath.Join [dir, name]).data) = name := by
      rw [filepath.lastElement_Join dir name hname]
    simp only [WriteFile, hnew, hlast, hname, true_and, if_true, Option.some.injEq] at h
    exact h.symm

theorem ReadFile_append_old (entries : List DirEntry) (w w2 : Bool) (dir path : String)
    (e : DirEntry) (extra : List DirEntry) (he : e ∈ entries)
    (hp : filepath.Join [dir, e.name] = path) :
    ReadFile (DirState.dir (entries ++ extra) w2) dir path
      = ReadFile (DirState.dir entries w) dir path := by
  unfold ReadFile lookup
  simp only [List.find?_append]
  cases hf : entries.find? (fun e => decide (filepath.Join [dir, e.name] = path)) with
  | none =>
    have := List.find?_eq_none.1 hf e he
    simp [hp] at this
  | some x => rfl

theorem ReadFile_append_new (entries : List DirEntry) (w : Bool) (dir name data : String)
    (hnew : entries.find? (fun e => decide (filepath.Join [dir, e.name]
      = filepath.Join [dir, name])) = none) :
    ReadFile (DirState.dir (entries ++ [DirEntry.mk name false data]) w) dir
      (filepath.Join [dir, name]) = Except.ok data := by
  unfold ReadFile lookup
  simp [List.find?_append, hnew]

end os

/-- What the create action has done when it returns no error. -/
theorem networkCreateAction_ok (fmtFloat : String → String) (name subnet dir : String)
    (st st2 : os.DirState)
    (h : networkCreateAction fmtFloat [name] dir subnet st = (Except.ok (), st2)) :
    ∃ (st1 : os.DirState) (ll : List netutil.NetworkConfigList) (l : netutil.NetworkConfigList),
      IsAlphaNum name = true ∧ os.MkdirAll st = some st1
      ∧ netutil.ConfigLists fmtFloat st1 dir = Except.ok ll
      ∧ netutil.GenerateConfigList name ("cni-nerdctl-" ++ name) subnet = Except.ok l
      ∧ os.exists_ st1 dir (filepath.Join [dir, "nerdctl-" ++ name ++ ".conflist"]) = false
      ∧ os.WriteFile st1 dir (filepath.Join [dir, "nerdctl-" ++ name ++ ".conflist"])
          l.NetworkConfigList.Bytes = some st2 := by
  unfold networkCreateAction at h
  simp only [List.length_singleton, ne_eq, not_true_eq_false, if_false, List.headD_cons] at h
  by_cases ha : IsAlphaNum name = true
  · simp only [ha, not_true_eq_false, if_false] at h
    cases hm : os.MkdirAll st with
    | none => rw [hm] at h; simp at h
    | some st1 =>
      rw [hm] at h
      simp only [] at h
      cases hc : netutil.ConfigLists fmtFloat st1 dir with
      | error e => rw [hc] at h; simp at h
      | ok ll =>
        rw [hc] at h
        simp only [] at h
        by_cases hany : ll.any (fun l => decide (l.NetworkConfigList.Name = name)) = true
        · rw [if_pos hany] at h; simp at h
        · rw [if_neg hany] at h
          cases hg : netutil.GenerateConfigList name ("cni-nerdctl-" ++ name) subnet with
          | error e => rw [hg] at h; simp at h
          | ok l =>
            rw [hg] at h
            simp only [] at h
            by_cases hex : os.exists_ st1 dir
                (filepath.Join [dir, "nerdctl-" ++ name ++ ".conflist"]) = true
            · rw [if_pos hex] at h; simp at h
            · rw [if_neg hex] at h
              cases hw : os.WriteFile st1 dir
                  (filepath.Join [dir, "nerdctl-" ++ name ++ ".conflist"])
                  l.NetworkConfigList.Bytes with
              | none => rw [hw] at h; simp at h
              | some st3 =>
                rw [hw] at h
                simp only [Prod.mk.injEq, true_and] at h
                subst h
                exact ⟨st1, ll, l, ha, rfl, hc, rfl, by simpa using hex, hw⟩
  · simp [ha] at h

theorem MkdirAll_dir (st st1 : os.DirState) (h : os.MkdirAll st = some st1) :
    ∃ entries w, st1 = os.DirState.dir entries w := by
  cases st with
  | absent c =>
    cases c
    · simp [os.MkdirAll] at h
    · exact ⟨[], true, by simpa [os.MkdirAll] using h.symm⟩
  | inaccessible => simp [os.MkdirAll] at h
  | notDir => simp [os.MkdirAll] at h
  | dir entries w => exact ⟨entries, w, by simpa [os.MkdirAll] using h.symm⟩

/-- The files of a directory load after a new file has been added as they loaded before. -/
theorem loadFile_append_old (fmtFloat : String → String) (entries extra : List os.DirEntry)
    (w w2 : Bool) (dir path : String) (e : os.DirEntry) (he : e ∈ entries)
    (hp : filepath.Join [dir, e.name] = path) :
    netutil.loadFile fmtFloat (os.DirState.dir (entries ++ extra) w2) dir path
      = netutil.loadFile fmtFloat (os.DirState.dir entries w) dir path := by
  unfold netutil.loadFile libcni.ConfListFromFile libcni.ConfFromFile
  rw [os.ReadFile_append_old entries w w2 dir path e extra he hp]

/-- C9: when the create action returns no error, ConfigLists on the directory as the action
leaves it returns a list, and the list has a descriptor with the requested name, managed,
whose file is the path that Join makes of the directory and nerdctl-<name>.conflist (the
clean path, whatever way the directory is written), from which it was loaded. -/
theorem C9_create_then_resolve (fmtFloat : String → String) (name subnet dir : String)
    (st st2 : os.DirState)
    (h : networkCreateAction fmtFloat [name] dir subnet st = (Except.ok (), st2)) :
    ∃ ll, netutil.ConfigLists fmtFloat st2 dir = Except.ok ll
      ∧ ∃ l ∈ ll, l.NetworkConfigList.Name = name ∧ l.Nerdctl = true
          ∧ l.File = filepath.Join [dir, "nerdctl-" ++ name ++ ".conflist"]
          ∧ netutil.loadFile fmtFloat st2 dir l.File = Except.ok l.NetworkConfigList := by
  obtain ⟨st1, ll, g, ha, hm, hc, hg, hex, hw⟩ :=
    networkCreateAction_ok fmtFloat name subnet dir st st2 h
  obtain ⟨entries, w, hst1⟩ := MkdirAll_dir st st1 hm
  subst hst1
  have hnew := (os.exists_false_iff entries w dir _).1 hex
  have hfn := filepath.isFileName_conflist name ha
  have hst2 := os.WriteFile_new entries w dir _ _ st2 hfn hnew hw
  subst hst2
  obtain ⟨ip, sn, -, hf, hgen⟩ := GenerateConfigList_ok name _ subnet g hg
  -- the new file loads
  have hplain := IsAlphaNum_plain name ha
  have hname : (generated (optsOf name ("cni-nerdctl-" ++ name) sn)).NetworkConfigList.Name
      = name := by
    show String.mk (json.unquote (template.htmlEscape name.data)) = name
    rw [template.htmlEscape_plain _ hplain, json.unquote_plain _ hplain]
  have hloadnew : netutil.loadFile fmtFloat
      (os.DirState.dir (entries ++ [os.DirEntry.mk ("nerdctl-" ++ name ++ ".conflist") false
        g.NetworkConfigList.Bytes]) true) dir
      (filepath.Join [dir, "nerdctl-" ++ name ++ ".conflist"])
      = Except.ok g.NetworkConfigList := by
    unfold netutil.loadFile
    rw [if_pos (filepath.Join_suffix_conflist dir name ha)]
    unfold libcni.ConfListFromFile
    rw [os.ReadFile_append_new entries true dir _ _ hnew]
    simp only []
    rw [hgen]
    have := confList_renderedText (optsOf name ("cni-nerdctl-" ++ name) sn)
    rw [hf, if_pos rfl] at this
    exact this
  -- the files that were there load as before
  rw [ConfigLists_eq] at hc
  simp only [] at hc
  obtain ⟨rest, -, hfiles, hloads⟩ := loadConfigLists_ok _ _ _ _ _ _ hc
  have hold : ∀ e ∈ entries, recognized e = true →
      ∃ lcl, netutil.loadFile fmtFloat (os.DirState.dir entries w) dir
        (filepath.Join [dir, e.name]) = Except.ok lcl := by
    intro e he hr
    have hfm : filepath.Join [dir, e.name] ∈ rest.map (fun x => x.File) := by
      rw [hfiles]
      refine (sort.Strings_perm _).symm.subset ?_
      rw [List.mem_map]
      refine ⟨e.name, ?_, rfl⟩
      rw [List.mem_map]
      exact ⟨e, List.mem_filter.2 ⟨(os.sortEntries_perm entries).symm.subset he, hr⟩, rfl⟩
    rw [List.mem_map] at hfm
    obtain ⟨x, hx, hxf⟩ := hfm
    refine ⟨x.NetworkConfigList, ?_⟩
    rw [← hxf]
    exact (hloads x hx).1
  -- ConfigLists on the new directory
  have hall : ∀ f ∈ sort.Strings (((((entries ++ [os.DirEntry.mk
      ("nerdctl-" ++ name ++ ".conflist") false g.NetworkConfigList.Bytes]).foldr
        os.insertEntry []).filter recognized).map (fun e => e.name)).map
          (fun n => filepath.Join [dir, n])),
      ∃ lcl, netutil.loadFile fmtFloat (os.DirState.dir (entries ++ [os.DirEntry.mk
        ("nerdctl-" ++ name ++ ".conflist") false g.NetworkConfigList.Bytes]) true) dir f
          = Except.ok lcl := by
    intro f hfm
    have hfm2 := (sort.Strings_perm _).subset hfm
    rw [List.mem_map] at hfm2
    obtain ⟨n, hn, hnf⟩ := hfm2
    rw [List.mem_map] at hn
    obtain ⟨e, he, hen⟩ := hn
    have he1 := List.mem_filter.1 he
    have he2 := (os.sortEntries_perm _).subset he1.1
    rcases List.mem_append.1 he2 with hold1 | hnew1
    · obtain ⟨lcl, hl⟩ := hold e hold1 he1.2
      refine ⟨lcl, ?_⟩
      rw [← hnf, ← hen, loadFile_append_old fmtFloat entries _ w true dir _ e hold1 rfl]
      exact hl
    · simp only [List.mem_singleton] at hnew1
      subst hnew1
      simp only [] at hen
      rw [← hnf, ← hen]
      exact ⟨_, hloadnew⟩
  obtain ⟨ll2, hll2⟩ := loadConfigLists_of_loads fmtFloat _ dir _
    [generated (ConfigListTemplateOpts.mk "nerdctl" "cni-nerdctl0" "10.4.0.0/16" "10.4.0.1")] hall
  refine ⟨ll2, by rw [ConfigLists_eq]; exact hll2, ?_⟩
  obtain ⟨rest2, hr1, hr2, hr3⟩ := loadConfigLists_ok _ _ _ _ _ _ hll2
  have hin : filepath.Join [dir, "nerdctl-" ++ name ++ ".conflist"]
      ∈ rest2.map (fun x => x.File) := by
    rw [hr2]
    refine (sort.Strings_perm _).symm.subset ?_
    rw [List.mem_map]
    refine ⟨"nerdctl-" ++ name ++ ".conflist", ?_, rfl⟩
    rw [List.mem_map]
    refine ⟨os.DirEntry.mk ("nerdctl-" ++ name ++ ".conflist") false g.NetworkConfigList.Bytes,
      List.mem_filter.2 ⟨(os.sortEntries_perm _).symm.subset (by simp), ?_⟩, rfl⟩
    simp [recognized, filepath.Ext_conflist]
  rw [List.mem_map] at hin
  obtain ⟨x, hx, hxf⟩ := hin
  have hxl := (hr3 x hx).1
  have hxn := (hr3 x hx).2
  rw [hxf, hloadnew] at hxl
  have hxeq : x.NetworkConfigList = g.NetworkConfigList := (Except.ok.inj hxl).symm
  refine ⟨x, by rw [hr1]; simp [hx], ?_, ?_, hxf, ?_⟩
  · rw [hxeq, hgen, hname]
  · rw [hxn, hxeq, hgen, isExternal_generated _ hf]
    rfl
  · rw [hxf, hloadnew, hxeq]

set_option maxRecDepth 1000000 in
/-- C9 on the example directory under a path written with a trailing separator, for the
name "foo" and the subnet "10.5.0.0/16": the create action returns no error, and ConfigLists
then returns a descriptor with the name "foo", managed, from the file nerdctl-foo.conflist
at its clean path. -/
theorem C9_create_then_resolve_witness :
    ∃ st2, networkCreateAction id ["foo"] "/etc/cni/net.d/" "10.5.0.0/16" netutil.exampleDir
        = (Except.ok (), st2)
      ∧ ∃ ll, netutil.ConfigLists id st2 "/etc/cni/net.d/" = Except.ok ll
        ∧ ∃ l ∈ ll, l.NetworkConfigList.Name = "foo" ∧ l.Nerdctl = true
            ∧ l.File = "/etc/cni/net.d/nerdctl-foo.conflist" := by
  have hrun : networkCreateAction id ["foo"] "/etc/cni/net.d/" "10.5.0.0/16" netutil.exampleDir
      = (Except.ok (), os.DirState.dir (netutil.exampleDir.entries ++
          [os.DirEntry.mk "nerdctl-foo.conflist" false (renderedText (ConfigListTemplateOpts.mk
            "foo" "cni-nerdctl-foo" "10.5.0.0/16" "10.5.0.1"))]) true) := by
    decide!
  obtain ⟨ll, h1, l, h2, h3, h4, h5, -⟩ :=
    C9_create_then_resolve id "foo" "10.5.0.0/16" "/etc/cni/net.d/" netutil.exampleDir _ hrun
  have hj : filepath.Join ["/etc/cni/net.d/", "nerdctl-" ++ "foo" ++ ".conflist"]
      = "/etc/cni/net.d/nerdctl-foo.conflist" := by decide
  exact ⟨_, hrun, ll, h1, l, h2, h3, h4, h5.trans hj⟩

namespace json

/-- An opening bracket where a value begins opens an array, as long as the stack has
room. -/
theorem next_open (S : List Frame) (top : Option Value) (h : S.length < maxNestingDepth) :
    (Scanner.mk Step.beginValue S top).next '[' =
        Scanner.mk Step.beginValueOrEmpty (Frame.parseArrayValue [] :: S) none
      ∧ (Scanner.mk Step.beginValueOrEmpty S top).next '[' =
        Scanner.mk Step.beginValueOrEmpty (Frame.parseArrayValue [] :: S) none := by
  have hb : stateBeginValue (Scanner.mk Step.beginValue S top) '['
      = Scanner.mk Step.beginValueOrEmpty (Frame.parseArrayValue [] :: S) none := by
    simp only [stateBeginValue, isSpace, pushParseState, List.length_cons]
    simp
    intro h1
    omega
  have hb2 : stateBeginValue (Scanner.mk Step.beginValueOrEmpty S top) '['
      = Scanner.mk Step.beginValueOrEmpty (Frame.parseArrayValue [] :: S) none := by
    simp only [stateBeginValue, isSpace, pushParseState, List.length_cons]
    simp
    intro h1
    omega
  constructor
  · simp only [Scanner.next, hb]
  · simp only [Scanner.next, stateBeginValueOrEmpty, isSpace]
    simp [hb2]

/-- An opening bracket on a full stack is an error. -/
theorem next_open_full (S : List Frame) (top : Option Value) (h : maxNestingDepth ≤ S.length) :
    (Scanner.mk Step.beginValue S top).next '[' = Scanner.error
      ∧ (Scanner.mk Step.beginValueOrEmpty S top).next '[' = Scanner.error := by
  have hb : stateBeginValue (Scanner.mk Step.beginValue S top) '[' = Scanner.error := by
    simp only [stateBeginValue, isSpace, pushParseState, List.length_cons]
    simp
    intro h1
    omega
  have hb2 : stateBeginValue (Scanner.mk Step.beginValueOrEmpty S top) '[' = Scanner.error := by
    simp only [stateBeginValue, isSpace, pushParseState, List.length_cons]
    simp
    intro h1
    omega
  constructor
  · simp only [Scanner.next, hb]
  · simp only [Scanner.next, stateBeginValueOrEmpty, isSpace]
    simp [hb2]

/-- The scanner after n opening brackets: n open arrays more. -/
theorem run_open : ∀ (n : Nat) (S : List Frame), S.length + n ≤ maxNestingDepth →
    (Scanner.mk Step.beginValueOrEmpty S none).run (List.replicate n '[')
      = Scanner.mk Step.beginValueOrEmpty (List.replicate n (Frame.parseArrayValue []) ++ S)
          none := by
  intro n
  induction n with
  | zero => intro S _; rfl
  | succ n ih =>
    intro S h
    rw [List.replicate_succ, Scanner.run_cons, (next_open S none (by omega)).2,
      ih _ (by simp only [List.length_cons]; omega)]
    congr 1
    rw [List.replicate_succ', List.append_assoc]
    rfl

/-- More opening brackets than the stack has room for are an error. -/
theorem run_open_overflow (n : Nat) (S : List Frame) (rest : List Char)
    (hS : S.length ≤ maxNestingDepth) (h : maxNestingDepth < S.length + n) :
    ((Scanner.mk Step.beginValueOrEmpty S none).run (List.replicate n '[' ++ rest)).eof
      = none := by
  obtain ⟨b, hb⟩ : ∃ b, n = (maxNestingDepth - S.length) + (b + 1) :=
    ⟨n - (maxNestingDepth - S.length) - 1, by omega⟩
  have hsplit : List.replicate n '[' ++ rest
      = List.replicate (maxNestingDepth - S.length) '[' ++ ('[' :: (List.replicate b '[' ++ rest)) := by
    rw [hb, List.replicate_add, List.replicate_succ, List.append_assoc]
    rfl
  rw [hsplit, Scanner.run_append, run_open _ _ (by omega), Scanner.run_cons,
    (next_open_full _ none (by simp only [List.length_append, List.length_replicate]; omega)).2,
    Scanner.run_error]
  rfl

theorem replicate_append_cons {α : Type} (n : Nat) (x : α) (l : List α) :
    List.replicate n x ++ x :: l = x :: (List.replicate n x ++ l) := by
  induction n with
  | zero => rfl
  | succ n ih => rw [List.replicate_succ, List.cons_append, ih, List.cons_append]

/-- The scanner after the closing brackets of k arrays that hold one value more than the
arrays inside an object member. -/
theorem run_close (members : List (String × Value)) (key : String) (S : List Frame) :
    ∀ (k j : Nat),
    (finishValue (List.replicate k (Frame.parseArrayValue [])
        ++ Frame.parseObjectValue members (some key) :: S) (nestedArray j)).run
      (List.replicate k ']')
      = finishValue (Frame.parseObjectValue members (some key) :: S) (nestedArray (j + k)) := by
  intro k
  induction k with
  | zero => intro j; rfl
  | succ k ih =>
    intro j
    rw [List.replicate_succ, List.replicate_succ, Scanner.run_cons]
    have hstep : (finishValue (Frame.parseArrayValue [] :: (List.replicate k
          (Frame.parseArrayValue []) ++ Frame.parseObjectValue members (some key) :: S))
          (nestedArray j)).next ']'
        = finishValue (List.replicate k (Frame.parseArrayValue [])
            ++ Frame.parseObjectValue members (some key) :: S) (nestedArray (j + 1)) := by
      simp only [finishValue, Scanner.next, stateEndValue, isSpace, List.nil_append]
      cases k with
      | zero => simp [popParseState, finishValue, nestedArray]
      | succ k => simp [popParseState, finishValue, nestedArray, List.replicate_succ]
    rw [List.cons_append, hstep, ih, show j + 1 + k = j + (k + 1) by omega]

/-- The scanner over the brackets of n + 1 nested arrays, as the value of an object
member. -/
theorem run_nested (members : List (String × Value)) (key : String) (S : List Frame) (n : Nat)
    (top : Option Value) (h : S.length + 1 + (n + 1) ≤ maxNestingDepth) :
    (Scanner.mk Step.beginValue (Frame.parseObjectValue members (some key) :: S) top).run
      (List.replicate (n + 1) '[' ++ List.replicate (n + 1) ']')
      = Scanner.mk Step.endValue
          (Frame.parseObjectValue (members ++ [(key, nestedArray n)]) none :: S) none := by
  rw [Scanner.run_append, List.replicate_succ, Scanner.run_cons,
    (next_open _ top (by simp only [List.length_cons]; omega)).1,
    run_open n _ (by simp only [List.length_cons]; omega), List.replicate_succ, Scanner.run_cons]
  have hstep : (Scanner.mk Step.beginValueOrEmpty (List.replicate n (Frame.parseArrayValue [])
        ++ Frame.parseArrayValue [] :: Frame.parseObjectValue members (some key) :: S) none).next ']'
      = finishValue (List.replicate n (Frame.parseArrayValue [])
          ++ Frame.parseObjectValue members (some key) :: S) (nestedArray 0) := by
    have hsw : List.replicate n (Frame.parseArrayValue [])
        ++ Frame.parseArrayValue [] :: Frame.parseObjectValue members (some key) :: S
        = Frame.parseArrayValue [] :: (List.replicate n (Frame.parseArrayValue [])
          ++ Frame.parseObjectValue members (some key) :: S) := by
      exact replicate_append_cons n _ _
    rw [hsw]
    simp only [Scanner.next, stateBeginValueOrEmpty, stateEndValue, isSpace]
    cases n with
    | zero => simp [popParseState, nestedArray]
    | succ n => simp [popParseState, nestedArray, List.replicate_succ]
  rw [hstep, run_close, Nat.zero_add]
  rfl

/-- Decoding nested empty arrays into an empty interface gives them back. -/
theorem toInterface_nestedArray : ∀ n, toInterface (nestedArray n) = some (nestedArray n) := by
  intro n
  induction n with
  | zero => simp [nestedArray, toInterface, elemsToInterface]
  | succ n ih => simp [nestedArray, toInterface, elemsToInterface, ih]

/-- At the end of the input after an error, the scanner reports the error. -/
theorem run_step_error (s : Scanner) (h : s.step = Step.error) (cs : List Char) :
    (s.run cs).eof = none := by
  have hn : ∀ c, s.next c = Scanner.error := by
    intro c
    simp [Scanner.next, h]
  cases cs with
  | nil =>
    show s.eof = none
    simp [Scanner.eof, h, hn, Scanner.error]
  | cons c cs =>
    rw [Scanner.run_cons, hn, Scanner.run_error]
    rfl

/-- On a text without spaces and without the characters that it escapes, compact checks the
text and writes it as it is. -/
theorem compactLoop_plain : ∀ (src : List Char) (s : Scanner) (dst : List Char),
    (∀ c ∈ src, isCompactPlain c = true) →
    compactLoop s src dst = if ((s.run src).eof).isSome then some (dst ++ src) else none := by
  intro src
  induction src with
  | nil =>
    intro s dst _
    simp [compactLoop, Scanner.run]
  | cons c cs ih =>
    intro s dst h
    have hc := h c (by simp)
    simp only [isCompactPlain, Bool.and_eq_true, Bool.not_eq_true', bne_iff_ne, ne_eq,
      decide_eq_true_eq] at hc
    obtain ⟨⟨⟨⟨⟨h1, h2⟩, h3⟩, h4⟩, h5⟩, h6⟩ := hc
    have hesc : ¬ (c = '<' ∨ c = '>' ∨ c = '&') := by
      rintro (h | h | h)
      · exact h2 h
      · exact h3 h
      · exact h4 h
    have hls : ¬ (c.toNat = 0x2028 ∨ c.toNat = 0x2029) := by
      rintro (h | h)
      · exact h5 h
      · exact h6 h
    unfold compactLoop
    simp only [hesc, hls, if_false, ne_eq, not_true_eq_false, h1, Bool.false_and,
      Bool.false_eq_true]
    rw [Scanner.run_cons]
    cases hst : (s.next c).step with
    | error =>
      simp only []
      rw [run_step_error _ hst]
      rfl
    | _ =>
      simp only []
      rw [ih _ _ (fun x hx => h x (by simp [hx]))]
      simp

/-- The loop of compact succeeds exactly when the scanner accepts the text. -/
theorem compactLoop_isSome : ∀ (src : List Char) (s : Scanner) (dst : List Char),
    (compactLoop s src dst).isSome = ((s.run src).eof).isSome := by
  intro src
  induction src with
  | nil =>
    intro s dst
    unfold compactLoop
    split_ifs with h
    · simpa [Scanner.run] using h.symm
    · simpa [Scanner.run] using h
  | cons c cs ih =>
    intro s dst
    unfold compactLoop
    rw [Scanner.run_cons]
    cases hst : (s.next c).step with
    | error =>
      simp only []
      rw [run_step_error _ hst]
      rfl
    | _ =>
      simp only []
      split_ifs <;> exact ih _ _

/-- Marshal writes a raw message that is valid JSON. -/
theorem compact_isSome (data : String) (h : (json.parse data).isSome = true) :
    (compact data.data).isSome = true := by
  unfold compact
  rw [compactLoop_isSome]
  exact h

end json

namespace netutil

set_option maxRecDepth 1000000 in
theorem run_deepHead : Scanner.init.run deepHead
    = Scanner.mk Step.beginValue
        [Frame.parseObjectValue [("name", Value.string "deep"),
          ("plugins", Value.array [Value.object [("type", Value.string "bridge")]])]
          (some "x")] none := by
  rfl

theorem deepText_data : deepText.data = deepHead ++ (deepOpen ++ (deepClose ++ ['}'])) := rfl

set_option maxRecDepth 1000000 in
/-- The text deepText is valid JSON: it holds the document deepDoc. -/
theorem parse_deepText : json.parse deepText = some deepDoc := by
  unfold json.parse
  rw [deepText_data, ← List.append_assoc deepOpen, Scanner.run_append, Scanner.run_append,
    run_deepHead]
  have h1 : deepOpen = List.replicate (9998 + 1) '[' := rfl
  have h2 : deepClose = List.replicate (9998 + 1) ']' := rfl
  rw [h1, h2, run_nested _ _ _ _ _ (by simp [maxNestingDepth])]
  simp [Scanner.run, Scanner.next, stateEndValue, isSpace, popParseState, Scanner.eof, deepDoc]

set_option maxRecDepth 100000 in
set_option maxHeartbeats 4000000 in
theorem confList_of_deepDoc (data : String) (v : Value) (hv : toInterface v = some v)
    (h : json.parse data = some (Value.object
      [("name", Value.string "deep"),
       ("plugins", Value.array [Value.object [("type", Value.string "bridge")]]),
       ("x", v)])) :
    libcni.ConfListFromBytes data = Except.ok
      (libcni.NetworkConfigList.mk "deep" "" false [libcni.NetConf.mk "" "" "bridge"] data) := by
  simp [libcni.ConfListFromBytes, json.unmarshalMap, h, membersToInterface,
    toInterface, elemsToInterface, mapSet, mapGet, stringLess, confsFromValues, confFromValue,
    decodeNetConf, decodeNetConfMembers, fieldMatch, equalFold, foldChar, storeString, ipamOk,
    capabilitiesOk, boolOrNull, stringOrNull, hv]

set_option maxRecDepth 100000 in
theorem isExternal_of_deepDoc (data : String) (v : Value)
    (h : json.parse data = some (Value.object
      [("name", Value.string "deep"),
       ("plugins", Value.array [Value.object [("type", Value.string "bridge")]]),
       ("x", v)])) :
    IsExternalConfigList data = true := by
  simp [IsExternalConfigList, unmarshalNerdctlConfigList, h, decodeNerdctlMembers,
    fieldMatch, equalFold, foldChar, storeBool]

theorem confList_deepText : libcni.ConfListFromBytes deepText = Except.ok deepList :=
  confList_of_deepDoc deepText _ (toInterface_nestedArray 9998) parse_deepText

/-- ConfigLists on a directory. -/
theorem ConfigLists_dir (fmtFloat : String → String) (entries : List os.DirEntry) (w : Bool)
    (dir : String) :
    ConfigLists fmtFloat (os.DirState.dir entries w) dir =
      loadConfigLists fmtFloat (os.DirState.dir entries w) dir
        (sort.Strings ((((entries.foldr os.insertEntry []).filter recognized).map
          (fun e => e.name)).map (fun n => filepath.Join [dir, n])))
        [generated (ConfigListTemplateOpts.mk "nerdctl" "cni-nerdctl0" "10.4.0.0/16" "10.4.0.1")] := by
  rw [ConfigLists_eq]

/-- The loop of ConfigLists over one file that loads. -/
theorem loadConfigLists_single (fmtFloat : String → String) (st : os.DirState)
    (dir f : String) (acc : List NetworkConfigList) (lcl : libcni.NetworkConfigList)
    (h : loadFile fmtFloat st dir f = Except.ok lcl) :
    loadConfigLists fmtFloat st dir [f] acc
      = Except.ok (acc ++ [descriptorOf f lcl]) := by
  simp only [loadConfigLists, h, descriptorOf]

set_option maxRecDepth 1000000 in
/-- ConfigLists on the directory with the file deep.conflist: the default, and the
descriptor of the file. -/
theorem ConfigLists_deepDir :
    ConfigLists id deepDir "/etc/cni/net.d" = Except.ok
      [generated (ConfigListTemplateOpts.mk "nerdctl" "cni-nerdctl0" "10.4.0.0/16" "10.4.0.1"),
       NetworkConfigList.mk deepList false "/etc/cni/net.d/deep.conflist"] := by
  have hfiles : sort.Strings (((([os.DirEntry.mk "deep.conflist" false deepText].foldr
      os.insertEntry []).filter recognized).map (fun e => e.name)).map
        (fun n => filepath.Join ["/etc/cni/net.d", n]))
      = ["/etc/cni/net.d/deep.conflist"] := by
    decide
  have hread : os.ReadFile (os.DirState.dir [os.DirEntry.mk "deep.conflist" false deepText] true)
      "/etc/cni/net.d" "/etc/cni/net.d/deep.conflist" = Except.ok deepText := by
    have hj : filepath.Join ["/etc/cni/net.d", "deep.conflist"] = "/etc/cni/net.d/deep.conflist" := by
      decide
    simp [os.ReadFile, os.lookup, hj]
  have hload : loadFile id (os.DirState.dir [os.DirEntry.mk "deep.conflist" false deepText] true)
      "/etc/cni/net.d" "/etc/cni/net.d/deep.conflist" = Except.ok deepList := by
    unfold loadFile
    rw [if_pos (by decide)]
    unfold libcni.ConfListFromFile
    rw [hread]
    exact confList_deepText
  have hext : IsExternalConfigList deepList.Bytes = true :=
    isExternal_of_deepDoc deepText _ parse_deepText
  unfold deepDir
  rw [ConfigLists_dir, hfiles, loadConfigLists_single _ _ _ _ _ _ hload]
  unfold descriptorOf
  rw [hext]
  rfl
theorem deepText_plain : ∀ c ∈ deepText.data, isCompactPlain c = true := by
  intro c hc
  rw [deepText_data] at hc
  simp only [List.mem_append, deepOpen, deepClose, List.mem_replicate, List.mem_singleton] at hc
  rcases hc with hc | hc | hc | hc
  · revert c
    decide
  · rw [hc.2]; decide
  · rw [hc.2]; decide
  · rw [hc]; decide

theorem compact_deepText : json.compact deepText.data = some deepText.data := by
  unfold json.compact
  rw [compactLoop_plain _ _ _ deepText_plain]
  have : (Scanner.init.run deepText.data).eof = some deepDoc := parse_deepText
  rw [this]
  rfl

set_option maxRecDepth 1000000 in
theorem run_wrapHead : Scanner.init.run ('[' :: '{' :: ("\"CNI\":".data ++ deepHead))
    = Scanner.mk Step.beginValue
        [Frame.parseObjectValue [("name", Value.string "deep"),
          ("plugins", Value.array [Value.object [("type", Value.string "bridge")]])]
          (some "x"),
         Frame.parseObjectValue [] (some "CNI"),
         Frame.parseArrayValue []] none := by
  rfl

theorem deepText_ne_empty : deepText ≠ "" := by
  intro h
  have h2 : deepText.data = "".data := by rw [h]
  rw [deepText_data] at h2
  exact absurd h2 (by simp [deepHead])

end netutil

namespace native

/-- Marshal of a slice of one network whose CNI is not empty and is valid JSON. -/
theorem Marshal_single (cni : String) (nerdctl : Bool) (file : String) (out : List Char)
    (hne : cni ≠ "") (hc : json.compact cni.data = some out) :
    Marshal [Network.mk cni nerdctl file]
      = some ('[' :: ('{' :: "\"CNI\":".data ++ out ++ ',' :: ("\"Nerdctl\":".data
          ++ (if nerdctl = true then "true".data else "false".data))
          ++ (if file = "" then [] else ",\"File\":".data ++ json.quote file.data) ++ ['}'])
          ++ [']']) := by
  simp only [Marshal, marshalElems, Network.marshal, hne, if_false, hc]

/-- Marshal of a network succeeds when its raw message is empty or valid JSON. -/
theorem Network.marshal_isSome (r : Network)
    (h : r.CNI = "" ∨ (json.parse r.CNI).isSome = true) : r.marshal.isSome = true := by
  unfold Network.marshal
  by_cases he : r.CNI = ""
  · simp [he]
  · have hp := h.resolve_left he
    have hc := json.compact_isSome r.CNI hp
    cases hcc : json.compact r.CNI.data with
    | none => rw [hcc] at hc; simp at hc
    | some cni => simp [he]

theorem marshalElems_isSome : ∀ (rs : List Network),
    (∀ r ∈ rs, r.CNI = "" ∨ (json.parse r.CNI).isSome = true) →
    (marshalElems rs).isSome = true := by
  intro rs
  induction rs with
  | nil => intro _; rfl
  | cons r rs ih =>
    intro h
    have h1 := Network.marshal_isSome r (h r (by simp))
    have h2 := ih (fun x hx => h x (by simp [hx]))
    unfold marshalElems
    cases hm : r.marshal with
    | none => rw [hm] at h1; simp at h1
    | some a =>
      cases hr : marshalElems rs with
      | none => rw [hr] at h2; simp at h2
      | some b =>
        cases rs with
        | nil => rfl
        | cons x xs => rfl

/-- Marshal of a slice of networks succeeds when the raw messages are valid JSON. -/
theorem Marshal_isSome (rs : List Network)
    (h : ∀ r ∈ rs, r.CNI = "" ∨ (json.parse r.CNI).isSome = true) :
    (Marshal rs).isSome = true := by
  unfold Marshal
  cases rs with
  | nil => rfl
  | cons r rs =>
    simp only []
    have := marshalElems_isSome (r :: rs) h
    cases hm : marshalElems (r :: rs) with
    | none => rw [hm] at this; simp at this
    | some b => rfl

end native

namespace netutil

theorem wrap_assoc (K H O Z N F : List Char) :
    '[' :: ('{' :: K ++ (H ++ (O ++ Z)) ++ ',' :: N ++ F ++ ['}']) ++ [']']
      = ('[' :: '{' :: (K ++ H)) ++ (O ++ (Z ++ ',' :: N ++ F ++ ['}', ']'])) := by
  simp [List.append_assoc]

/-- MarshalIndent fails when the scanner of Indent refuses the text that Marshal writes. -/
theorem MarshalIndent_of_Marshal (result : List native.Network) (b : List Char)
    (h : native.Marshal result = some b) (hs : (Scanner.init.run b).eof = none) :
    json.MarshalIndent result = none := by
  unfold json.MarshalIndent
  rw [h]
  simp [hs]

set_option maxRecDepth 1000000 in
/-- MarshalIndent of the network of the file deep.conflist fails: inside the array and the
object that Marshal writes around it, the document nests 10002 levels deep, more than the
scanner of Indent accepts. -/
theorem MarshalIndent_deep :
    json.MarshalIndent [native.Network.mk deepText false "/etc/cni/net.d/deep.conflist"]
      = none := by
  have hstep : ∀ rest, ((Scanner.mk Step.beginValue
        [Frame.parseObjectValue [("name", Value.string "deep"),
          ("plugins", Value.array [Value.object [("type", Value.string "bridge")]])]
          (some "x"),
         Frame.parseObjectValue [] (some "CNI"),
         Frame.parseArrayValue []] none).run (deepOpen ++ rest)).eof = none := by
    intro rest
    have h1 : deepOpen = '[' :: List.replicate 9998 '[' := rfl
    rw [h1, List.cons_append, Scanner.run_cons, (next_open _ none (by simp [maxNestingDepth])).1]
    exact run_open_overflow 9998 _ rest (by simp [maxNestingDepth]) (by simp [maxNestingDepth])
  refine MarshalIndent_of_Marshal _ _
    (native.Marshal_single _ _ _ _ deepText_ne_empty compact_deepText) ?_
  rw [deepText_data, wrap_assoc, Scanner.run_append, run_wrapHead, hstep]

end netutil

/-- The inspect action after ConfigLists has returned the lists ll: the error for the first
requested name that is the name of no list, or else what MarshalIndent makes of the networks
of the lists with a requested name. -/
theorem networkInspectAction_eq (fmtFloat : String → String) (args : List String)
    (dir : String) (st : os.DirState) (ll : List netutil.NetworkConfigList) (hargs : args ≠ [])
    (hl : netutil.ConfigLists fmtFloat st dir = Except.ok ll) :
    networkInspectAction fmtFloat args dir st =
      match args.find? (fun name => decide (¬ name ∈
        (ll.filter (fun l => decide (l.NetworkConfigList.Name ∈ args))).map
          (fun l => l.NetworkConfigList.Name))) with
      | some name => Except.error (Error.noSuchNetwork name)
      | none =>
        if (json.MarshalIndent ((ll.filter (fun l => decide (l.NetworkConfigList.Name
            ∈ args))).map native.ofConfigList)).isSome = true then
          Except.ok ((ll.filter (fun l => decide (l.NetworkConfigList.Name ∈ args))).map
            native.ofConfigList)
        else Except.error Error.marshal := by
  have hlen : ¬ args.length = 0 := by
    intro h
    exact hargs (List.length_eq_zero.1 h)
  unfold networkInspectAction
  simp only [hlen, if_false, hl, inspectLoop_eq, List.nil_append]
  cases args.find? (fun name => decide (¬ name ∈
        (ll.filter (fun l => decide (l.NetworkConfigList.Name ∈ args))).map
          (fun l => l.NetworkConfigList.Name))) with
  | some name => rfl
  | none =>
    simp only []
    cases json.MarshalIndent ((ll.filter (fun l => decide (l.NetworkConfigList.Name
        ∈ args))).map native.ofConfigList) with
    | none => simp
    | some b => simp

/-- C10, amended: for a resolved collection and a non-empty list of requested names, the
inspect action fails with "no such network" exactly when some requested name is the name of
no descriptor of the collection. Otherwise, when MarshalIndent of them succeeds, it returns
the networks of the descriptors whose name is a requested name, each once, in the order of
the collection, each with the bytes, the managed flag and the file of its descriptor; and
when MarshalIndent fails, it returns the error of MarshalIndent. Marshal itself writes these
networks without an error, so that MarshalIndent can only fail in Indent, whose scanner
refuses a text that nests deeper than maxNestingDepth. -/
theorem C10_inspect_by_name (fmtFloat : String → String) (args : List String) (dir : String)
    (st : os.DirState) (ll : List netutil.NetworkConfigList) (hargs : args ≠ [])
    (hl : netutil.ConfigLists fmtFloat st dir = Except.ok ll) :
    ((∃ n, networkInspectAction fmtFloat args dir st = Except.error (Error.noSuchNetwork n))
        ↔ ∃ n ∈ args, ∀ l ∈ ll, l.NetworkConfigList.Name ≠ n)
      ∧ ((∀ n ∈ args, ∃ l ∈ ll, l.NetworkConfigList.Name = n) →
          networkInspectAction fmtFloat args dir st
            = if (json.MarshalIndent ((ll.filter (fun l => decide (l.NetworkConfigList.Name
                ∈ args))).map native.ofConfigList)).isSome = true then
                Except.ok ((ll.filter (fun l => decide (l.NetworkConfigList.Name ∈ args))).map
                  native.ofConfigList)
              else Except.error Error.marshal)
      ∧ (native.Marshal ((ll.filter (fun l => decide (l.NetworkConfigList.Name
          ∈ args))).map native.ofConfigList)).isSome = true := by
  have hmarshal : (native.Marshal ((ll.filter (fun l => decide (l.NetworkConfigList.Name
      ∈ args))).map native.ofConfigList)).isSome = true := by
    apply native.Marshal_isSome
    intro r hr
    simp only [List.mem_map, List.mem_filter] at hr
    obtain ⟨l, ⟨h1, -⟩, h3⟩ := hr
    subst h3
    exact Or.inr (ConfigLists_bytes_valid fmtFloat st dir ll hl l h1)
  have hfilled : ∀ n, n ∈ (ll.filter (fun l => decide (l.NetworkConfigList.Name ∈ args))).map
      (fun l => l.NetworkConfigList.Name) ↔ n ∈ args ∧ ∃ l ∈ ll, l.NetworkConfigList.Name = n := by
    intro n
    simp only [List.mem_map, List.mem_filter, decide_eq_true_eq]
    constructor
    · rintro ⟨l, ⟨h1, h2⟩, h3⟩
      exact ⟨h3 ▸ h2, l, h1, h3⟩
    · rintro ⟨h1, l, h2, h3⟩
      exact ⟨l, ⟨h2, h3 ▸ h1⟩, h3⟩
  rw [networkInspectAction_eq fmtFloat args dir st ll hargs hl]
  refine ⟨?_, ?_, hmarshal⟩
  · constructor
    · rintro ⟨n, hn⟩
      cases hf : args.find? (fun name => decide (¬ name ∈
        (ll.filter (fun l => decide (l.NetworkConfigList.Name ∈ args))).map
          (fun l => l.NetworkConfigList.Name))) with
      | none =>
        rw [hf] at hn
        simp only [] at hn
        split_ifs at hn
        all_goals simp at hn
      | some m =>
        have h1 := List.find?_some hf
        have h2 := List.mem_of_find?_eq_some hf
        simp only [decide_eq_true_eq, hfilled, not_and] at h1
        refine ⟨m, h2, fun l hl1 hl2 => ?_⟩
        exact h1 h2 ⟨l, hl1, hl2⟩
    · rintro ⟨n, hn1, hn2⟩
      cases hf : args.find? (fun name => decide (¬ name ∈
        (ll.filter (fun l => decide (l.NetworkConfigList.Name ∈ args))).map
          (fun l => l.NetworkConfigList.Name))) with
      | none =>
        have := List.find?_eq_none.1 hf n hn1
        simp only [decide_eq_true_eq, hfilled, not_not] at this
        obtain ⟨-, l, h1, h2⟩ := this
        exact absurd h2 (hn2 l h1)
      | some m => exact ⟨m, rfl⟩
  · intro hall
    cases hf : args.find? (fun name => decide (¬ name ∈
        (ll.filter (fun l => decide (l.NetworkConfigList.Name ∈ args))).map
          (fun l => l.NetworkConfigList.Name))) with
    | none => rfl
    | some m =>
      have h1 := List.find?_some hf
      have h2 := List.mem_of_find?_eq_some hf
      simp only [decide_eq_true_eq, hfilled, not_and] at h1
      obtain ⟨l, hl1, hl2⟩ := hall m h2
      exact absurd ⟨l, hl1, hl2⟩ (h1 h2)

set_option maxRecDepth 1000000 in
/-- C10 on the example directory, for the requested names "bnet", "nerdctl" and "bnet"
again: MarshalIndent succeeds, the default comes first although it was requested second,
and the network "bnet" comes once. -/
theorem C10_inspect_by_name_witness :
    (networkInspectAction id ["bnet", "nerdctl", "bnet"] "/etc/cni/net.d"
        netutil.exampleDir).map (fun r => r.map (fun n => (n.Nerdctl, n.File)))
      = Except.ok [(true, ""), (false, "/etc/cni/net.d/b.conflist")]
    ∧ ∃ ll, netutil.ConfigLists id netutil.exampleDir "/etc/cni/net.d" = Except.ok ll
      ∧ networkInspectAction id ["bnet", "nerdctl", "bnet"] "/etc/cni/net.d" netutil.exampleDir
          = Except.ok ((ll.filter (fun l => decide (l.NetworkConfigList.Name
              ∈ ["bnet", "nerdctl", "bnet"]))).map native.ofConfigList) := by
  have hev : (netutil.ConfigLists id netutil.exampleDir "/etc/cni/net.d").map
        (fun l => l.map (fun x => x.NetworkConfigList.Name))
      = Except.ok ["nerdctl", "anet", "bnet"] := by
    rw [ConfigLists_eq]
    decide!
  have hrun : (networkInspectAction id ["bnet", "nerdctl", "bnet"] "/etc/cni/net.d"
        netutil.exampleDir).map (fun r => r.map (fun n => (n.Nerdctl, n.File)))
      = Except.ok [(true, ""), (false, "/etc/cni/net.d/b.conflist")] := by
    unfold networkInspectAction
    rw [ConfigLists_eq]
    decide!
  cases hl : netutil.ConfigLists id netutil.exampleDir "/etc/cni/net.d" with
  | error e => rw [hl] at hev; exact absurd hev (by simp [Except.map])
  | ok ll =>
    rw [hl] at hev
    have hnames : ll.map (fun x => x.NetworkConfigList.Name) = ["nerdctl", "anet", "bnet"] := by
      simpa [Except.map] using hev
    have hmem : ∀ n, n ∈ ["nerdctl", "anet", "bnet"] → ∃ l ∈ ll, l.NetworkConfigList.Name = n := by
      intro n hn
      rw [← hnames, List.mem_map] at hn
      exact hn
    have h := (C10_inspect_by_name id ["bnet", "nerdctl", "bnet"] "/etc/cni/net.d"
      netutil.exampleDir ll (by simp) hl).2.1 (by
        intro n hn
        apply hmem
        simp only [List.mem_cons, List.mem_singleton, List.not_mem_nil, or_false] at hn ⊢
        rcases hn with h | h | h <;> simp [h])
    refine ⟨hrun, ll, rfl, ?_⟩
    rw [h]
    split_ifs with hm
    · rfl
    · rw [h, if_neg hm] at hrun
      exact absurd hrun (by simp [Except.map])

set_option maxRecDepth 1000000 in
/-- C10 as stated fails: the file deep.conflist holds a configuration list with the name
"deep" whose JSON nests 10000 levels deep. ConfigLists returns its descriptor after the
default, the requested name "deep" is the name of that descriptor, and yet the inspect
action returns no networks: MarshalIndent fails, because its output nests deeper than the
scanner of Indent accepts. -/
theorem C10_counterexample :
    netutil.ConfigLists id netutil.deepDir "/etc/cni/net.d" = Except.ok
        [generated (ConfigListTemplateOpts.mk "nerdctl" "cni-nerdctl0" "10.4.0.0/16" "10.4.0.1"),
         netutil.NetworkConfigList.mk netutil.deepList false "/etc/cni/net.d/deep.conflist"]
      ∧ netutil.deepList.Name = "deep"
      ∧ networkInspectAction id ["deep"] "/etc/cni/net.d" netutil.deepDir
          = Except.error Error.marshal := by
  refine ⟨ConfigLists_deepDir, rfl, ?_⟩
  rw [networkInspectAction_eq id ["deep"] "/etc/cni/net.d" netutil.deepDir _ (by simp)
    ConfigLists_deepDir]
  have hd : (generated (ConfigListTemplateOpts.mk "nerdctl" "cni-nerdctl0" "10.4.0.0/16"
      "10.4.0.1")).NetworkConfigList.Name = "nerdctl" := by decide
  have hsel : [generated (ConfigListTemplateOpts.mk "nerdctl" "cni-nerdctl0" "10.4.0.0/16"
        "10.4.0.1"),
      netutil.NetworkConfigList.mk netutil.deepList false "/etc/cni/net.d/deep.conflist"].filter
        (fun l => decide (l.NetworkConfigList.Name ∈ ["deep"]))
      = [netutil.NetworkConfigList.mk netutil.deepList false "/etc/cni/net.d/deep.conflist"] := by
    simp [List.filter_cons, hd, deepList]
  rw [hsel]
  have hmap : [netutil.NetworkConfigList.mk netutil.deepList false
        "/etc/cni/net.d/deep.conflist"].map native.ofConfigList
      = [native.Network.mk deepText false "/etc/cni/net.d/deep.conflist"] := rfl
  have hnames : [netutil.NetworkConfigList.mk netutil.deepList false
        "/etc/cni/net.d/deep.conflist"].map (fun l => l.NetworkConfigList.Name) = ["deep"] := rfl
  rw [hmap, hnames, MarshalIndent_deep]
  decide
